import Mathlib

/-!
# Verification of the focus-breaker alert scheduling store

Shallow embedding of `pkg/models/alert.go`, `pkg/models/event.go` and
`pkg/models/config.go` (package `store` / `models` of borgmon/focus-breaker).

Modelling conventions:
* `time.Time` is modelled as `Int` (Unix seconds).  All constructed times in
  the Go code are whole seconds in the scenarios of interest;
  `Time.Truncate(time.Minute)` floors to the minute, which matches `Int`
  euclidean division by 60.
* Go maps are modelled as association lists with `alookup` / `ainsert` /
  `aerase` (insert replaces an existing key in place, otherwise appends).
* Go pointers (`*ScheduledAlert`): alerts live in an append-only heap
  addressed by `Nat`; both indices (`alertsById`, `alertsByTime`) store heap
  addresses, so in-place mutation through one index is visible through the
  other, exactly as with Go pointers.  The heap address also plays the role
  of the `uuid` instance identifier (which the Go code never reads).
* Each mutating operation is defined as a `...C` function returning
  `AlertStore × Bool`; the `AlertStore` component is the translation of the
  Go code, and the `Bool` component is instrumentation recording that no
  insertion overwrote an existing composite key (and, for snooze, that the
  found alert's event id equals the parameter).  The plain operation is the
  first projection.
-/

namespace FocusBreaker

/-- Association list lookup (first match), modelling Go map read. -/
def alookup {κ β : Type} [DecidableEq κ] (k : κ) : List (κ × β) → Option β
  | [] => none
  | (k', v) :: rest => if k' = k then some v else alookup k rest

/-- Association list insert, modelling Go map write: replaces the first
entry with the given key in place, otherwise appends. -/
def ainsert {κ β : Type} [DecidableEq κ] (k : κ) (v : β) : List (κ × β) → List (κ × β)
  | [] => [(k, v)]
  | (k', v') :: rest => if k' = k then (k, v) :: rest else (k', v') :: ainsert k v rest

/-- Association list erase (first match), modelling Go `delete`. -/
def aerase {κ β : Type} [DecidableEq κ] (k : κ) : List (κ × β) → List (κ × β)
  | [] => []
  | (k', v') :: rest => if k' = k then rest else (k', v') :: aerase k rest

/-- The keys of an association list. -/
def keysOf {κ β : Type} (l : List (κ × β)) : List κ := l.map Prod.fst

/-- `models.RoundToMinute`: rounds a time down to the nearest minute. -/
def roundToMinute (t : Int) : Int := 60 * (t / 60)

/-- `models.AlertStatus`. -/
inductive AlertStatus where
  | Pending
  | Alerted
  | Snoozed
  | Muted
deriving DecidableEq, Repr

/-- `models.Event`. -/
structure Event where
  id : String
  title : String
  description : String
  startTime : Int
  endTime : Int
  meetingLink : String
  status : String
  sourceID : String
deriving DecidableEq, Repr

/-- `models.ScheduledAlert` (the uuid `ID` field is the heap address). -/
structure ScheduledAlert where
  eventID : String
  status : AlertStatus
  alertTime : Int
  alertOffset : Int
deriving DecidableEq, Repr

instance : Inhabited ScheduledAlert := ⟨⟨"", .Pending, 0, 0⟩⟩

/-- `models.TimeRange` (quiet-time range within a day). -/
structure TimeRange where
  startHour : Int
  startMinute : Int
  endHour : Int
  endMinute : Int
deriving DecidableEq, Repr

/-- `models.Config` (only the field the alert store reads). -/
structure Config where
  quietTimeRanges : List TimeRange
deriving DecidableEq, Repr

/-- Minutes of the day of a timestamp, as computed by Go's
`t.Hour()*60 + t.Minute()`. -/
def minutesOfDay (t : Int) : Int := (t / 60) % 1440

/-- `Config.IsTimeInQuietTime`. -/
def Config.isTimeInQuietTime (c : Config) (t : Int) : Bool :=
  if c.quietTimeRanges.isEmpty then false
  else
    c.quietTimeRanges.any fun tr =>
      let currentMinutes := minutesOfDay t
      let startMinutes := tr.startHour * 60 + tr.startMinute
      let endMinutes := tr.endHour * 60 + tr.endMinute
      if endMinutes < startMinutes then
        decide (startMinutes ≤ currentMinutes) || decide (currentMinutes < endMinutes)
      else
        decide (startMinutes ≤ currentMinutes) && decide (currentMinutes < endMinutes)

/-- `store.AlertStore`.  `heap` holds the alert objects (Go pointers);
`alertsById` and `alertsByTime` hold heap addresses. -/
structure AlertStore where
  events : List (String × Event)
  heap : List (Nat × ScheduledAlert)
  alertsById : List (String × Nat)
  alertsByTime : List (Int × List Nat)
  fresh : Nat
deriving DecidableEq, Repr

/-- `store.NewAlertStore`. -/
def emptyStore : AlertStore := ⟨[], [], [], [], 0⟩

/-- `store.generateAlertID`: `fmt.Sprintf("%s-%d", eventID, alertOffset)`. -/
def generateAlertID (eventID : String) (alertOffset : Int) : String :=
  eventID ++ "-" ++ toString alertOffset

/-- Dereference a heap address (Go pointer dereference; addresses handed out
by the store are always allocated, so the default is never reached on states
satisfying the store invariant). -/
def heapGet (s : AlertStore) (r : Nat) : ScheduledAlert :=
  (alookup r s.heap).getD default

/-- In-place mutation of the alert a heap address points to. -/
def heapSet (s : AlertStore) (r : Nat) (a : ScheduledAlert) : AlertStore :=
  { s with heap := ainsert r a s.heap }

/-- Read of `as.alertsByTime[timeKey]` (missing key yields the empty list,
as for a Go map of slices). -/
def bucketGet (s : AlertStore) (k : Int) : List Nat :=
  (alookup k s.alertsByTime).getD []

/-- `as.alertsByTime[timeKey] = append(as.alertsByTime[timeKey], alert)`. -/
def bucketAppend (s : AlertStore) (k : Int) (r : Nat) : AlertStore :=
  { s with alertsByTime := ainsert k (bucketGet s k ++ [r]) s.alertsByTime }

/-- The loop body of `removeAlertFromTimeIndex`: remove the first alert of
the bucket whose generated id matches, leaving the rest. -/
def removeFirstByGenID (s : AlertStore) (alertID : String) : List Nat → List Nat
  | [] => []
  | r :: rest =>
    let a := heapGet s r
    if generateAlertID a.eventID a.alertOffset = alertID then rest
    else r :: removeFirstByGenID s alertID rest

/-- `store.removeAlertFromTimeIndex`. -/
def removeAlertFromTimeIndex (s : AlertStore) (timeKey : Int) (alertID : String) :
    AlertStore :=
  let alerts := removeFirstByGenID s alertID (bucketGet s timeKey)
  if alerts.isEmpty then { s with alertsByTime := aerase timeKey s.alertsByTime }
  else { s with alertsByTime := ainsert timeKey alerts s.alertsByTime }

/-- Shared body of the per-alert deletion in `removeEvent` and in the
config-diff removal loop of `updateAlertsForEvent`: remove the alert from its
time bucket, then delete it from `alertsById`. -/
def removeAlertEntry (s : AlertStore) (kid : String) (r : Nat) : AlertStore :=
  let a := heapGet s r
  let s1 := removeAlertFromTimeIndex s (roundToMinute a.alertTime) kid
  { s1 with alertsById := aerase kid s1.alertsById }

/-- Allocate a new alert object and insert it into both indices (the common
shape of every alert insertion in the Go code: write to `alertsById`, then
append to the time bucket of its fire time).  The `Bool` records that the
composite key was not already present. -/
def insertAlertC (s : AlertStore) (key : String) (a : ScheduledAlert) :
    AlertStore × Bool :=
  let ok := (alookup key s.alertsById).isNone
  let r := s.fresh
  let s1 := { s with heap := s.heap ++ [(r, a)], fresh := r + 1 }
  let s2 := { s1 with alertsById := ainsert key r s1.alertsById }
  (bucketAppend s2 (roundToMinute a.alertTime) r, ok)

/-- The loop body of `createAlertsForEventWithConfig` for one configured
offset. -/
def createStep (now : Int) (eventID : String) (event : Event)
    (config : Option Config) (acc : AlertStore × Bool) (minutes : Int) :
    AlertStore × Bool :=
  let alertTime := event.startTime - 60 * minutes
  if alertTime < now then acc
  else
    let status :=
      match config with
      | some c => if c.isTimeInQuietTime alertTime then AlertStatus.Muted
                  else AlertStatus.Pending
      | none => AlertStatus.Pending
    let p := insertAlertC acc.1 (generateAlertID eventID (-minutes))
      ⟨eventID, status, alertTime, -minutes⟩
    (p.1, acc.2 && p.2)

/-- `store.createAlertsForEventWithConfig`. -/
def createAlertsForEventWithConfigC (s : AlertStore) (now : Int) (eventID : String)
    (event : Event) (alertMinutes : List Int) (config : Option Config) :
    AlertStore × Bool :=
  alertMinutes.foldl (createStep now eventID event config) (s, true)

/-- The existing-alert branch of `updateAlertsForEvent`: remove from the old
time slot, update the alert time in place (keeping the status), append to the
new time slot. -/
def relocateAlert (s : AlertStore) (alertID : String) (r : Nat) (newTime : Int) :
    AlertStore :=
  let a := heapGet s r
  let s1 := removeAlertFromTimeIndex s (roundToMinute a.alertTime) alertID
  let s2 := heapSet s1 r { a with alertTime := newTime }
  bucketAppend s2 (roundToMinute newTime) r

/-- The loop body of the per-offset loop of `updateAlertsForEvent`
(lines 163-200) for one configured offset. -/
def phase1Step (now : Int) (eventID : String) (event : Event)
    (acc : AlertStore × Bool) (minutes : Int) : AlertStore × Bool :=
  let alertID := generateAlertID eventID (-minutes)
  match alookup alertID acc.1.alertsById with
  | some r =>
    (relocateAlert acc.1 alertID r (event.startTime - 60 * minutes), acc.2)
  | none =>
    let alertTime := event.startTime - 60 * minutes
    if alertTime < now then acc
    else
      let p := insertAlertC acc.1 alertID
        ⟨eventID, AlertStatus.Pending, alertTime, -minutes⟩
      (p.1, acc.2 && p.2)

/-- The per-offset loop of `updateAlertsForEvent` (lines 163-200). -/
def updateAlertsPhase1C (s : AlertStore) (now : Int) (eventID : String)
    (event : Event) (alertMinutes : List Int) : AlertStore × Bool :=
  alertMinutes.foldl (phase1Step now eventID event) (s, true)

/-- The victim predicate of the config-diff removal loop of
`updateAlertsForEvent` (line 209): an alert of this event with a negative
offset that is no longer configured. -/
def phase2Victim (s : AlertStore) (eventID : String) (alertMinutes : List Int)
    (p : String × Nat) : Bool :=
  let a := heapGet s p.2
  decide (a.eventID = eventID) && decide (a.alertOffset < 0) &&
    !(decide ((-a.alertOffset) ∈ alertMinutes))

/-- The config-diff removal loop of `updateAlertsForEvent` (lines 202-214):
delete every alert of this event whose negative offset is no longer
configured. -/
def updateAlertsPhase2 (s : AlertStore) (eventID : String)
    (alertMinutes : List Int) : AlertStore :=
  let victims := s.alertsById.filter (phase2Victim s eventID alertMinutes)
  victims.foldl (fun acc p => removeAlertEntry acc p.1 p.2) s

/-- `store.updateAlertsForEvent`. -/
def updateAlertsForEventC (s : AlertStore) (now : Int) (eventID : String)
    (event : Event) (alertMinutes : List Int) : AlertStore × Bool :=
  let p := updateAlertsPhase1C s now eventID event alertMinutes
  (updateAlertsPhase2 p.1 eventID alertMinutes, p.2)

/-- `store.removeEvent`. -/
def removeEvent (s : AlertStore) (eventID : String) : AlertStore :=
  let s0 := { s with events := aerase eventID s.events }
  let victims := s0.alertsById.filter fun p =>
    decide ((heapGet s0 p.2).eventID = eventID)
  victims.foldl (fun acc p => removeAlertEntry acc p.1 p.2) s0

/-- The inner loop body of the old-time-slot removal of `cleanupOldAlerts`:
delete one alert of an old bucket from `alertsById`. -/
def dropAlertFromById (a2 : AlertStore) (r : Nat) : AlertStore :=
  let al := heapGet a2 r
  { a2 with
    alertsById := aerase (generateAlertID al.eventID al.alertOffset)
      a2.alertsById }

/-- One iteration of the old-time-slot removal loop of `cleanupOldAlerts`:
remove every alert of the bucket from `alertsById`, then delete the bucket. -/
def dropBucket (acc : AlertStore) (p : Int × List Nat) : AlertStore :=
  let acc1 := p.2.foldl dropAlertFromById acc
  { acc1 with alertsByTime := aerase p.1 acc1.alertsByTime }

/-- `store.cleanupOldAlerts`. -/
def cleanupOldAlerts (s : AlertStore) (cutoffTime : Int) : AlertStore :=
  let cutoffKey := roundToMinute cutoffTime
  let oldBuckets := s.alertsByTime.filter fun p => decide (p.1 < cutoffKey)
  let s1 := oldBuckets.foldl dropBucket s
  { s1 with events := s1.events.filter fun p => !decide (p.2.startTime < cutoffTime) }

/-- The field update applied to a stored event when the same id arrives again
(lines 94-100 of `UpdateEventsWithConfig`). -/
def mergeEvent (ex e : Event) : Event :=
  { ex with
    title := e.title, description := e.description,
    startTime := e.startTime, endTime := e.endTime,
    meetingLink := e.meetingLink, status := e.status }

/-- The per-event loop body of `UpdateEventsWithConfig`. -/

def reconcileStep (now cutoffTime : Int) (alertMinutes : List Int)
    (config : Option Config) (acc : AlertStore × List String × Bool)
    (event : Event) : AlertStore × List String × Bool :=
  if event.startTime < cutoffTime then acc
  else
    let seen' := event.id :: acc.2.1
    match alookup event.id acc.1.events with
    | some existingEvent =>
      let updated := { existingEvent with
        title := event.title, description := event.description,
        startTime := event.startTime, endTime := event.endTime,
        meetingLink := event.meetingLink, status := event.status }
      let s1 := { acc.1 with events := ainsert event.id updated acc.1.events }
      let p := updateAlertsForEventC s1 now event.id event alertMinutes
      (p.1, seen', acc.2.2 && p.2)
    | none =>
      let s1 := { acc.1 with events := ainsert event.id event acc.1.events }
      let p := createAlertsForEventWithConfigC s1 now event.id event
        alertMinutes config
      (p.1, seen', acc.2.2 && p.2)

/-- `store.UpdateEventsWithConfig` (12 hours = 43200 seconds). -/
def updateEventsWithConfigC (s : AlertStore) (now : Int) (newEvents : List Event)
    (alertMinutes : List Int) (config : Option Config) : AlertStore × Bool :=
  let cutoffTime := now - 43200
  let r := newEvents.foldl (reconcileStep now cutoffTime alertMinutes config)
    (s, [], true)
  let s2 := r.1
  let seen := r.2.1
  let stale := s2.events.filter fun p =>
    !seen.contains p.1 && decide (p.2.startTime < now) &&
      decide (p.2.startTime < cutoffTime)
  let s3 := stale.foldl (fun acc p => removeEvent acc p.1) s2
  (cleanupOldAlerts s3 cutoffTime, r.2.2)

/-- `store.GetAlertsForCurrentMinute`. -/
def getAlertsForCurrentMinute (s : AlertStore) (now : Int)
    (notifyUnaccepted : Bool) : List ScheduledAlert :=
  let timeKey := roundToMinute now
  (bucketGet s timeKey).foldl
    (fun result r =>
      let a := heapGet s r
      let skip :=
        if notifyUnaccepted then false
        else
          match alookup a.eventID s.events with
          | some e => decide (e.status = "NEEDS-ACTION")
          | none => false
      if skip then result
      else if a.status = AlertStatus.Pending ∨ a.status = AlertStatus.Snoozed then
        result ++ [a]
      else result)
    []

/-- `store.MarkAlertStatus`.  Go truncates `snoozedUntil.Sub(now).Minutes()`
toward zero and then clamps negatives to zero; euclidean division followed by
the same clamp yields the same value. -/
def markAlertStatusC (s : AlertStore) (now : Int) (eventID : String)
    (alertOffset : Int) (status : AlertStatus) (snoozedUntil : Option Int) :
    AlertStore × Bool :=
  let alertID := generateAlertID eventID alertOffset
  match alookup alertID s.alertsById with
  | none => (s, true)
  | some r =>
    let a := heapGet s r
    match status, snoozedUntil with
    | AlertStatus.Snoozed, some su =>
      let s1 := heapSet s r { a with status := AlertStatus.Snoozed }
      let m0 := (su - now) / 60
      let snoozeMinutes := if m0 < 0 then 0 else m0
      let p := insertAlertC s1 (generateAlertID eventID snoozeMinutes)
        ⟨a.eventID, AlertStatus.Pending, su, snoozeMinutes⟩
      (p.1, p.2 && decide (a.eventID = eventID))
    | st, _ => (heapSet s r { a with status := st }, true)

/-- `store.AddManualAlert`. -/
def addManualAlertC (s : AlertStore) (event : Event) (alertTime : Int) :
    AlertStore × Bool :=
  let s1 := { s with events := ainsert event.id event s.events }
  insertAlertC s1 (generateAlertID event.id 0)
    ⟨event.id, AlertStatus.Pending, alertTime, 0⟩

/-- The loop body of `UpdateMutedStatusForQuietTime` for one by-id entry. -/
def quietLoopBody (config : Config) (acc : AlertStore) (p : String × Nat) :
    AlertStore :=
  let a := heapGet acc p.2
  if a.status ≠ AlertStatus.Pending ∧ a.status ≠ AlertStatus.Muted then acc
  else
    let isInQuietTime := config.isTimeInQuietTime a.alertTime
    if isInQuietTime = true ∧ a.status = AlertStatus.Pending then
      heapSet acc p.2 { a with status := AlertStatus.Muted }
    else if isInQuietTime = false ∧ a.status = AlertStatus.Muted then
      heapSet acc p.2 { a with status := AlertStatus.Pending }
    else acc

/-- `store.UpdateMutedStatusForQuietTime`. -/
def updateMutedStatusForQuietTime (s : AlertStore) (config : Config) :
    AlertStore :=
  s.alertsById.foldl (quietLoopBody config) s

/-- The value-level transition the bulk quiet-time re-evaluation applies to
one alert (the loop body of `UpdateMutedStatusForQuietTime`, expressed on
the alert value). -/
def quietStep (config : Config) (a : ScheduledAlert) : ScheduledAlert :=
  if a.status ≠ AlertStatus.Pending ∧ a.status ≠ AlertStatus.Muted then a
  else if config.isTimeInQuietTime a.alertTime = true ∧
      a.status = AlertStatus.Pending then
    { a with status := AlertStatus.Muted }
  else if config.isTimeInQuietTime a.alertTime = false ∧
      a.status = AlertStatus.Muted then
    { a with status := AlertStatus.Pending }
  else a

/-- Plain (unchecked) versions of the mutating operations. -/
def updateEventsWithConfig (s : AlertStore) (now : Int) (newEvents : List Event)
    (alertMinutes : List Int) (config : Option Config) : AlertStore :=
  (updateEventsWithConfigC s now newEvents alertMinutes config).1

def markAlertStatus (s : AlertStore) (now : Int) (eventID : String)
    (alertOffset : Int) (status : AlertStatus) (snoozedUntil : Option Int) :
    AlertStore :=
  (markAlertStatusC s now eventID alertOffset status snoozedUntil).1

def addManualAlert (s : AlertStore) (event : Event) (alertTime : Int) :
    AlertStore :=
  (addManualAlertC s event alertTime).1

/-! ## Invariants -/

/-- Heap addresses of the alerts reachable from `alertsById`. -/
def refsOf (s : AlertStore) : List Nat := s.alertsById.map Prod.snd

/-- Heap addresses present in the heap. -/
def heapKeys (s : AlertStore) : List Nat := keysOf s.heap

/-- Number of occurrences of a heap address across a bucket list. -/
def btcL (bt : List (Int × List Nat)) (r : Nat) : Nat :=
  (bt.map fun p => p.2.count r).sum

/-- Total number of occurrences of a heap address across all time buckets. -/
def bucketTotalCount (s : AlertStore) (r : Nat) : Nat :=
  btcL s.alertsByTime r

/-- Number of occurrences of a heap address in the bucket matching its
alert's fire time rounded down to the minute. -/
def homeBucketCount (s : AlertStore) (r : Nat) : Nat :=
  (bucketGet s (roundToMinute (heapGet s r).alertTime)).count r

/-- Invariant I1 (index consistency): every alert reachable from
`alertsById` lies in exactly one bucket of `alertsByTime`, namely the one
keyed by its fire time rounded down to the minute, and every alert in any
bucket is reachable from `alertsById`. -/
def I1holds (s : AlertStore) : Bool :=
  (s.alertsById.all fun p =>
    bucketTotalCount s p.2 == 1 && homeBucketCount s p.2 == 1) &&
  (s.alertsByTime.all fun b =>
    b.2.all fun r => s.alertsById.any fun p => p.2 == r)

/-- Invariant I2 (no orphans): every alert reachable from `alertsById` has
an event id that exists in `events` (with I1 this extends to every alert in
any time bucket). -/
def orphanFree (s : AlertStore) : Bool :=
  s.alertsById.all fun p => decide ((heapGet s p.2).eventID ∈ keysOf s.events)

/-- The core structural invariant of the store: distinct keys in every map,
heap addresses allocated below `fresh`, every `alertsById` key equal to the
generated id of the alert it points to, and I1. -/
def InvCore (s : AlertStore) : Bool :=
  decide (keysOf s.alertsById).Nodup &&
  decide (refsOf s).Nodup &&
  decide (keysOf s.alertsByTime).Nodup &&
  decide (heapKeys s).Nodup &&
  (s.heap.all fun q => decide (q.1 < s.fresh)) &&
  (s.alertsById.all fun p =>
    decide (p.2 ∈ heapKeys s) &&
    decide (p.1 = generateAlertID (heapGet s p.2).eventID (heapGet s p.2).alertOffset)) &&
  I1holds s &&
  decide (keysOf s.events).Nodup

/-- The full invariant of reachable store states. -/
def Inv (s : AlertStore) : Bool := InvCore s && orphanFree s

/-- The no-orphan property over both indices: every alert reachable from
`alertsById` and every alert sitting in any time bucket has an event id
present in `events`. -/
def noOrphans (s : AlertStore) : Bool :=
  orphanFree s &&
  (s.alertsByTime.all fun b => b.2.all fun r =>
    decide ((heapGet s r).eventID ∈ keysOf s.events))

/-! ## Operation sequences

The public mutating interface of the store, as called from the rest of the
repository: calendar sync (`UpdateEventsWithConfig`), the alert window
(`MarkAlertStatus`), the manual-alarm dialog (`AddManualAlert`),
`RemoveEvent`, and the settings save (`UpdateMutedStatusForQuietTime`).
Eviction (`cleanupOldAlerts`) is unexported and runs as the final step of
every `UpdateEventsWithConfig` pass. -/
inductive StoreOp where
  | reconcile (now : Int) (newEvents : List Event) (alertMinutes : List Int)
      (config : Option Config)
  | mark (now : Int) (eventID : String) (alertOffset : Int)
      (status : AlertStatus) (snoozedUntil : Option Int)
  | manual (event : Event) (alertTime : Int)
  | removeEv (eventID : String)
  | quiet (config : Config)

/-- Apply one operation; the `Bool` is true when no insertion performed by
the operation overwrote an existing composite key (and each snooze's event-id
parameter matched the stored alert's event id). -/
def applyOpC (s : AlertStore) : StoreOp → AlertStore × Bool
  | .reconcile now evs mins cfg => updateEventsWithConfigC s now evs mins cfg
  | .mark now eid off st su => markAlertStatusC s now eid off st su
  | .manual ev t => addManualAlertC s ev t
  | .removeEv eid => (removeEvent s eid, true)
  | .quiet cfg => (updateMutedStatusForQuietTime s cfg, true)

/-- Apply one operation (state component only). -/
def applyOp (s : AlertStore) (op : StoreOp) : AlertStore := (applyOpC s op).1

/-- Run a sequence of operations, conjoining the no-overwrite flags. -/
def runOpsC (s : AlertStore) : List StoreOp → AlertStore × Bool
  | [] => (s, true)
  | op :: rest =>
    let p := applyOpC s op
    let q := runOpsC p.1 rest
    (q.1, p.2 && q.2)

/-- Run a sequence of operations (state component only). -/
def runOps (s : AlertStore) (ops : List StoreOp) : AlertStore := (runOpsC s ops).1

/-- The store already reflects an incoming event at the configured offsets:
the stored event is a fixpoint of the field merge, an alert present under a
generated key carries the recomputed fire time and the event's id, a missing
one has its recomputed fire time in the past, and no alert is a victim of
the event's config-diff removal loop.  A reconciliation pass leaves every
processed event in this state, and a pass over events in this state is
inert. -/
def reflectsEvent (T : AlertStore) (now : Int) (e : Event)
    (mins : List Int) : Prop :=
  (∃ E1, alookup e.id T.events = some E1 ∧ mergeEvent E1 e = E1) ∧
  (∀ m ∈ mins, ∀ r, alookup (generateAlertID e.id (-m)) T.alertsById =
      some r →
    (heapGet T r).alertTime = e.startTime - 60 * m ∧
    (heapGet T r).eventID = e.id) ∧
  (∀ m ∈ mins, alookup (generateAlertID e.id (-m)) T.alertsById = none →
    e.startTime - 60 * m < now) ∧
  (∀ p ∈ T.alertsById, phase2Victim T e.id mins p = false)

/-! ## Concrete stores and events used to instantiate the theorems -/

/-- A concrete calendar event starting at Unix second 100900. -/
def sampleEvent : Event :=
  ⟨"e", "standup", "daily", 100900, 104500, "", "CONFIRMED", "cal"⟩

/-- A second concrete calendar event, unknown to `offsetStore`. -/
def sampleEvent2 : Event :=
  ⟨"f", "retro", "weekly", 104000, 107600, "", "CONFIRMED", "cal"⟩

/-- A concrete store holding `sampleEvent` with alerts at offsets -15, -5
and 0 (the -15 alert already fired). -/
def offsetStore : AlertStore :=
  { events := [("e", sampleEvent)],
    heap := [(0, ⟨"e", AlertStatus.Alerted, 100000, -15⟩),
             (1, ⟨"e", AlertStatus.Pending, 100600, -5⟩),
             (2, ⟨"e", AlertStatus.Pending, 100900, 0⟩)],
    alertsById := [("e--15", 0), ("e--5", 1), ("e-0", 2)],
    alertsByTime := [(99960, [0]), (100560, [1]), (100860, [2])],
    fresh := 3 }

/-- A store holding one alert whose owning event is no longer stored (such
a state is reachable: eviction drops an event that started before the
cutoff while keeping a later alert of it). -/
def orphanStore : AlertStore :=
  { events := [],
    heap := [(0, ⟨"e", AlertStatus.Pending, 107200, -7⟩)],
    alertsById := [("e--7", 0)],
    alertsByTime := [(107160, [0])],
    fresh := 1 }

/-- A store holding one event just before and one just after a 12-hour
retention cutoff taken at Unix second 143200. -/
def retentionStore : AlertStore :=
  { events := [("old", ⟨"old", "o", "", 99999, 103599, "", "CONFIRMED", "cal"⟩),
               ("new", ⟨"new", "n", "", 100001, 103601, "", "CONFIRMED", "cal"⟩)],
    heap := [], alertsById := [], alertsByTime := [], fresh := 0 }

/-! ## Association list lemmas -/

section AList

variable {κ β : Type} [DecidableEq κ]

theorem keysOf_cons (p : κ × β) (l : List (κ × β)) :
    keysOf (p :: l) = p.1 :: keysOf l := rfl

theorem keysOf_append (l₁ l₂ : List (κ × β)) :
    keysOf (l₁ ++ l₂) = keysOf l₁ ++ keysOf l₂ := by
  simp [keysOf]

theorem mem_keysOf {k : κ} {l : List (κ × β)} :
    k ∈ keysOf l ↔ ∃ v, (k, v) ∈ l := by
  constructor
  · intro h
    rcases List.mem_map.1 h with ⟨p, hp, rfl⟩
    exact ⟨p.2, hp⟩
  · rintro ⟨v, hv⟩
    exact List.mem_map.2 ⟨(k, v), hv, rfl⟩

theorem alookup_eq_none {k : κ} {l : List (κ × β)} :
    alookup k l = none ↔ k ∉ keysOf l := by
  induction l with
  | nil => simp [alookup, keysOf]
  | cons p rest ih =>
    obtain ⟨k', v⟩ := p
    by_cases h : k' = k
    · subst h
      simp [alookup, keysOf]
    · simp [alookup, h, keysOf, ih, Ne.symm h]

theorem alookup_isSome {k : κ} {l : List (κ × β)} :
    (alookup k l).isSome ↔ k ∈ keysOf l := by
  rcases h : alookup k l with _ | v
  · simpa [h] using (alookup_eq_none).1 h
  · simp only [Option.isSome_some, true_iff]
    by_contra hk
    rw [alookup_eq_none.2 hk] at h
    exact Option.noConfusion h

theorem alookup_mem {k : κ} {v : β} {l : List (κ × β)}
    (h : alookup k l = some v) : (k, v) ∈ l := by
  induction l with
  | nil => exact absurd h (by simp [alookup])
  | cons p rest ih =>
    obtain ⟨k', v'⟩ := p
    by_cases hk : k' = k
    · subst hk
      simp only [alookup, if_pos] at h
      cases Option.some.inj h
      exact List.mem_cons_self _ _
    · simp only [alookup, if_neg hk] at h
      exact List.mem_cons_of_mem _ (ih h)

theorem alookup_of_mem {k : κ} {v : β} {l : List (κ × β)}
    (hn : (keysOf l).Nodup) (h : (k, v) ∈ l) : alookup k l = some v := by
  induction l with
  | nil => cases h
  | cons p rest ih =>
    obtain ⟨k', v'⟩ := p
    rw [keysOf_cons] at hn
    rcases List.mem_cons.1 h with h1 | h1
    · obtain ⟨h2, h3⟩ := Prod.mk.injEq .. ▸ congrArg id h1 |> fun hh => Prod.mk.inj h1
      subst h2; subst h3
      simp [alookup]
    · have hk : k' ≠ k := by
        rintro rfl
        exact (List.nodup_cons.1 hn).1 (mem_keysOf.2 ⟨v, h1⟩)
      simp only [alookup, if_neg hk]
      exact ih (List.nodup_cons.1 hn).2 h1

theorem alookup_ainsert_self (k : κ) (v : β) (l : List (κ × β)) :
    alookup k (ainsert k v l) = some v := by
  induction l with
  | nil => simp [ainsert, alookup]
  | cons p rest ih =>
    obtain ⟨k', v'⟩ := p
    by_cases h : k' = k
    · subst h
      simp [ainsert, alookup]
    · simp [ainsert, h, alookup, ih]

theorem alookup_ainsert_ne {k k' : κ} (v : β) (l : List (κ × β)) (h : k' ≠ k) :
    alookup k' (ainsert k v l) = alookup k' l := by
  induction l with
  | nil => simp [ainsert, alookup, Ne.symm h]
  | cons p rest ih =>
    obtain ⟨k'', v''⟩ := p
    by_cases h2 : k'' = k
    · subst h2
      simp [ainsert, alookup, Ne.symm h, h]
    · by_cases h3 : k'' = k'
      · subst h3
        simp [ainsert, h2, alookup]
      · simp [ainsert, h2, alookup, h3, ih]

theorem ainsert_of_not_mem {k : κ} (v : β) {l : List (κ × β)}
    (h : k ∉ keysOf l) : ainsert k v l = l ++ [(k, v)] := by
  induction l with
  | nil => simp [ainsert]
  | cons p rest ih =>
    obtain ⟨k', v'⟩ := p
    rw [keysOf_cons] at h
    have h1 : k' ≠ k := fun hh => h (hh ▸ List.mem_cons_self _ _)
    have h2 : k ∉ keysOf rest := fun hh => h (List.mem_cons_of_mem _ hh)
    simp [ainsert, h1, ih h2]

theorem keysOf_ainsert_of_mem {k : κ} (v : β) {l : List (κ × β)}
    (h : k ∈ keysOf l) : keysOf (ainsert k v l) = keysOf l := by
  induction l with
  | nil => cases h
  | cons p rest ih =>
    obtain ⟨k', v'⟩ := p
    by_cases h1 : k' = k
    · subst h1
      simp [ainsert, keysOf]
    · rw [keysOf_cons] at h
      rcases List.mem_cons.1 h with h2 | h2
      · exact absurd h2.symm h1
      · simp [ainsert, h1, keysOf_cons, ih h2]

theorem keysOf_ainsert_nodup {k : κ} (v : β) {l : List (κ × β)}
    (h : (keysOf l).Nodup) : (keysOf (ainsert k v l)).Nodup := by
  by_cases hm : k ∈ keysOf l
  · rwa [keysOf_ainsert_of_mem v hm]
  · rw [ainsert_of_not_mem v hm, keysOf_append]
    simpa [keysOf] using (List.nodup_append.2 ⟨h, List.nodup_singleton _, by
      simpa [keysOf] using hm⟩)

theorem aerase_of_not_mem {k : κ} {l : List (κ × β)}
    (h : k ∉ keysOf l) : aerase k l = l := by
  induction l with
  | nil => rfl
  | cons p rest ih =>
    obtain ⟨k', v'⟩ := p
    rw [keysOf_cons] at h
    have h1 : k' ≠ k := fun hh => h (hh ▸ List.mem_cons_self _ _)
    have h2 : k ∉ keysOf rest := fun hh => h (List.mem_cons_of_mem _ hh)
    simp [aerase, h1, ih h2]

theorem keysOf_aerase_sublist (k : κ) (l : List (κ × β)) :
    (keysOf (aerase k l)).Sublist (keysOf l) := by
  induction l with
  | nil => simp [aerase]
  | cons p rest ih =>
    obtain ⟨k', v'⟩ := p
    by_cases h : k' = k
    · simp only [aerase, if_pos h, keysOf_cons]
      exact (List.sublist_cons_self _ _)
    · simp only [aerase, if_neg h, keysOf_cons]
      exact ih.cons₂ _

theorem aerase_sublist (k : κ) (l : List (κ × β)) :
    (aerase k l).Sublist l := by
  induction l with
  | nil => simp [aerase]
  | cons p rest ih =>
    by_cases h : p.1 = k
    · obtain ⟨k', v'⟩ := p
      simp only [aerase, if_pos h]
      exact List.sublist_cons_self _ _
    · obtain ⟨k', v'⟩ := p
      simp only [aerase, if_neg h]
      exact ih.cons₂ _

theorem alookup_aerase_self {k : κ} {l : List (κ × β)}
    (h : (keysOf l).Nodup) : alookup k (aerase k l) = none := by
  induction l with
  | nil => simp [aerase, alookup]
  | cons p rest ih =>
    obtain ⟨k', v'⟩ := p
    rw [keysOf_cons] at h
    by_cases h1 : k' = k
    · subst h1
      simp only [aerase, if_pos rfl]
      exact alookup_eq_none.2 (List.nodup_cons.1 h).1
    · simp only [aerase, if_neg h1, alookup, if_neg h1]
      exact ih (List.nodup_cons.1 h).2

theorem alookup_aerase_ne {k k' : κ} {l : List (κ × β)} (h : k' ≠ k) :
    alookup k' (aerase k l) = alookup k' l := by
  induction l with
  | nil => rfl
  | cons p rest ih =>
    obtain ⟨k'', v''⟩ := p
    by_cases h1 : k'' = k
    · subst h1
      simp [aerase, alookup, Ne.symm h]
    · by_cases h2 : k'' = k'
      · subst h2
        simp [aerase, h1, alookup]
      · simp [aerase, h1, alookup, h2, ih]

theorem ainsert_eq_self {k : κ} {v : β} {l : List (κ × β)}
    (h : alookup k l = some v) : ainsert k v l = l := by
  induction l with
  | nil => exact absurd h (by simp [alookup])
  | cons p rest ih =>
    obtain ⟨k', v'⟩ := p
    by_cases h1 : k' = k
    · subst h1
      simp only [alookup, if_pos] at h
      cases Option.some.inj h
      simp [ainsert]
    · simp only [alookup, if_neg h1] at h
      simp [ainsert, h1, ih h]

theorem alookup_append {k : κ} (l₁ l₂ : List (κ × β)) :
    alookup k (l₁ ++ l₂) =
      match alookup k l₁ with
      | some v => some v
      | none => alookup k l₂ := by
  induction l₁ with
  | nil => simp [alookup]
  | cons p rest ih =>
    obtain ⟨k', v'⟩ := p
    by_cases h : k' = k
    · simp [alookup, h]
    · simp [alookup, h, ih]

theorem mem_of_mem_aerase {k : κ} {p : κ × β} {l : List (κ × β)}
    (h : p ∈ aerase k l) : p ∈ l :=
  (aerase_sublist k l).mem h

theorem mem_aerase_of_mem_ne {k : κ} {p : κ × β} {l : List (κ × β)}
    (hn : (keysOf l).Nodup) (h : p ∈ l) (hne : p.1 ≠ k) : p ∈ aerase k l := by
  induction l with
  | nil => cases h
  | cons q rest ih =>
    obtain ⟨k', v'⟩ := q
    rw [keysOf_cons] at hn
    by_cases h1 : k' = k
    · subst h1
      simp only [aerase, if_pos rfl]
      rcases List.mem_cons.1 h with h2 | h2
      · exact absurd (congrArg Prod.fst h2) hne
      · exact h2
    · simp only [aerase, if_neg h1]
      rcases List.mem_cons.1 h with h2 | h2
      · exact h2 ▸ List.mem_cons_self _ _
      · exact List.mem_cons_of_mem _ (ih (List.nodup_cons.1 hn).2 h2)

end AList

/-! ## Bucket counting lemmas -/

theorem btcL_nil (r : Nat) : btcL [] r = 0 := rfl

theorem btcL_cons (p : Int × List Nat) (bt : List (Int × List Nat)) (r : Nat) :
    btcL (p :: bt) r = p.2.count r + btcL bt r := by
  simp [btcL]

theorem btcL_eq_zero {bt : List (Int × List Nat)} {r : Nat}
    (h : ∀ b ∈ bt, r ∉ b.2) : btcL bt r = 0 := by
  induction bt with
  | nil => rfl
  | cons p rest ih =>
    rw [btcL_cons, List.count_eq_zero.2 (h p (List.mem_cons_self _ _)),
      ih fun b hb => h b (List.mem_cons_of_mem _ hb)]

theorem btcL_split {bt : List (Int × List Nat)} {k : Int} {l : List Nat}
    (hl : alookup k bt = some l) (r : Nat) :
    btcL bt r = l.count r + btcL (aerase k bt) r := by
  induction bt with
  | nil => exact absurd hl (by simp [alookup])
  | cons p rest ih =>
    obtain ⟨k', l'⟩ := p
    by_cases h : k' = k
    · subst h
      simp only [alookup, if_pos] at hl
      cases Option.some.inj hl
      simp [aerase, btcL_cons]
    · simp only [alookup, if_neg h] at hl
      simp only [aerase, if_neg h, btcL_cons, ih hl]
      omega

theorem btcL_ainsert {bt : List (Int × List Nat)} (k : Int) (nl : List Nat)
    (r : Nat) :
    btcL (ainsert k nl bt) r + ((alookup k bt).getD []).count r =
      btcL bt r + nl.count r := by
  induction bt with
  | nil => simp [ainsert, alookup, btcL_cons, btcL_nil]
  | cons p rest ih =>
    obtain ⟨k', l'⟩ := p
    by_cases h : k' = k
    · subst h
      simp [ainsert, alookup, btcL_cons]
      omega
    · simp only [ainsert, if_neg h, alookup, if_neg h, btcL_cons]
      omega

theorem btcL_aerase {bt : List (Int × List Nat)} (k : Int) (r : Nat) :
    btcL (aerase k bt) r + ((alookup k bt).getD []).count r = btcL bt r := by
  induction bt with
  | nil => simp [aerase, alookup, btcL_nil]
  | cons p rest ih =>
    obtain ⟨k', l'⟩ := p
    by_cases h : k' = k
    · subst h
      simp [aerase, alookup, btcL_cons]
      omega
    · simp only [aerase, if_neg h, alookup, if_neg h, btcL_cons]
      omega

theorem count_le_btcL {bt : List (Int × List Nat)} {b : Int × List Nat}
    (hb : b ∈ bt) (r : Nat) : b.2.count r ≤ btcL bt r := by
  induction bt with
  | nil => cases hb
  | cons p rest ih =>
    rw [btcL_cons]
    rcases List.mem_cons.1 hb with h | h
    · subst h; omega
    · have := ih h; omega

/-! ## The store invariant as a Prop structure -/

/-- Prop-level version of `Inv`, with named components, used by all the
preservation proofs. -/
structure StoreInv (s : AlertStore) : Prop where
  idNodup : (keysOf s.alertsById).Nodup
  refsNodup : (refsOf s).Nodup
  timeNodup : (keysOf s.alertsByTime).Nodup
  heapNodup : (heapKeys s).Nodup
  heapLt : ∀ q ∈ s.heap, q.1 < s.fresh
  refMem : ∀ p ∈ s.alertsById, p.2 ∈ heapKeys s
  keyCons : ∀ p ∈ s.alertsById,
    p.1 = generateAlertID (heapGet s p.2).eventID (heapGet s p.2).alertOffset
  totalOne : ∀ p ∈ s.alertsById, bucketTotalCount s p.2 = 1
  homeOne : ∀ p ∈ s.alertsById, homeBucketCount s p.2 = 1
  bucketSub : ∀ k : Int, ∀ r ∈ bucketGet s k, r ∈ refsOf s
  evNodup : (keysOf s.events).Nodup
  orphan : ∀ p ∈ s.alertsById, (heapGet s p.2).eventID ∈ keysOf s.events

theorem inv_eq_true_iff {s : AlertStore} : Inv s = true ↔ StoreInv s := by
  unfold Inv InvCore orphanFree I1holds
  simp only [Bool.and_eq_true, List.all_eq_true, decide_eq_true_eq,
    beq_iff_eq, List.any_eq_true, and_assoc]
  constructor
  · rintro ⟨h1, h2, h3, h4, h5, h6, h7, h8, h9, h10⟩
    refine ⟨h1, h2, h3, h4, h5, fun p hp => (h6 p hp).1,
      fun p hp => (h6 p hp).2, fun p hp => (h7 p hp).1,
      fun p hp => (h7 p hp).2, ?_, h9, h10⟩
    intro k r hr
    rcases hbk : alookup k s.alertsByTime with _ | l
    · rw [bucketGet, hbk] at hr
      cases hr
    · rw [bucketGet, hbk] at hr
      simp only [Option.getD_some] at hr
      rcases h8 _ (alookup_mem hbk) r hr with ⟨p, hp, hpe⟩
      exact List.mem_map.2 ⟨p, hp, hpe⟩
  · intro h
    refine ⟨h.idNodup, h.refsNodup, h.timeNodup, h.heapNodup, h.heapLt,
      fun p hp => ⟨h.refMem p hp, h.keyCons p hp⟩,
      fun p hp => ⟨h.totalOne p hp, h.homeOne p hp⟩, ?_, h.evNodup,
      fun p hp => h.orphan p hp⟩
    intro b hb r hr
    have hlk : alookup b.1 s.alertsByTime = some b.2 :=
      alookup_of_mem h.timeNodup (by exact hb)
    have hbg : bucketGet s b.1 = b.2 := by rw [bucketGet, hlk]; rfl
    rcases List.mem_map.1 (h.bucketSub b.1 r (hbg ▸ hr)) with ⟨p, hp, hpe⟩
    exact ⟨p, hp, hpe⟩

/-! ### Consequences of the invariant -/

theorem mem_refsOf {s : AlertStore} {r : Nat} :
    r ∈ refsOf s ↔ ∃ p ∈ s.alertsById, p.2 = r := by
  simp [refsOf, List.mem_map]

theorem StoreInv.refLt {s : AlertStore} (h : StoreInv s) {p : String × Nat}
    (hp : p ∈ s.alertsById) : p.2 < s.fresh := by
  rcases List.mem_map.1 (h.refMem p hp) with ⟨q, hq, hqe⟩
  exact hqe ▸ h.heapLt q hq

theorem StoreInv.lookupId {s : AlertStore} (h : StoreInv s) {p : String × Nat}
    (hp : p ∈ s.alertsById) : alookup p.1 s.alertsById = some p.2 := by
  have := alookup_of_mem h.idNodup (show (p.1, p.2) ∈ s.alertsById from hp)
  simpa using this

theorem StoreInv.entry_eq_of_ref {s : AlertStore} (h : StoreInv s)
    {p q : String × Nat} (hp : p ∈ s.alertsById) (hq : q ∈ s.alertsById)
    (he : p.2 = q.2) : p = q :=
  List.inj_on_of_nodup_map h.refsNodup hp hq he

theorem StoreInv.entry_eq_of_key {s : AlertStore} (h : StoreInv s)
    {p q : String × Nat} (hp : p ∈ s.alertsById) (hq : q ∈ s.alertsById)
    (he : p.1 = q.1) : p = q :=
  List.inj_on_of_nodup_map h.idNodup hp hq he

/-- At most the home bucket of a by-id alert contains its address. -/
theorem StoreInv.count_ne_home {s : AlertStore} (h : StoreInv s)
    {p : String × Nat} (hp : p ∈ s.alertsById) {k : Int}
    (hk : k ≠ roundToMinute (heapGet s p.2).alertTime) :
    (bucketGet s k).count p.2 = 0 := by
  rcases hbk : alookup k s.alertsByTime with _ | l
  · simp [bucketGet, hbk]
  · have hhome := h.homeOne p hp
    have htot := h.totalOne p hp
    unfold homeBucketCount at hhome
    unfold bucketTotalCount at htot
    rcases hhk : alookup (roundToMinute (heapGet s p.2).alertTime)
        s.alertsByTime with _ | hl
    · rw [bucketGet, hhk] at hhome
      simp at hhome
    · have hs := btcL_split hhk p.2
      rw [htot] at hs
      rw [bucketGet, hhk] at hhome
      simp only [Option.getD_some] at hhome
      have hk2 : alookup k (aerase (roundToMinute (heapGet s p.2).alertTime)
          s.alertsByTime) = some l := by
        rw [alookup_aerase_ne hk]; exact hbk
      have : l.count p.2 ≤ btcL (aerase (roundToMinute
          (heapGet s p.2).alertTime) s.alertsByTime) p.2 :=
        count_le_btcL (alookup_mem hk2) p.2
      rw [bucketGet, hbk]
      simp only [Option.getD_some]
      omega

/-- A by-id alert is a member of its home bucket. -/
theorem StoreInv.mem_home {s : AlertStore} (h : StoreInv s)
    {p : String × Nat} (hp : p ∈ s.alertsById) :
    p.2 ∈ bucketGet s (roundToMinute (heapGet s p.2).alertTime) := by
  have := h.homeOne p hp
  unfold homeBucketCount at this
  exact List.count_pos_iff.1 (by omega)

theorem StoreInv.fresh_not_ref {s : AlertStore} (h : StoreInv s) :
    s.fresh ∉ refsOf s := by
  intro hm
  rcases mem_refsOf.1 hm with ⟨p, hp, hpe⟩
  have := h.refLt hp
  omega

theorem StoreInv.fresh_not_heap {s : AlertStore} (h : StoreInv s) :
    s.fresh ∉ heapKeys s := by
  intro hm
  rcases List.mem_map.1 hm with ⟨q, hq, hqe⟩
  have := h.heapLt q hq
  omega

theorem StoreInv.bucketGet_of_mem {s : AlertStore} (h : StoreInv s)
    {b : Int × List Nat} (hb : b ∈ s.alertsByTime) : bucketGet s b.1 = b.2 := by
  have hlk : alookup b.1 s.alertsByTime = some b.2 :=
    alookup_of_mem h.timeNodup (by exact hb)
  rw [bucketGet, hlk]
  rfl

theorem StoreInv.bucketSub_mem {s : AlertStore} (h : StoreInv s)
    {b : Int × List Nat} (hb : b ∈ s.alertsByTime) :
    ∀ r ∈ b.2, r ∈ refsOf s := fun r hr =>
  h.bucketSub b.1 r (h.bucketGet_of_mem hb ▸ hr)

theorem StoreInv.fresh_not_bucket {s : AlertStore} (h : StoreInv s)
    {b : Int × List Nat} (hb : b ∈ s.alertsByTime) : s.fresh ∉ b.2 := by
  intro hm
  exact h.fresh_not_ref (h.bucketSub_mem hb s.fresh hm)

theorem StoreInv.btc_fresh {s : AlertStore} (h : StoreInv s) :
    bucketTotalCount s s.fresh = 0 :=
  btcL_eq_zero fun b hb => h.fresh_not_bucket hb

theorem StoreInv.bucketGet_count_le {s : AlertStore} (_ : StoreInv s)
    (k : Int) (r : Nat) : (bucketGet s k).count r ≤ bucketTotalCount s r := by
  rcases hbk : alookup k s.alertsByTime with _ | l
  · simp [bucketGet, hbk]
  · simpa [bucketGet, hbk] using count_le_btcL (alookup_mem hbk) r

theorem mem_ainsert_weak {κ β : Type} [DecidableEq κ] {k : κ} {v : β}
    {p : κ × β} {l : List (κ × β)} (h : p ∈ ainsert k v l) :
    p = (k, v) ∨ p ∈ l := by
  induction l with
  | nil => simpa [ainsert] using h
  | cons q rest ih =>
    obtain ⟨k', v'⟩ := q
    by_cases h1 : k' = k
    · subst h1
      simp only [ainsert, if_pos rfl] at h
      rcases List.mem_cons.1 h with h2 | h2
      · exact Or.inl h2
      · exact Or.inr (List.mem_cons_of_mem _ h2)
    · simp only [ainsert, if_neg h1] at h
      rcases List.mem_cons.1 h with h2 | h2
      · exact Or.inr (h2 ▸ List.mem_cons_self _ _)
      · rcases ih h2 with h3 | h3
        · exact Or.inl h3
        · exact Or.inr (List.mem_cons_of_mem _ h3)

/-! ## Specification of the insertion primitive -/

section InsertSpec

variable (s : AlertStore) (key : String) (a : ScheduledAlert)

theorem insertAlertC_events : ((insertAlertC s key a).1).events = s.events := rfl

theorem insertAlertC_fresh : ((insertAlertC s key a).1).fresh = s.fresh + 1 := rfl

theorem insertAlertC_heap :
    ((insertAlertC s key a).1).heap = s.heap ++ [(s.fresh, a)] := rfl

theorem insertAlertC_byId :
    ((insertAlertC s key a).1).alertsById = ainsert key s.fresh s.alertsById := rfl

theorem insertAlertC_byId_append (hfresh : alookup key s.alertsById = none) :
    ((insertAlertC s key a).1).alertsById = s.alertsById ++ [(key, s.fresh)] := by
  rw [insertAlertC_byId]
  exact ainsert_of_not_mem _ (alookup_eq_none.1 hfresh)

theorem insertAlertC_snd :
    (insertAlertC s key a).2 = true ↔ alookup key s.alertsById = none := by
  simp [insertAlertC, Option.isNone_iff_eq_none]

theorem insertAlertC_heapGet_ne {r : Nat} (hr : r ≠ s.fresh) :
    heapGet ((insertAlertC s key a).1) r = heapGet s r := by
  unfold heapGet
  rw [insertAlertC_heap, alookup_append]
  rcases h : alookup r s.heap with _ | v
  · simp [alookup, Ne.symm hr]
  · rfl

theorem insertAlertC_heapGet_fresh (hinv : StoreInv s) :
    heapGet ((insertAlertC s key a).1) s.fresh = a := by
  unfold heapGet
  rw [insertAlertC_heap, alookup_append]
  rw [alookup_eq_none.2 (fun hm => hinv.fresh_not_heap hm)]
  simp [alookup]

theorem insertAlertC_bucketGet (k : Int) :
    bucketGet ((insertAlertC s key a).1) k =
      if k = roundToMinute a.alertTime then
        bucketGet s k ++ [s.fresh]
      else bucketGet s k := by
  show (alookup k (ainsert (roundToMinute a.alertTime)
    (bucketGet s (roundToMinute a.alertTime) ++ [s.fresh])
    s.alertsByTime)).getD [] = _
  by_cases hk : k = roundToMinute a.alertTime
  · rw [hk, alookup_ainsert_self, if_pos rfl]
    rfl
  · rw [alookup_ainsert_ne _ _ hk, if_neg hk]
    rfl

theorem insertAlertC_btc (hinv : StoreInv s) (x : Nat) :
    bucketTotalCount ((insertAlertC s key a).1) x =
      bucketTotalCount s x + (if x = s.fresh then 1 else 0) := by
  have h := @btcL_ainsert s.alertsByTime
    (roundToMinute a.alertTime)
    (bucketGet s (roundToMinute a.alertTime) ++ [s.fresh]) x
  have hcnt : (bucketGet s (roundToMinute a.alertTime) ++ [s.fresh]).count x =
      (bucketGet s (roundToMinute a.alertTime)).count x +
        (if x = s.fresh then 1 else 0) := by
    rw [List.count_append]
    simp [List.count_singleton', eq_comm]
  have hbg : ((alookup (roundToMinute a.alertTime) s.alertsByTime).getD []) =
      bucketGet s (roundToMinute a.alertTime) := rfl
  show btcL (ainsert (roundToMinute a.alertTime)
    (bucketGet s (roundToMinute a.alertTime) ++ [s.fresh]) s.alertsByTime) x = _
  rw [hbg] at h
  rw [hcnt] at h
  unfold bucketTotalCount
  omega

theorem insertAlertC_refsOf (hfresh : alookup key s.alertsById = none) :
    refsOf ((insertAlertC s key a).1) = refsOf s ++ [s.fresh] := by
  unfold refsOf
  rw [insertAlertC_byId_append _ _ _ hfresh]
  simp

theorem insertAlertC_heapKeys :
    heapKeys ((insertAlertC s key a).1) = heapKeys s ++ [s.fresh] := by
  unfold heapKeys
  rw [insertAlertC_heap, keysOf_append]
  rfl

theorem insertAlertC_inv (hinv : StoreInv s)
    (hfresh : alookup key s.alertsById = none)
    (hkey : key = generateAlertID a.eventID a.alertOffset)
    (hev : a.eventID ∈ keysOf s.events) :
    StoreInv ((insertAlertC s key a).1) := by
  set s' := (insertAlertC s key a).1 with hs'
  have hbyId : s'.alertsById = s.alertsById ++ [(key, s.fresh)] :=
    insertAlertC_byId_append _ _ _ hfresh
  have hmem : ∀ p : String × Nat, p ∈ s'.alertsById ↔
      p ∈ s.alertsById ∨ p = (key, s.fresh) := by
    intro p
    rw [hbyId]
    simp
  have hgetne : ∀ r : Nat, r ≠ s.fresh → heapGet s' r = heapGet s r :=
    fun r hr => insertAlertC_heapGet_ne _ _ _ hr
  have hgetfresh : heapGet s' s.fresh = a := insertAlertC_heapGet_fresh _ _ _ hinv
  have hreflt : ∀ p : String × Nat, p ∈ s.alertsById → p.2 ≠ s.fresh := by
    intro p hp
    have := hinv.refLt hp
    omega
  constructor
  case idNodup =>
    rw [hbyId, keysOf_append]
    rw [List.nodup_append]
    refine ⟨hinv.idNodup, List.nodup_singleton _, ?_⟩
    intro k hk
    simp only [keysOf, List.map_cons, List.map_nil, List.mem_singleton]
    rintro rfl
    exact (alookup_eq_none.1 hfresh) hk
  case refsNodup =>
    rw [insertAlertC_refsOf _ _ _ hfresh, List.nodup_append]
    refine ⟨hinv.refsNodup, List.nodup_singleton _, ?_⟩
    intro r hr
    simp only [List.mem_singleton]
    rintro rfl
    exact hinv.fresh_not_ref hr
  case timeNodup =>
    exact keysOf_ainsert_nodup _ hinv.timeNodup
  case heapNodup =>
    rw [insertAlertC_heapKeys, List.nodup_append]
    refine ⟨hinv.heapNodup, List.nodup_singleton _, ?_⟩
    intro r hr
    simp only [List.mem_singleton]
    rintro rfl
    exact hinv.fresh_not_heap hr
  case heapLt =>
    intro q hq
    rw [insertAlertC_heap] at hq
    rw [insertAlertC_fresh]
    rcases List.mem_append.1 hq with h | h
    · have := hinv.heapLt q h
      omega
    · simp only [List.mem_singleton] at h
      subst h
      omega
  case refMem =>
    intro p hp
    rw [insertAlertC_heapKeys]
    rcases (hmem p).1 hp with h | h
    · exact List.mem_append.2 (Or.inl (hinv.refMem p h))
    · subst h
      exact List.mem_append.2 (Or.inr (by simp))
  case keyCons =>
    intro p hp
    rcases (hmem p).1 hp with h | h
    · rw [hgetne p.2 (hreflt p h)]
      exact hinv.keyCons p h
    · subst h
      simpa [hgetfresh] using hkey
  case totalOne =>
    intro p hp
    rw [insertAlertC_btc _ _ _ hinv]
    rcases (hmem p).1 hp with h | h
    · rw [if_neg (hreflt p h)]
      simpa using hinv.totalOne p h
    · subst h
      simp [hinv.btc_fresh]
  case homeOne =>
    intro p hp
    unfold homeBucketCount
    rcases (hmem p).1 hp with h | h
    · rw [hgetne p.2 (hreflt p h)]
      rw [insertAlertC_bucketGet]
      by_cases hk : roundToMinute (heapGet s p.2).alertTime =
          roundToMinute a.alertTime
      · rw [if_pos hk, List.count_append]
        have h0 : ([s.fresh].count p.2) = 0 := by
          simp [List.count_singleton', hreflt p h]
        have := hinv.homeOne p h
        unfold homeBucketCount at this
        omega
      · rw [if_neg hk]
        exact hinv.homeOne p h
    · subst h
      simp only
      rw [hgetfresh, insertAlertC_bucketGet, if_pos rfl, List.count_append]
      have h0 : (bucketGet s (roundToMinute a.alertTime)).count s.fresh = 0 := by
        have h1 := hinv.bucketGet_count_le (roundToMinute a.alertTime) s.fresh
        have h2 := hinv.btc_fresh
        omega
      simp [h0]
  case bucketSub =>
    intro k r hr
    rw [insertAlertC_refsOf _ _ _ hfresh]
    rw [insertAlertC_bucketGet] at hr
    by_cases hk : k = roundToMinute a.alertTime
    · rw [if_pos hk] at hr
      rcases List.mem_append.1 hr with h2 | h2
      · exact List.mem_append.2 (Or.inl (hinv.bucketSub k r h2))
      · simp only [List.mem_singleton] at h2
        subst h2
        exact List.mem_append.2 (Or.inr (by simp))
    · rw [if_neg hk] at hr
      exact List.mem_append.2 (Or.inl (hinv.bucketSub k r hr))
  case evNodup =>
    rw [insertAlertC_events]
    exact hinv.evNodup
  case orphan =>
    intro p hp
    rw [insertAlertC_events]
    rcases (hmem p).1 hp with h | h
    · rw [hgetne p.2 (hreflt p h)]
      exact hinv.orphan p h
    · subst h
      simpa [hgetfresh] using hev

end InsertSpec

/-! ## Specification of the removal and relocation primitives -/

theorem not_key_of_mem_aerase {κ β : Type} [DecidableEq κ] {k : κ}
    {p : κ × β} {l : List (κ × β)} (hn : (keysOf l).Nodup)
    (h : p ∈ aerase k l) : p.1 ≠ k := by
  induction l with
  | nil => cases h
  | cons q rest ih =>
    obtain ⟨k', v'⟩ := q
    rw [keysOf_cons] at hn
    by_cases h1 : k' = k
    · subst h1
      simp only [aerase, if_pos rfl] at h
      intro he
      exact (List.nodup_cons.1 hn).1 (he ▸ mem_keysOf.2 ⟨p.2, h⟩)
    · simp only [aerase, if_neg h1] at h
      rcases List.mem_cons.1 h with h2 | h2
      · rw [h2]
        exact h1
      · exact ih (List.nodup_cons.1 hn).2 h2

theorem btcL_zero_not_mem {bt : List (Int × List Nat)} {r : Nat}
    (h : btcL bt r = 0) {b : Int × List Nat} (hb : b ∈ bt) : r ∉ b.2 := by
  have := count_le_btcL hb r
  intro hm
  have := List.count_pos_iff.2 hm
  omega

theorem removeFirstByGenID_eq_erase (s : AlertStore) {alertID : String}
    {bucket : List Nat} {r : Nat}
    (hr : generateAlertID (heapGet s r).eventID (heapGet s r).alertOffset =
      alertID)
    (hothers : ∀ r' ∈ bucket, r' ≠ r →
      generateAlertID (heapGet s r').eventID (heapGet s r').alertOffset ≠
        alertID) :
    removeFirstByGenID s alertID bucket = bucket.erase r := by
  induction bucket with
  | nil => rfl
  | cons x rest ih =>
    by_cases hx : x = r
    · subst hx
      simp only [removeFirstByGenID, hr, if_pos]
      exact (List.erase_cons_head x rest).symm
    · have hne := hothers x (List.mem_cons_self _ _) hx
      simp only [removeFirstByGenID, if_neg hne]
      rw [List.erase_cons_tail]
      · rw [ih fun r' h' => hothers r' (List.mem_cons_of_mem _ h')]
      · simp [hx]

/-- In a state satisfying the invariant, removing the alert of the by-id
entry `(kid, r)` from its home time bucket removes exactly the occurrence of
`r` there. -/
theorem removeAlertFromTimeIndex_spec {s : AlertStore} (hinv : StoreInv s)
    {kid : String} {r : Nat} (hlk : alookup kid s.alertsById = some r) :
    (removeAlertFromTimeIndex s
        (roundToMinute (heapGet s r).alertTime) kid).events = s.events ∧
    (removeAlertFromTimeIndex s
        (roundToMinute (heapGet s r).alertTime) kid).heap = s.heap ∧
    (removeAlertFromTimeIndex s
        (roundToMinute (heapGet s r).alertTime) kid).alertsById =
      s.alertsById ∧
    (removeAlertFromTimeIndex s
        (roundToMinute (heapGet s r).alertTime) kid).fresh = s.fresh ∧
    (∀ k, bucketGet (removeAlertFromTimeIndex s
        (roundToMinute (heapGet s r).alertTime) kid) k =
      if k = roundToMinute (heapGet s r).alertTime then
        (bucketGet s (roundToMinute (heapGet s r).alertTime)).erase r
      else bucketGet s k) ∧
    (keysOf (removeAlertFromTimeIndex s
        (roundToMinute (heapGet s r).alertTime) kid).alertsByTime).Nodup ∧
    (∀ x, btcL (removeAlertFromTimeIndex s
          (roundToMinute (heapGet s r).alertTime) kid).alertsByTime x +
        (bucketGet s (roundToMinute (heapGet s r).alertTime)).count x =
      btcL s.alertsByTime x +
        ((bucketGet s (roundToMinute (heapGet s r).alertTime)).erase r).count
          x) := by
  have hp : (kid, r) ∈ s.alertsById := alookup_mem hlk
  set home := roundToMinute (heapGet s r).alertTime with hhome
  set bucket := bucketGet s home with hbucket
  have hgenr : generateAlertID (heapGet s r).eventID
      (heapGet s r).alertOffset = kid := (hinv.keyCons (kid, r) hp).symm
  have hothers : ∀ r' ∈ bucket, r' ≠ r →
      generateAlertID (heapGet s r').eventID (heapGet s r').alertOffset ≠
        kid := by
    intro r' hr' hner he
    have hr'ref : r' ∈ refsOf s := hinv.bucketSub home r' hr'
    rcases mem_refsOf.1 hr'ref with ⟨q, hq, hqe⟩
    have hkey : q.1 = kid := by
      rw [hinv.keyCons q hq, hqe, he]
    have := hinv.entry_eq_of_key hq hp hkey
    rw [this] at hqe
    exact hner hqe.symm
  have herase : removeFirstByGenID s kid bucket = bucket.erase r :=
    removeFirstByGenID_eq_erase s hgenr hothers
  unfold removeAlertFromTimeIndex
  rw [← hbucket, herase]
  by_cases hemp : (bucket.erase r).isEmpty = true
  · rw [if_pos hemp]
    refine ⟨rfl, rfl, rfl, rfl, ?_, ?_, ?_⟩
    · intro k
      by_cases hk : k = home
      · rw [if_pos hk]
        show (alookup k (aerase home s.alertsByTime)).getD [] = _
        rw [hk, alookup_aerase_self hinv.timeNodup]
        simp only [Option.getD_none]
        exact (List.isEmpty_iff.1 hemp).symm
      · rw [if_neg hk]
        show (alookup k (aerase home s.alertsByTime)).getD [] = _
        rw [alookup_aerase_ne hk]
        rfl
    · exact (keysOf_aerase_sublist home s.alertsByTime).nodup hinv.timeNodup
    · intro x
      have h1 := @btcL_aerase s.alertsByTime home x
      have h2 : ((alookup home s.alertsByTime).getD []).count x =
          bucket.count x := rfl
      have h3 : ((bucket.erase r).count x) = 0 := by
        rw [List.isEmpty_iff.1 hemp]
        rfl
      show btcL (aerase home s.alertsByTime) x + bucket.count x =
        btcL s.alertsByTime x + (bucket.erase r).count x
      omega
  · rw [if_neg hemp]
    refine ⟨rfl, rfl, rfl, rfl, ?_, ?_, ?_⟩
    · intro k
      by_cases hk : k = home
      · rw [if_pos hk]
        show (alookup k (ainsert home _ s.alertsByTime)).getD [] = _
        rw [hk, alookup_ainsert_self]
        rfl
      · rw [if_neg hk]
        show (alookup k (ainsert home _ s.alertsByTime)).getD [] = _
        rw [alookup_ainsert_ne _ _ hk]
        rfl
    · exact keysOf_ainsert_nodup _ hinv.timeNodup
    · intro x
      have h1 := @btcL_ainsert s.alertsByTime home (bucket.erase r) x
      have h2 : ((alookup home s.alertsByTime).getD []).count x =
          bucket.count x := rfl
      show btcL (ainsert home (bucket.erase r) s.alertsByTime) x +
          bucket.count x =
        btcL s.alertsByTime x + (bucket.erase r).count x
      omega

theorem heapGet_congr {s s' : AlertStore} (h : s'.heap = s.heap) (r : Nat) :
    heapGet s' r = heapGet s r := by
  unfold heapGet
  rw [h]

/-- Removing the by-id entry `(kid, r)` removes exactly that alert from both
indices and preserves the invariant. -/
theorem removeAlertEntry_spec {s : AlertStore} (hinv : StoreInv s)
    {kid : String} {r : Nat} (hlk : alookup kid s.alertsById = some r) :
    StoreInv (removeAlertEntry s kid r) ∧
    (removeAlertEntry s kid r).events = s.events ∧
    (removeAlertEntry s kid r).heap = s.heap ∧
    (removeAlertEntry s kid r).fresh = s.fresh ∧
    (removeAlertEntry s kid r).alertsById = aerase kid s.alertsById ∧
    (∀ k, bucketGet (removeAlertEntry s kid r) k =
      if k = roundToMinute (heapGet s r).alertTime then
        (bucketGet s (roundToMinute (heapGet s r).alertTime)).erase r
      else bucketGet s k) := by
  have hp : (kid, r) ∈ s.alertsById := alookup_mem hlk
  obtain ⟨hev1, hhp1, hid1, hfr1, hbg1, hnd1, hbtc1⟩ :=
    removeAlertFromTimeIndex_spec hinv hlk
  set home := roundToMinute (heapGet s r).alertTime with hhome
  set s1 := removeAlertFromTimeIndex s home kid with hs1
  set s' := removeAlertEntry s kid r with hs'
  have hseq : s' = { s1 with alertsById := aerase kid s1.alertsById } := rfl
  have hev : s'.events = s.events := by rw [hseq]; exact hev1
  have hhp : s'.heap = s.heap := by rw [hseq]; exact hhp1
  have hfr : s'.fresh = s.fresh := by rw [hseq]; exact hfr1
  have hbyId : s'.alertsById = aerase kid s.alertsById := by
    rw [hseq]
    show aerase kid s1.alertsById = aerase kid s.alertsById
    rw [hid1]
  have hbt : s'.alertsByTime = s1.alertsByTime := by rw [hseq]
  have hbg : ∀ k, bucketGet s' k =
      if k = home then (bucketGet s home).erase r else bucketGet s k := by
    intro k
    have : bucketGet s' k = bucketGet s1 k := by
      unfold bucketGet
      rw [hbt]
    rw [this]
    exact hbg1 k
  have hget : ∀ x, heapGet s' x = heapGet s x := heapGet_congr hhp
  have hmem : ∀ p : String × Nat, p ∈ s'.alertsById →
      p ∈ s.alertsById ∧ p.1 ≠ kid ∧ p.2 ≠ r := by
    intro p hpm
    rw [hbyId] at hpm
    have h1 : p ∈ s.alertsById := mem_of_mem_aerase hpm
    have h2 : p.1 ≠ kid := not_key_of_mem_aerase hinv.idNodup hpm
    refine ⟨h1, h2, ?_⟩
    intro he
    have := hinv.entry_eq_of_ref h1 hp he
    exact h2 (by rw [this])
  have hcntr : (bucketGet s home).count r = 1 := hinv.homeOne (kid, r) hp
  have htotr : btcL s.alertsByTime r = 1 := hinv.totalOne (kid, r) hp
  have hbtc1r : btcL s1.alertsByTime r = 0 := by
    have h1 := hbtc1 r
    have h2 : ((bucketGet s home).erase r).count r =
        (bucketGet s home).count r - 1 := List.count_erase_self r _
    omega
  have hbtc : ∀ x, x ≠ r →
      btcL s1.alertsByTime x = btcL s.alertsByTime x := by
    intro x hx
    have h1 := hbtc1 x
    have h2 : ((bucketGet s home).erase r).count x =
        (bucketGet s home).count x := List.count_erase_of_ne hx _
    omega
  refine ⟨?_, hev, hhp, hfr, hbyId, hbg⟩
  constructor
  case idNodup =>
    rw [hbyId]
    exact (keysOf_aerase_sublist kid s.alertsById).nodup hinv.idNodup
  case refsNodup =>
    unfold refsOf
    rw [hbyId]
    exact ((aerase_sublist kid s.alertsById).map Prod.snd).nodup hinv.refsNodup
  case timeNodup =>
    rw [hbt]
    exact hnd1
  case heapNodup =>
    unfold heapKeys
    rw [hhp]
    exact hinv.heapNodup
  case heapLt =>
    intro q hq
    rw [hhp] at hq
    rw [hfr]
    exact hinv.heapLt q hq
  case refMem =>
    intro p hpm
    unfold heapKeys
    rw [hhp]
    exact hinv.refMem p (hmem p hpm).1
  case keyCons =>
    intro p hpm
    rw [hget]
    exact hinv.keyCons p (hmem p hpm).1
  case totalOne =>
    intro p hpm
    show btcL s'.alertsByTime p.2 = 1
    rw [hbt, hbtc p.2 (hmem p hpm).2.2]
    exact hinv.totalOne p (hmem p hpm).1
  case homeOne =>
    intro p hpm
    unfold homeBucketCount
    rw [hget, hbg]
    by_cases hk : roundToMinute (heapGet s p.2).alertTime = home
    · rw [if_pos hk, List.count_erase_of_ne (hmem p hpm).2.2]
      have := hinv.homeOne p (hmem p hpm).1
      unfold homeBucketCount at this
      rw [hk] at this
      exact this
    · rw [if_neg hk]
      exact hinv.homeOne p (hmem p hpm).1
  case bucketSub =>
    intro k x hx
    rw [hbg] at hx
    have hxne : x ≠ r := by
      intro he
      by_cases hk : k = home
      · rw [if_pos hk] at hx
        have h1 := List.count_erase_self r (bucketGet s home)
        have hpos := List.count_pos_iff.2 hx
        rw [he] at hpos
        omega
      · rw [if_neg hk] at hx
        have h0 : (bucketGet s k).count r = 0 :=
          hinv.count_ne_home hp (by rw [← hhome]; exact hk)
        have hpos := List.count_pos_iff.2 hx
        rw [he] at hpos
        omega
    have hxs : x ∈ refsOf s := by
      by_cases hk : k = home
      · rw [if_pos hk] at hx
        exact hinv.bucketSub home x ((List.erase_sublist _ _).mem hx)
      · rw [if_neg hk] at hx
        exact hinv.bucketSub k x hx
    rcases mem_refsOf.1 hxs with ⟨q, hq, hqe⟩
    have hqkid : q.1 ≠ kid := by
      intro he
      have := hinv.entry_eq_of_key hq hp he
      rw [this] at hqe
      exact hxne hqe.symm
    rw [mem_refsOf]
    refine ⟨q, ?_, hqe⟩
    rw [hbyId]
    exact mem_aerase_of_mem_ne hinv.idNodup hq hqkid
  case evNodup =>
    unfold keysOf
    rw [hev]
    exact hinv.evNodup
  case orphan =>
    intro p hpm
    rw [hget]
    unfold keysOf
    rw [hev]
    exact hinv.orphan p (hmem p hpm).1

theorem getD_count_le_btcL (bt : List (Int × List Nat)) (k : Int) (x : Nat) :
    ((alookup k bt).getD []).count x ≤ btcL bt x := by
  rcases h : alookup k bt with _ | l
  · simp
  · simpa using count_le_btcL (alookup_mem h) x

/-- Relocating the alert of the by-id entry `(kid, r)` to a new fire time
moves exactly that alert between buckets, keeps both indices otherwise
untouched, updates only its `alertTime`, and preserves the invariant. -/
theorem relocateAlert_spec {s : AlertStore} (hinv : StoreInv s)
    {kid : String} {r : Nat} (hlk : alookup kid s.alertsById = some r)
    (newTime : Int) :
    StoreInv (relocateAlert s kid r newTime) ∧
    (relocateAlert s kid r newTime).events = s.events ∧
    (relocateAlert s kid r newTime).fresh = s.fresh ∧
    (relocateAlert s kid r newTime).alertsById = s.alertsById ∧
    heapGet (relocateAlert s kid r newTime) r =
      { heapGet s r with alertTime := newTime } ∧
    (∀ x, x ≠ r →
      heapGet (relocateAlert s kid r newTime) x = heapGet s x) ∧
    (∀ k, bucketGet (relocateAlert s kid r newTime) k =
      if k = roundToMinute newTime then
        (if roundToMinute newTime = roundToMinute (heapGet s r).alertTime
          then (bucketGet s (roundToMinute (heapGet s r).alertTime)).erase r
          else bucketGet s (roundToMinute newTime)) ++ [r]
      else if k = roundToMinute (heapGet s r).alertTime then
        (bucketGet s (roundToMinute (heapGet s r).alertTime)).erase r
      else bucketGet s k) := by
  have hp : (kid, r) ∈ s.alertsById := alookup_mem hlk
  obtain ⟨hev1, hhp1, hid1, hfr1, hbg1, hnd1, hbtc1⟩ :=
    removeAlertFromTimeIndex_spec hinv hlk
  set home := roundToMinute (heapGet s r).alertTime with hhome
  set newHome := roundToMinute newTime with hnewHome
  set s1 := removeAlertFromTimeIndex s home kid with hs1
  set a' : ScheduledAlert := { heapGet s r with alertTime := newTime }
    with ha'
  set s3 := relocateAlert s kid r newTime with hs3d
  have hbt3 : s3.alertsByTime =
      ainsert newHome (bucketGet s1 newHome ++ [r]) s1.alertsByTime := rfl
  have hev : s3.events = s.events := hev1
  have hfr : s3.fresh = s.fresh := hfr1
  have hbyId : s3.alertsById = s.alertsById := hid1
  have hheap : s3.heap = ainsert r a' s.heap := by
    show ainsert r a' s1.heap = ainsert r a' s.heap
    rw [hhp1]
  have hgetr : heapGet s3 r = a' := by
    unfold heapGet
    rw [hheap, alookup_ainsert_self]
    rfl
  have hgetx : ∀ x, x ≠ r → heapGet s3 x = heapGet s x := by
    intro x hx
    unfold heapGet
    rw [hheap, alookup_ainsert_ne _ _ hx]
  have hbg : ∀ k, bucketGet s3 k =
      if k = newHome then bucketGet s1 newHome ++ [r]
      else bucketGet s1 k := by
    intro k
    by_cases hk : k = newHome
    · rw [if_pos hk]
      unfold bucketGet
      rw [hbt3, hk, alookup_ainsert_self]
      rfl
    · rw [if_neg hk]
      unfold bucketGet
      rw [hbt3, alookup_ainsert_ne _ _ hk]
  have hbgfull : ∀ k, bucketGet s3 k =
      if k = newHome then
        (if newHome = home then (bucketGet s home).erase r
          else bucketGet s newHome) ++ [r]
      else if k = home then (bucketGet s home).erase r
      else bucketGet s k := by
    intro k
    rw [hbg k]
    by_cases hk : k = newHome
    · subst hk
      simp only [eq_self_iff_true, if_true]
      rw [hbg1]
    · simp only [if_neg hk]
      rw [hbg1 k]
  have hcntr : (bucketGet s home).count r = 1 := hinv.homeOne (kid, r) hp
  have htotr : btcL s.alertsByTime r = 1 := hinv.totalOne (kid, r) hp
  have hbtc1r : btcL s1.alertsByTime r = 0 := by
    have h1 := hbtc1 r
    have h2 : ((bucketGet s home).erase r).count r =
        (bucketGet s home).count r - 1 := List.count_erase_self r _
    omega
  have hbtcne : ∀ x, x ≠ r →
      btcL s1.alertsByTime x = btcL s.alertsByTime x := by
    intro x hx
    have h1 := hbtc1 x
    have h2 : ((bucketGet s home).erase r).count x =
        (bucketGet s home).count x := List.count_erase_of_ne hx _
    omega
  have hbtc3 : ∀ x, btcL s3.alertsByTime x =
      btcL s1.alertsByTime x + (if x = r then 1 else 0) := by
    intro x
    have h1 := @btcL_ainsert s1.alertsByTime newHome
      (bucketGet s1 newHome ++ [r]) x
    have h2 : (bucketGet s1 newHome ++ [r]).count x =
        (bucketGet s1 newHome).count x + (if x = r then 1 else 0) := by
      rw [List.count_append]
      simp [List.count_singleton', eq_comm]
    have h3 : ((alookup newHome s1.alertsByTime).getD []).count x =
        (bucketGet s1 newHome).count x := rfl
    rw [hbt3]
    omega
  have hmemOther : ∀ p : String × Nat, p ∈ s.alertsById → p.2 ≠ r →
      heapGet s3 p.2 = heapGet s p.2 := fun p _ hne => hgetx p.2 hne
  have hentry_r : ∀ p : String × Nat, p ∈ s.alertsById → p.2 = r →
      p = (kid, r) := by
    intro p hpm he
    exact hinv.entry_eq_of_ref hpm hp he
  refine ⟨?_, hev, hfr, hbyId, hgetr, hgetx, hbgfull⟩
  constructor
  case idNodup =>
    unfold keysOf
    rw [hbyId]
    exact hinv.idNodup
  case refsNodup =>
    unfold refsOf
    rw [hbyId]
    exact hinv.refsNodup
  case timeNodup =>
    rw [hbt3]
    exact keysOf_ainsert_nodup _ hnd1
  case heapNodup =>
    unfold heapKeys
    rw [hheap, keysOf_ainsert_of_mem]
    · exact hinv.heapNodup
    · exact hinv.refMem (kid, r) hp
  case heapLt =>
    intro q hq
    rw [hheap] at hq
    rw [hfr]
    rcases mem_ainsert_weak hq with h | h
    · subst h
      exact hinv.refLt hp
    · exact hinv.heapLt q h
  case refMem =>
    intro p hpm
    rw [hbyId] at hpm
    unfold heapKeys
    rw [hheap, keysOf_ainsert_of_mem _ (hinv.refMem (kid, r) hp)]
    exact hinv.refMem p hpm
  case keyCons =>
    intro p hpm
    rw [hbyId] at hpm
    by_cases he : p.2 = r
    · have hpe := hentry_r p hpm he
      rw [he, hgetr, hpe]
      have := hinv.keyCons (kid, r) hp
      simpa [ha'] using this
    · rw [hgetx p.2 he]
      exact hinv.keyCons p hpm
  case totalOne =>
    intro p hpm
    rw [hbyId] at hpm
    show btcL s3.alertsByTime p.2 = 1
    rw [hbtc3]
    by_cases he : p.2 = r
    · rw [if_pos he, he, hbtc1r]
    · rw [if_neg he, hbtcne p.2 he]
      exact hinv.totalOne p hpm
  case homeOne =>
    intro p hpm
    rw [hbyId] at hpm
    unfold homeBucketCount
    by_cases he : p.2 = r
    · rw [he, hgetr]
      show (bucketGet s3 newHome).count r = 1
      rw [hbg newHome, if_pos rfl, List.count_append]
      have h0 : (bucketGet s1 newHome).count r = 0 := by
        have h1 : (bucketGet s1 newHome).count r ≤
            btcL s1.alertsByTime r := getD_count_le_btcL _ _ _
        omega
      simp [h0]
    · rw [hgetx p.2 he, hbg]
      by_cases hk : roundToMinute (heapGet s p.2).alertTime = newHome
      · rw [if_pos hk, List.count_append]
        have h2 : ([r].count p.2) = 0 := by simp [List.count_singleton', he]
        rw [hbg1 newHome]
        have hho := hinv.homeOne p hpm
        unfold homeBucketCount at hho
        by_cases hk2 : newHome = home
        · rw [if_pos hk2, List.count_erase_of_ne he]
          rw [hk, hk2] at hho
          omega
        · rw [if_neg hk2]
          rw [hk] at hho
          omega
      · rw [if_neg hk, hbg1]
        by_cases hk2 : roundToMinute (heapGet s p.2).alertTime = home
        · rw [if_pos hk2, List.count_erase_of_ne he]
          have hho := hinv.homeOne p hpm
          unfold homeBucketCount at hho
          rw [hk2] at hho
          exact hho
        · rw [if_neg hk2]
          exact hinv.homeOne p hpm
  case bucketSub =>
    intro k x hx
    have hrefs : refsOf s3 = refsOf s := by
      unfold refsOf
      rw [hbyId]
    rw [hrefs]
    rw [hbg k] at hx
    by_cases hk : k = newHome
    · rw [if_pos hk] at hx
      rcases List.mem_append.1 hx with h2 | h2
      · rw [hbg1 newHome] at h2
        by_cases hk2 : newHome = home
        · rw [if_pos hk2] at h2
          exact hinv.bucketSub home x ((List.erase_sublist _ _).mem h2)
        · rw [if_neg hk2] at h2
          exact hinv.bucketSub newHome x h2
      · simp only [List.mem_singleton] at h2
        rw [h2]
        exact mem_refsOf.2 ⟨(kid, r), hp, rfl⟩
    · rw [if_neg hk, hbg1 k] at hx
      by_cases hk2 : k = home
      · rw [if_pos hk2] at hx
        exact hinv.bucketSub home x ((List.erase_sublist _ _).mem hx)
      · rw [if_neg hk2] at hx
        exact hinv.bucketSub k x hx
  case evNodup =>
    unfold keysOf
    rw [hev]
    exact hinv.evNodup
  case orphan =>
    intro p hpm
    rw [hbyId] at hpm
    have hkeq : keysOf s3.events = keysOf s.events := by rw [hev]
    rw [hkeq]
    by_cases he : p.2 = r
    · rw [he, hgetr]
      exact hinv.orphan (kid, r) hp
    · rw [hgetx p.2 he]
      exact hinv.orphan p hpm

/-- Mutating an alert in place without changing its event id, fire time or
offset (a status write) leaves both indices untouched and preserves the
invariant. -/
theorem heapSet_skeleton_spec {s : AlertStore} (hinv : StoreInv s) {r : Nat}
    (hr : r ∈ refsOf s) {a' : ScheduledAlert}
    (hev : a'.eventID = (heapGet s r).eventID)
    (htm : a'.alertTime = (heapGet s r).alertTime)
    (hof : a'.alertOffset = (heapGet s r).alertOffset) :
    StoreInv (heapSet s r a') ∧
    (heapSet s r a').events = s.events ∧
    (heapSet s r a').alertsById = s.alertsById ∧
    (heapSet s r a').alertsByTime = s.alertsByTime ∧
    (heapSet s r a').fresh = s.fresh ∧
    heapGet (heapSet s r a') r = a' ∧
    (∀ x, x ≠ r → heapGet (heapSet s r a') x = heapGet s x) := by
  rcases mem_refsOf.1 hr with ⟨q, hq, hqe⟩
  have hrheap : r ∈ heapKeys s := hqe ▸ hinv.refMem q hq
  have hrlt : r < s.fresh := hqe ▸ hinv.refLt hq
  set s' := heapSet s r a' with hs'
  have hgetr : heapGet s' r = a' := by
    unfold heapGet
    show (alookup r (ainsert r a' s.heap)).getD default = a'
    rw [alookup_ainsert_self]
    rfl
  have hgetx : ∀ x, x ≠ r → heapGet s' x = heapGet s x := by
    intro x hx
    unfold heapGet
    show (alookup x (ainsert r a' s.heap)).getD default = _
    rw [alookup_ainsert_ne _ _ hx]
  have hbg : ∀ k, bucketGet s' k = bucketGet s k := fun k => rfl
  have hbt : s'.alertsByTime = s.alertsByTime := rfl
  have hgetskel : ∀ x, (heapGet s' x).eventID = (heapGet s x).eventID ∧
      (heapGet s' x).alertTime = (heapGet s x).alertTime ∧
      (heapGet s' x).alertOffset = (heapGet s x).alertOffset := by
    intro x
    by_cases hx : x = r
    · subst hx
      rw [hgetr]
      exact ⟨hev, htm, hof⟩
    · rw [hgetx x hx]
      exact ⟨rfl, rfl, rfl⟩
  refine ⟨?_, rfl, rfl, rfl, rfl, hgetr, hgetx⟩
  constructor
  case idNodup => exact hinv.idNodup
  case refsNodup => exact hinv.refsNodup
  case timeNodup => exact hinv.timeNodup
  case heapNodup =>
    unfold heapKeys
    show (keysOf (ainsert r a' s.heap)).Nodup
    rw [keysOf_ainsert_of_mem _ hrheap]
    exact hinv.heapNodup
  case heapLt =>
    intro p hp
    have hp' : p ∈ ainsert r a' s.heap := hp
    rcases mem_ainsert_weak hp' with h | h
    · subst h
      exact hrlt
    · exact hinv.heapLt p h
  case refMem =>
    intro p hp
    unfold heapKeys
    show p.2 ∈ keysOf (ainsert r a' s.heap)
    rw [keysOf_ainsert_of_mem _ hrheap]
    exact hinv.refMem p hp
  case keyCons =>
    intro p hp
    rw [(hgetskel p.2).1, (hgetskel p.2).2.2]
    exact hinv.keyCons p hp
  case totalOne =>
    intro p hp
    show btcL s'.alertsByTime p.2 = 1
    rw [hbt]
    exact hinv.totalOne p hp
  case homeOne =>
    intro p hp
    unfold homeBucketCount
    rw [(hgetskel p.2).2.1, hbg]
    exact hinv.homeOne p hp
  case bucketSub =>
    intro k x hx
    rw [hbg] at hx
    exact hinv.bucketSub k x hx
  case evNodup => exact hinv.evNodup
  case orphan =>
    intro p hp
    rw [(hgetskel p.2).1]
    exact hinv.orphan p hp

/-! ## Key membership under map updates -/

theorem mem_keysOf_ainsert_self {κ β : Type} [DecidableEq κ] (k : κ) (v : β)
    (l : List (κ × β)) : k ∈ keysOf (ainsert k v l) := by
  have h := alookup_ainsert_self k v l
  exact alookup_isSome.1 (by rw [h]; rfl)

theorem mem_keysOf_ainsert {κ β : Type} [DecidableEq κ] {k' : κ} (k : κ)
    (v : β) {l : List (κ × β)} (h : k' ∈ keysOf l) :
    k' ∈ keysOf (ainsert k v l) := by
  by_cases he : k' = k
  · subst he
    exact mem_keysOf_ainsert_self _ _ _
  · have h1 := @alookup_ainsert_ne κ β _ k k' v l he
    refine alookup_isSome.1 ?_
    rw [h1]
    exact alookup_isSome.2 h

theorem mem_keysOf_aerase {κ β : Type} [DecidableEq κ] {k k' : κ}
    {l : List (κ × β)} (hne : k' ≠ k) (h : k' ∈ keysOf l) :
    k' ∈ keysOf (aerase k l) := by
  have h1 := @alookup_aerase_ne κ β _ k k' l hne
  exact alookup_isSome.1 (by rw [h1]; exact alookup_isSome.2 h)

/-- Replacing the `events` map preserves the invariant, provided the new
map has distinct keys and still contains every alert's event id. -/
theorem events_set_inv {s : AlertStore} (hinv : StoreInv s)
    {E : List (String × Event)} (hnd : (keysOf E).Nodup)
    (horph : ∀ p ∈ s.alertsById, (heapGet s p.2).eventID ∈ keysOf E) :
    StoreInv { s with events := E } := by
  constructor
  case idNodup => exact hinv.idNodup
  case refsNodup => exact hinv.refsNodup
  case timeNodup => exact hinv.timeNodup
  case heapNodup => exact hinv.heapNodup
  case heapLt => exact hinv.heapLt
  case refMem => exact hinv.refMem
  case keyCons => exact hinv.keyCons
  case totalOne => exact hinv.totalOne
  case homeOne => exact hinv.homeOne
  case bucketSub => exact hinv.bucketSub
  case evNodup => exact hnd
  case orphan => exact horph

/-! ## MarkAlertStatus -/

theorem markAlertStatusC_inv {s : AlertStore} (hinv : StoreInv s)
    (now : Int) (eid : String) (off : Int) (st : AlertStatus)
    (su : Option Int)
    (hok : (markAlertStatusC s now eid off st su).2 = true) :
    StoreInv (markAlertStatusC s now eid off st su).1 := by
  rcases hlk : alookup (generateAlertID eid off) s.alertsById with _ | r
  · unfold markAlertStatusC
    simp only [hlk]
    exact hinv
  · unfold markAlertStatusC at hok ⊢
    simp only [hlk] at hok ⊢
    have hp : (generateAlertID eid off, r) ∈ s.alertsById := alookup_mem hlk
    have hrref : r ∈ refsOf s := mem_refsOf.2 ⟨_, hp, rfl⟩
    have hsetinv : ∀ st' : AlertStatus,
        StoreInv (heapSet s r { heapGet s r with status := st' }) :=
      fun st' => (@heapSet_skeleton_spec s hinv r hrref
        { heapGet s r with status := st' } rfl rfl rfl).1
    cases st <;> rcases su with _ | v <;>
      simp only at hok ⊢ <;> first
      | exact hsetinv _
      | skip
    -- remaining case: Snoozed with some v
    simp only [Bool.and_eq_true, decide_eq_true_eq] at hok
    obtain ⟨hok1, hok2⟩ := hok
    set s1 := heapSet s r
      { heapGet s r with status := AlertStatus.Snoozed } with hs1
    obtain ⟨hinv1, hev1, hid1, hbt1, hfr1, _, _⟩ :=
      @heapSet_skeleton_spec s hinv r hrref
        { heapGet s r with status := AlertStatus.Snoozed } rfl rfl rfl
    set m0 := (v - now) / 60 with hm0
    set sm := if m0 < 0 then 0 else m0 with hsm
    refine insertAlertC_inv _ _ _ hinv1 ?_ ?_ ?_
    · rw [insertAlertC_snd] at hok1
      exact hok1
    · rw [hok2]
    · show (heapGet s r).eventID ∈ keysOf s1.events
      rw [hev1]
      exact hinv.orphan _ hp

/-! ## AddManualAlert -/

theorem addManualAlertC_inv {s : AlertStore} (hinv : StoreInv s)
    (ev : Event) (t : Int)
    (hok : (addManualAlertC s ev t).2 = true) :
    StoreInv (addManualAlertC s ev t).1 := by
  have hinv1 : StoreInv { s with events := ainsert ev.id ev s.events } := by
    refine events_set_inv hinv (keysOf_ainsert_nodup _ hinv.evNodup) ?_
    intro p hp
    exact mem_keysOf_ainsert _ _ (hinv.orphan p hp)
  have hok' : alookup (generateAlertID ev.id 0)
      ({ s with events := ainsert ev.id ev s.events } : AlertStore).alertsById
      = none := by
    have he : (addManualAlertC s ev t).2 =
        (insertAlertC { s with events := ainsert ev.id ev s.events }
          (generateAlertID ev.id 0)
          ⟨ev.id, AlertStatus.Pending, t, 0⟩).2 := rfl
    rw [he, insertAlertC_snd] at hok
    exact hok
  show StoreInv ((insertAlertC { s with events := ainsert ev.id ev s.events }
    (generateAlertID ev.id 0) ⟨ev.id, AlertStatus.Pending, t, 0⟩).1)
  exact insertAlertC_inv _ _ _ hinv1 hok' rfl
    (mem_keysOf_ainsert_self _ _ _)

/-! ## UpdateMutedStatusForQuietTime -/

theorem quietStep_skeleton (config : Config) (a : ScheduledAlert) :
    (quietStep config a).eventID = a.eventID ∧
    (quietStep config a).alertTime = a.alertTime ∧
    (quietStep config a).alertOffset = a.alertOffset := by
  unfold quietStep
  split
  · exact ⟨rfl, rfl, rfl⟩
  · split
    · exact ⟨rfl, rfl, rfl⟩
    · split
      · exact ⟨rfl, rfl, rfl⟩
      · exact ⟨rfl, rfl, rfl⟩

theorem quietLoopBody_eq {config : Config} {acc : AlertStore}
    {p : String × Nat} (hm : p.2 ∈ heapKeys acc) :
    quietLoopBody config acc p =
      heapSet acc p.2 (quietStep config (heapGet acc p.2)) := by
  have hself : heapSet acc p.2 (heapGet acc p.2) = acc := by
    rcases hg : alookup p.2 acc.heap with _ | v
    · exact absurd (alookup_isSome.2 hm) (by rw [hg]; simp)
    · show { acc with heap := ainsert p.2 (heapGet acc p.2) acc.heap } = acc
      have : heapGet acc p.2 = v := by
        unfold heapGet
        rw [hg]
        rfl
      rw [this, ainsert_eq_self hg]
  unfold quietLoopBody quietStep
  by_cases h1 : (heapGet acc p.2).status ≠ AlertStatus.Pending ∧
      (heapGet acc p.2).status ≠ AlertStatus.Muted
  · simp only [if_pos h1, hself]
  · simp only [if_neg h1]
    by_cases h2 : config.isTimeInQuietTime (heapGet acc p.2).alertTime = true ∧
        (heapGet acc p.2).status = AlertStatus.Pending
    · simp only [if_pos h2]
    · simp only [if_neg h2]
      by_cases h3 : config.isTimeInQuietTime (heapGet acc p.2).alertTime =
          false ∧ (heapGet acc p.2).status = AlertStatus.Muted
      · simp only [if_pos h3]
      · simp only [if_neg h3, hself]

theorem quietFold_spec (config : Config) :
    ∀ (l : List (String × Nat)) (s : AlertStore), StoreInv s →
    (∀ p ∈ l, p.2 ∈ refsOf s) → (l.map Prod.snd).Nodup →
    StoreInv (l.foldl (quietLoopBody config) s) ∧
    (l.foldl (quietLoopBody config) s).events = s.events ∧
    (l.foldl (quietLoopBody config) s).alertsById = s.alertsById ∧
    (l.foldl (quietLoopBody config) s).alertsByTime = s.alertsByTime ∧
    (l.foldl (quietLoopBody config) s).fresh = s.fresh ∧
    (∀ p ∈ l, heapGet (l.foldl (quietLoopBody config) s) p.2 =
      quietStep config (heapGet s p.2)) ∧
    (∀ x, x ∉ l.map Prod.snd →
      heapGet (l.foldl (quietLoopBody config) s) x = heapGet s x) := by
  intro l
  induction l with
  | nil =>
    intro s hinv _ _
    exact ⟨hinv, rfl, rfl, rfl, rfl, by simp, fun x _ => rfl⟩
  | cons p rest ih =>
    intro s hinv hrefs hnd
    have hpref : p.2 ∈ refsOf s := hrefs p (List.mem_cons_self _ _)
    have hpheap : p.2 ∈ heapKeys s := by
      rcases mem_refsOf.1 hpref with ⟨q, hq, hqe⟩
      exact hqe ▸ hinv.refMem q hq
    have hstep : quietLoopBody config s p =
        heapSet s p.2 (quietStep config (heapGet s p.2)) :=
      quietLoopBody_eq hpheap
    obtain ⟨hsk1, hsk2, hsk3⟩ := quietStep_skeleton config (heapGet s p.2)
    obtain ⟨hinv1, hev1, hid1, hbt1, hfr1, hget1, hgetx1⟩ :=
      heapSet_skeleton_spec hinv hpref hsk1 hsk2 hsk3
    set s1 := heapSet s p.2 (quietStep config (heapGet s p.2)) with hs1
    have hrefs1 : refsOf s1 = refsOf s := by
      unfold refsOf
      rw [hid1]
    have hrest : ∀ q ∈ rest, q.2 ∈ refsOf s1 := by
      intro q hq
      rw [hrefs1]
      exact hrefs q (List.mem_cons_of_mem _ hq)
    have hnd2 : (rest.map Prod.snd).Nodup := (List.nodup_cons.1 (by
      simpa using hnd)).2
    have hpnotrest : p.2 ∉ rest.map Prod.snd := (List.nodup_cons.1 (by
      simpa using hnd)).1
    obtain ⟨ih1, ih2, ih3, ih4, ih5, ih6, ih7⟩ := ih s1 hinv1 hrest hnd2
    have hfold : (p :: rest).foldl (quietLoopBody config) s =
        rest.foldl (quietLoopBody config) s1 := by
      rw [List.foldl_cons, hstep]
    rw [hfold]
    refine ⟨ih1, by rw [ih2, hev1], by rw [ih3, hid1], by rw [ih4, hbt1],
      by rw [ih5, hfr1], ?_, ?_⟩
    · intro q hq
      rcases List.mem_cons.1 hq with h | h
      · subst h
        rw [ih7 q.2 hpnotrest, hget1]
      · rw [ih6 q h]
        by_cases he : q.2 = p.2
        · have : q.2 ∈ rest.map Prod.snd := List.mem_map_of_mem _ h
          rw [he] at this
          exact absurd this hpnotrest
        · rw [hgetx1 q.2 he]
    · intro x hx
      have hx1 : x ∉ rest.map Prod.snd := fun hh =>
        hx (by simp [List.mem_cons]; right; simpa using hh)
      have hx2 : x ≠ p.2 := fun hh =>
        hx (by simp [hh])
      rw [ih7 x hx1, hgetx1 x hx2]

theorem updateMutedStatusForQuietTime_spec {s : AlertStore}
    (hinv : StoreInv s) (config : Config) :
    StoreInv (updateMutedStatusForQuietTime s config) ∧
    (updateMutedStatusForQuietTime s config).events = s.events ∧
    (updateMutedStatusForQuietTime s config).alertsById = s.alertsById ∧
    (updateMutedStatusForQuietTime s config).alertsByTime = s.alertsByTime ∧
    (updateMutedStatusForQuietTime s config).fresh = s.fresh ∧
    (∀ p ∈ s.alertsById, heapGet (updateMutedStatusForQuietTime s config) p.2 =
      quietStep config (heapGet s p.2)) := by
  have h := quietFold_spec config s.alertsById s hinv
    (fun p hp => mem_refsOf.2 ⟨p, hp, rfl⟩) hinv.refsNodup
  exact ⟨h.1, h.2.1, h.2.2.1, h.2.2.2.1, h.2.2.2.2.1, h.2.2.2.2.2.1⟩

/-! ## Folded removal of a list of by-id entries -/

theorem removeAlertEntry_bucket_mem {s : AlertStore} (hinv : StoreInv s)
    {kid : String} {r : Nat} (hlk : alookup kid s.alertsById = some r) :
    ∀ k x, x ∈ bucketGet (removeAlertEntry s kid r) k ↔
      (x ∈ bucketGet s k ∧ x ≠ r) := by
  have hp : (kid, r) ∈ s.alertsById := alookup_mem hlk
  obtain ⟨_, _, _, _, _, hbg⟩ := removeAlertEntry_spec hinv hlk
  intro k x
  rw [hbg k]
  set home := roundToMinute (heapGet s r).alertTime with hhome
  by_cases hk : k = home
  · rw [if_pos hk]
    constructor
    · intro hx
      have h1 : x ∈ bucketGet s home := (List.erase_sublist _ _).mem hx
      refine ⟨hk ▸ h1, ?_⟩
      intro he
      have hcnt : (bucketGet s home).count r = 1 := hinv.homeOne (kid, r) hp
      have h2 := List.count_erase_self r (bucketGet s home)
      have h3 := List.count_pos_iff.2 hx
      rw [he] at h3
      omega
    · rintro ⟨hx, hne⟩
      exact (List.mem_erase_of_ne hne).2 (hk ▸ hx)
  · rw [if_neg hk]
    constructor
    · intro hx
      refine ⟨hx, ?_⟩
      intro he
      have h0 : (bucketGet s k).count r = 0 :=
        hinv.count_ne_home hp (by rw [← hhome]; exact hk)
      have h3 := List.count_pos_iff.2 hx
      rw [he] at h3
      omega
    · exact fun h => h.1

theorem removeEntriesFold_spec :
    ∀ (victims : List (String × Nat)) (s : AlertStore), StoreInv s →
    (∀ p ∈ victims, alookup p.1 s.alertsById = some p.2) →
    (keysOf victims).Nodup →
    StoreInv (victims.foldl (fun acc p => removeAlertEntry acc p.1 p.2) s) ∧
    (victims.foldl (fun acc p => removeAlertEntry acc p.1 p.2) s).events =
      s.events ∧
    (victims.foldl (fun acc p => removeAlertEntry acc p.1 p.2) s).heap =
      s.heap ∧
    (victims.foldl (fun acc p => removeAlertEntry acc p.1 p.2) s).fresh =
      s.fresh ∧
    (∀ k, alookup k
        (victims.foldl (fun acc p => removeAlertEntry acc p.1 p.2)
          s).alertsById =
      if k ∈ keysOf victims then none else alookup k s.alertsById) ∧
    (∀ k x, x ∈ bucketGet
        (victims.foldl (fun acc p => removeAlertEntry acc p.1 p.2) s) k ↔
      (x ∈ bucketGet s k ∧ x ∉ victims.map Prod.snd)) := by
  intro victims
  induction victims with
  | nil =>
    intro s hinv _ _
    refine ⟨hinv, rfl, rfl, rfl, fun k => ?_, fun k x => ?_⟩
    · simp [keysOf]
    · simp
  | cons p rest ih =>
    intro s hinv hpres hnd
    have hlk : alookup p.1 s.alertsById = some p.2 :=
      hpres p (List.mem_cons_self _ _)
    obtain ⟨hinv1, hev1, hhp1, hfr1, hid1, _⟩ := removeAlertEntry_spec hinv hlk
    have hbgm1 := removeAlertEntry_bucket_mem hinv hlk
    set s1 := removeAlertEntry s p.1 p.2 with hs1
    rw [keysOf_cons] at hnd
    have hknotrest : p.1 ∉ keysOf rest := (List.nodup_cons.1 hnd).1
    have hndrest : (keysOf rest).Nodup := (List.nodup_cons.1 hnd).2
    have hpres1 : ∀ q ∈ rest, alookup q.1 s1.alertsById = some q.2 := by
      intro q hq
      have hne : q.1 ≠ p.1 := by
        intro he
        refine hknotrest ?_
        rw [← he]
        exact mem_keysOf.2 ⟨q.2, hq⟩
      rw [hid1, alookup_aerase_ne hne]
      exact hpres q (List.mem_cons_of_mem _ hq)
    obtain ⟨ih1, ih2, ih3, ih4, ih5, ih6⟩ := ih s1 hinv1 hpres1 hndrest
    have hfold : (p :: rest).foldl
        (fun acc q => removeAlertEntry acc q.1 q.2) s =
        rest.foldl (fun acc q => removeAlertEntry acc q.1 q.2) s1 := rfl
    rw [hfold]
    refine ⟨ih1, by rw [ih2, hev1], by rw [ih3, hhp1], by rw [ih4, hfr1],
      ?_, ?_⟩
    · intro k
      rw [ih5 k]
      by_cases hk : k ∈ keysOf rest
      · rw [if_pos hk, if_pos (by rw [keysOf_cons]; right; exact hk)]
      · rw [if_neg hk, hid1]
        by_cases hk2 : k = p.1
        · have hkm : k ∈ keysOf (p :: rest) := by
            rw [keysOf_cons, hk2]
            exact List.mem_cons_self _ _
          rw [if_pos hkm, hk2, alookup_aerase_self hinv.idNodup]
        · have hkm : k ∉ keysOf (p :: rest) := by
            rw [keysOf_cons]
            intro hm
            rcases List.mem_cons.1 hm with h | h
            · exact hk2 h
            · exact hk h
          rw [alookup_aerase_ne hk2, if_neg hkm]
    · intro k x
      rw [ih6 k x, hbgm1 k x]
      constructor
      · rintro ⟨⟨hx, hne⟩, hnr⟩
        refine ⟨hx, ?_⟩
        rw [List.map_cons, List.mem_cons]
        rintro (h | h)
        · exact hne h
        · exact hnr h
      · rintro ⟨hx, hnm⟩
        rw [List.map_cons, List.mem_cons] at hnm
        exact ⟨⟨hx, fun he => hnm (Or.inl he)⟩, fun hm => hnm (Or.inr hm)⟩

/-! ## RemoveEvent -/

theorem AlertStore.ext' {s t : AlertStore} (h1 : s.events = t.events)
    (h2 : s.heap = t.heap) (h3 : s.alertsById = t.alertsById)
    (h4 : s.alertsByTime = t.alertsByTime) (h5 : s.fresh = t.fresh) :
    s = t := by
  cases s
  cases t
  cases h1
  cases h2
  cases h3
  cases h4
  cases h5
  rfl

theorem removeAlertEntry_events (X : AlertStore) (kid : String) (r : Nat) :
    (removeAlertEntry X kid r).events = X.events := by
  simp only [removeAlertEntry, removeAlertFromTimeIndex]
  split <;> rfl

theorem removeAlertEntry_heap (X : AlertStore) (kid : String) (r : Nat) :
    (removeAlertEntry X kid r).heap = X.heap := by
  simp only [removeAlertEntry, removeAlertFromTimeIndex]
  split <;> rfl

theorem removeAlertEntry_fresh (X : AlertStore) (kid : String) (r : Nat) :
    (removeAlertEntry X kid r).fresh = X.fresh := by
  simp only [removeAlertEntry, removeAlertFromTimeIndex]
  split <;> rfl

theorem removeAlertEntry_byId (X : AlertStore) (kid : String) (r : Nat) :
    (removeAlertEntry X kid r).alertsById = aerase kid X.alertsById := by
  simp only [removeAlertEntry, removeAlertFromTimeIndex]
  split <;> rfl

theorem removeFirstByGenID_heap_congr {s' s : AlertStore}
    (h : s'.heap = s.heap) (alertID : String) (b : List Nat) :
    removeFirstByGenID s' alertID b = removeFirstByGenID s alertID b := by
  induction b with
  | nil => rfl
  | cons x rest ih =>
    unfold removeFirstByGenID
    rw [heapGet_congr h, ih]

theorem removeAlertFromTimeIndex_byTime_congr {s' s : AlertStore}
    (hh : s'.heap = s.heap) (hbt : s'.alertsByTime = s.alertsByTime)
    (tk : Int) (kid : String) :
    (removeAlertFromTimeIndex s' tk kid).alertsByTime =
      (removeAlertFromTimeIndex s tk kid).alertsByTime := by
  have h1 : bucketGet s' tk = bucketGet s tk := by
    unfold bucketGet
    rw [hbt]
  simp only [removeAlertFromTimeIndex]
  rw [h1, removeFirstByGenID_heap_congr hh]
  split <;> rw [hbt]

theorem removeAlertEntry_events_comm (acc : AlertStore)
    (E : List (String × Event)) (kid : String) (r : Nat) :
    removeAlertEntry { acc with events := E } kid r =
      { removeAlertEntry acc kid r with events := E } := by
  refine AlertStore.ext' ?_ ?_ ?_ ?_ ?_
  · show (removeAlertEntry { acc with events := E } kid r).events = E
    rw [removeAlertEntry_events]
  · show (removeAlertEntry { acc with events := E } kid r).heap =
      (removeAlertEntry acc kid r).heap
    rw [removeAlertEntry_heap, removeAlertEntry_heap]
  · show (removeAlertEntry { acc with events := E } kid r).alertsById =
      (removeAlertEntry acc kid r).alertsById
    rw [removeAlertEntry_byId, removeAlertEntry_byId]
  · show (removeAlertFromTimeIndex { acc with events := E }
        (roundToMinute (heapGet acc r).alertTime) kid).alertsByTime =
      (removeAlertFromTimeIndex acc
        (roundToMinute (heapGet acc r).alertTime) kid).alertsByTime
    exact @removeAlertFromTimeIndex_byTime_congr
      { acc with events := E } acc rfl rfl _ _
  · show (removeAlertEntry { acc with events := E } kid r).fresh =
      (removeAlertEntry acc kid r).fresh
    rw [removeAlertEntry_fresh, removeAlertEntry_fresh]

theorem removeEntriesFold_events_comm (victims : List (String × Nat)) :
    ∀ (acc : AlertStore) (E : List (String × Event)),
    victims.foldl (fun a p => removeAlertEntry a p.1 p.2)
      { acc with events := E } =
    { victims.foldl (fun a p => removeAlertEntry a p.1 p.2) acc with
        events := E } := by
  induction victims with
  | nil => intro acc E; rfl
  | cons p rest ih =>
    intro acc E
    show rest.foldl (fun a q => removeAlertEntry a q.1 q.2)
        (removeAlertEntry { acc with events := E } p.1 p.2) = _
    rw [removeAlertEntry_events_comm, ih]
    rfl

theorem removeEvent_spec {s : AlertStore} (hinv : StoreInv s) (eid : String) :
    StoreInv (removeEvent s eid) ∧
    (removeEvent s eid).events = aerase eid s.events ∧
    (removeEvent s eid).heap = s.heap ∧
    (removeEvent s eid).fresh = s.fresh ∧
    (∀ p ∈ (removeEvent s eid).alertsById,
      p ∈ s.alertsById ∧ (heapGet s p.2).eventID ≠ eid) ∧
    (∀ p ∈ s.alertsById, (heapGet s p.2).eventID ≠ eid →
      p ∈ (removeEvent s eid).alertsById) ∧
    (∀ k x, x ∈ bucketGet (removeEvent s eid) k ↔
      (x ∈ bucketGet s k ∧
        x ∉ (s.alertsById.filter fun p =>
          decide ((heapGet s p.2).eventID = eid)).map Prod.snd)) := by
  set victims := s.alertsById.filter fun p =>
    decide ((heapGet s p.2).eventID = eid) with hvics
  have hre : removeEvent s eid =
      { victims.foldl (fun a p => removeAlertEntry a p.1 p.2) s with
          events := aerase eid s.events } := by
    show victims.foldl (fun a p => removeAlertEntry a p.1 p.2)
      { s with events := aerase eid s.events } = _
    exact removeEntriesFold_events_comm victims s (aerase eid s.events)
  have hpres : ∀ p ∈ victims, alookup p.1 s.alertsById = some p.2 := by
    intro p hp
    exact hinv.lookupId (List.mem_of_mem_filter hp)
  have hnd : (keysOf victims).Nodup := by
    have : victims.Sublist s.alertsById := List.filter_sublist _
    exact ((this.map Prod.fst)).nodup hinv.idNodup
  obtain ⟨f1, f2, f3, f4, f5, f6⟩ :=
    removeEntriesFold_spec victims s hinv hpres hnd
  set sf := victims.foldl (fun a p => removeAlertEntry a p.1 p.2) s with hsf
  have hkeyvic : ∀ k : String, k ∈ keysOf victims ↔
      ∃ q ∈ s.alertsById, q.1 = k ∧ (heapGet s q.2).eventID = eid := by
    intro k
    constructor
    · intro hk
      rcases mem_keysOf.1 hk with ⟨v, hv⟩
      have h1 := List.mem_of_mem_filter hv
      have h2 := List.of_mem_filter hv
      simp only [decide_eq_true_eq] at h2
      exact ⟨(k, v), h1, rfl, h2⟩
    · rintro ⟨q, hq, hqe, hqf⟩
      refine mem_keysOf.2 ⟨q.2, ?_⟩
      rw [← hqe]
      exact List.mem_filter.2 ⟨hq, by simp [hqf]⟩
  have hmemf : ∀ p : String × Nat, p ∈ sf.alertsById ↔
      (p ∈ s.alertsById ∧ (heapGet s p.2).eventID ≠ eid) := by
    intro p
    constructor
    · intro hp
      have hlk : alookup p.1 sf.alertsById = some p.2 := f1.lookupId hp
      rw [f5 p.1] at hlk
      by_cases hk : p.1 ∈ keysOf victims
      · rw [if_pos hk] at hlk
        cases hlk
      · rw [if_neg hk] at hlk
        refine ⟨alookup_mem hlk, ?_⟩
        intro hf
        exact hk ((hkeyvic p.1).2 ⟨p, alookup_mem hlk, rfl, hf⟩)
    · rintro ⟨hp, hf⟩
      have hk : p.1 ∉ keysOf victims := by
        intro hk
        rcases (hkeyvic p.1).1 hk with ⟨q, hq, hqe, hqf⟩
        have := hinv.entry_eq_of_key hq hp hqe
        rw [this] at hqf
        exact hf hqf
      have hlk : alookup p.1 sf.alertsById = some p.2 := by
        rw [f5 p.1, if_neg hk]
        exact hinv.lookupId hp
      exact alookup_mem hlk
  have hinvf : StoreInv (removeEvent s eid) := by
    rw [hre]
    refine events_set_inv f1
      ((keysOf_aerase_sublist eid s.events).nodup hinv.evNodup) ?_
    intro p hp
    have h1 := (hmemf p).1 hp
    have h2 : heapGet sf p.2 = heapGet s p.2 := heapGet_congr f3 p.2
    rw [h2]
    exact mem_keysOf_aerase h1.2 (hinv.orphan p h1.1)
  have hbyId : (removeEvent s eid).alertsById = sf.alertsById := by
    rw [hre]
  have hbgr : ∀ k, bucketGet (removeEvent s eid) k = bucketGet sf k := by
    intro k
    unfold bucketGet
    rw [hre]
  refine ⟨hinvf, by rw [hre], by rw [hre]; exact f3, by rw [hre]; exact f4,
    ?_, ?_, ?_⟩
  · intro p hp
    rw [hbyId] at hp
    exact (hmemf p).1 hp
  · intro p hp hf
    rw [hbyId]
    exact (hmemf p).2 ⟨hp, hf⟩
  · intro k x
    rw [hbgr k]
    exact f6 k x

/-! ## The config-diff removal loop of updateAlertsForEvent -/

theorem updateAlertsPhase2_spec {s : AlertStore} (hinv : StoreInv s)
    (eid : String) (mins : List Int) :
    StoreInv (updateAlertsPhase2 s eid mins) ∧
    (updateAlertsPhase2 s eid mins).events = s.events ∧
    (updateAlertsPhase2 s eid mins).heap = s.heap ∧
    (updateAlertsPhase2 s eid mins).fresh = s.fresh ∧
    (∀ p ∈ (updateAlertsPhase2 s eid mins).alertsById,
      p ∈ s.alertsById ∧ phase2Victim s eid mins p = false) ∧
    (∀ p ∈ s.alertsById, phase2Victim s eid mins p = false →
      p ∈ (updateAlertsPhase2 s eid mins).alertsById) ∧
    (∀ k x, x ∈ bucketGet (updateAlertsPhase2 s eid mins) k ↔
      (x ∈ bucketGet s k ∧
        x ∉ (s.alertsById.filter (phase2Victim s eid mins)).map Prod.snd)) := by
  have hdef : updateAlertsPhase2 s eid mins =
      (s.alertsById.filter (phase2Victim s eid mins)).foldl
        (fun acc p => removeAlertEntry acc p.1 p.2) s := rfl
  set victims := s.alertsById.filter (phase2Victim s eid mins) with hvics
  have hpres : ∀ p ∈ victims, alookup p.1 s.alertsById = some p.2 :=
    fun p hp => hinv.lookupId (List.mem_of_mem_filter hp)
  have hnd : (keysOf victims).Nodup :=
    ((List.filter_sublist _).map Prod.fst).nodup hinv.idNodup
  obtain ⟨f1, f2, f3, f4, f5, f6⟩ :=
    removeEntriesFold_spec victims s hinv hpres hnd
  rw [hdef]
  have hkeyvic : ∀ k : String, k ∈ keysOf victims ↔
      ∃ q ∈ s.alertsById, q.1 = k ∧ phase2Victim s eid mins q = true := by
    intro k
    constructor
    · intro hk
      rcases mem_keysOf.1 hk with ⟨v, hv⟩
      exact ⟨(k, v), List.mem_of_mem_filter hv, rfl, List.of_mem_filter hv⟩
    · rintro ⟨q, hq, hqe, hqf⟩
      refine mem_keysOf.2 ⟨q.2, ?_⟩
      rw [← hqe]
      exact List.mem_filter.2 ⟨hq, hqf⟩
  refine ⟨f1, f2, f3, f4, ?_, ?_, f6⟩
  · intro p hp
    have hlk : alookup p.1 _ = some p.2 := f1.lookupId hp
    rw [f5 p.1] at hlk
    by_cases hk : p.1 ∈ keysOf victims
    · rw [if_pos hk] at hlk
      cases hlk
    · rw [if_neg hk] at hlk
      refine ⟨alookup_mem hlk, ?_⟩
      by_contra hf
      rw [Bool.not_eq_false] at hf
      exact hk ((hkeyvic p.1).2 ⟨p, alookup_mem hlk, rfl, hf⟩)
  · intro p hp hf
    have hk : p.1 ∉ keysOf victims := by
      intro hk
      rcases (hkeyvic p.1).1 hk with ⟨q, hq, hqe, hqf⟩
      have := hinv.entry_eq_of_key hq hp hqe
      rw [this] at hqf
      rw [hf] at hqf
      cases hqf
    have hlk : alookup p.1 ((victims.foldl
        (fun acc q => removeAlertEntry acc q.1 q.2) s)).alertsById =
        some p.2 := by
      rw [f5 p.1, if_neg hk]
      exact hinv.lookupId hp
    exact alookup_mem hlk

/-! ## The per-offset loop of updateAlertsForEvent, and alert creation -/

theorem phase1Fold_false (now : Int) (eid : String) (ev : Event) :
    ∀ (mins : List Int) (acc : AlertStore × Bool), acc.2 = false →
    (mins.foldl (phase1Step now eid ev) acc).2 = false := by
  intro mins
  induction mins with
  | nil => exact fun acc h => h
  | cons m rest ih =>
    intro acc hacc
    refine ih (phase1Step now eid ev acc m) ?_
    unfold phase1Step
    rcases hlk : alookup (generateAlertID eid (-m)) acc.1.alertsById with _ | r
    · simp only [hlk]
      split
      · exact hacc
      · simp [hacc]
    · simp only [hlk]
      exact hacc

theorem createFold_false (now : Int) (eid : String) (ev : Event)
    (cfg : Option Config) :
    ∀ (mins : List Int) (acc : AlertStore × Bool), acc.2 = false →
    (mins.foldl (createStep now eid ev cfg) acc).2 = false := by
  intro mins
  induction mins with
  | nil => exact fun acc h => h
  | cons m rest ih =>
    intro acc hacc
    refine ih (createStep now eid ev cfg acc m) ?_
    unfold createStep
    by_cases ht : ev.startTime - 60 * m < now
    · simp [ht, hacc]
    · simp [ht, hacc]

theorem phase1Fold_inv (now : Int) (eid : String) (ev : Event) :
    ∀ (mins : List Int) (s : AlertStore) (b : Bool), StoreInv s →
    eid ∈ keysOf s.events →
    StoreInv (mins.foldl (phase1Step now eid ev) (s, b)).1 ∧
    (mins.foldl (phase1Step now eid ev) (s, b)).1.events = s.events := by
  intro mins
  induction mins with
  | nil => exact fun s b hinv _ => ⟨hinv, rfl⟩
  | cons m rest ih =>
    intro s b hinv hev
    rcases hlk : alookup (generateAlertID eid (-m)) s.alertsById with _ | r
    · by_cases ht : ev.startTime - 60 * m < now
      · have hstep : phase1Step now eid ev (s, b) m = (s, b) := by
          simp only [phase1Step]
          rw [hlk]
          simp [ht]
        rw [List.foldl_cons, hstep]
        exact ih s b hinv hev
      · have hstep : phase1Step now eid ev (s, b) m =
            ((insertAlertC s (generateAlertID eid (-m))
              ⟨eid, AlertStatus.Pending, ev.startTime - 60 * m, -m⟩).1,
             b && (insertAlertC s (generateAlertID eid (-m))
              ⟨eid, AlertStatus.Pending, ev.startTime - 60 * m, -m⟩).2) := by
          simp only [phase1Step]
          rw [hlk]
          simp [ht]
        rw [List.foldl_cons, hstep]
        have hinv1 := insertAlertC_inv s (generateAlertID eid (-m))
          ⟨eid, AlertStatus.Pending, ev.startTime - 60 * m, -m⟩ hinv hlk rfl hev
        have hev1 : eid ∈ keysOf ((insertAlertC s (generateAlertID eid (-m))
            ⟨eid, AlertStatus.Pending, ev.startTime - 60 * m, -m⟩).1).events := by
          rw [insertAlertC_events]
          exact hev
        obtain ⟨h1, h2⟩ := ih _ _ hinv1 hev1
        refine ⟨h1, ?_⟩
        rw [h2, insertAlertC_events]
    · have hstep : phase1Step now eid ev (s, b) m =
          (relocateAlert s (generateAlertID eid (-m)) r
            (ev.startTime - 60 * m), b) := by
        simp only [phase1Step]
        rw [hlk]
      rw [List.foldl_cons, hstep]
      obtain ⟨hinvr, hevr, _, _, _, _, _⟩ := relocateAlert_spec hinv hlk
        (ev.startTime - 60 * m)
      have hev1 : eid ∈ keysOf (relocateAlert s (generateAlertID eid (-m)) r
          (ev.startTime - 60 * m)).events := by
        rw [hevr]
        exact hev
      obtain ⟨h1, h2⟩ := ih _ _ hinvr hev1
      refine ⟨h1, ?_⟩
      rw [h2, hevr]

theorem createFold_inv (now : Int) (eid : String) (ev : Event)
    (cfg : Option Config) :
    ∀ (mins : List Int) (s : AlertStore) (b : Bool), StoreInv s →
    eid ∈ keysOf s.events →
    (mins.foldl (createStep now eid ev cfg) (s, b)).2 = true →
    StoreInv (mins.foldl (createStep now eid ev cfg) (s, b)).1 ∧
    (mins.foldl (createStep now eid ev cfg) (s, b)).1.events = s.events := by
  intro mins
  induction mins with
  | nil => exact fun s b hinv _ _ => ⟨hinv, rfl⟩
  | cons m rest ih =>
    intro s b hinv hev hok
    rw [List.foldl_cons] at hok ⊢
    by_cases ht : ev.startTime - 60 * m < now
    · have hstep : createStep now eid ev cfg (s, b) m = (s, b) := by
        unfold createStep
        simp [ht]
      rw [hstep] at hok ⊢
      exact ih s b hinv hev hok
    · set st := match cfg with
        | some c => if c.isTimeInQuietTime (ev.startTime - 60 * m) then
            AlertStatus.Muted else AlertStatus.Pending
        | none => AlertStatus.Pending with hst
      have hstep : createStep now eid ev cfg (s, b) m =
          ((insertAlertC s (generateAlertID eid (-m))
            ⟨eid, st, ev.startTime - 60 * m, -m⟩).1,
           b && (insertAlertC s (generateAlertID eid (-m))
            ⟨eid, st, ev.startTime - 60 * m, -m⟩).2) := by
        unfold createStep
        simp only [ht, if_neg, hst]
        rfl
      rw [hstep] at hok ⊢
      have hok2 : (b && (insertAlertC s (generateAlertID eid (-m))
          ⟨eid, st, ev.startTime - 60 * m, -m⟩).2) = true := by
        by_contra hc
        rw [Bool.not_eq_true] at hc
        rw [createFold_false now eid ev cfg rest _ hc] at hok
        cases hok
      rw [Bool.and_eq_true] at hok2
      have hfresh : alookup (generateAlertID eid (-m)) s.alertsById = none :=
        (insertAlertC_snd _ _ _).1 hok2.2
      have hinv1 := insertAlertC_inv s (generateAlertID eid (-m))
        ⟨eid, st, ev.startTime - 60 * m, -m⟩ hinv hfresh rfl hev
      have hev1 : eid ∈ keysOf ((insertAlertC s (generateAlertID eid (-m))
          ⟨eid, st, ev.startTime - 60 * m, -m⟩).1).events := by
        rw [insertAlertC_events]
        exact hev
      obtain ⟨h1, h2⟩ := ih _ _ hinv1 hev1 hok
      refine ⟨h1, ?_⟩
      rw [h2, insertAlertC_events]

theorem updateAlertsForEventC_inv {s : AlertStore} (hinv : StoreInv s)
    (now : Int) (eid : String) (ev : Event) (mins : List Int)
    (hev : eid ∈ keysOf s.events) :
    StoreInv (updateAlertsForEventC s now eid ev mins).1 ∧
    (updateAlertsForEventC s now eid ev mins).1.events = s.events := by
  obtain ⟨h1, h2⟩ := phase1Fold_inv now eid ev mins s true hinv hev
  obtain ⟨g1, g2, _, _, _, _, _⟩ := updateAlertsPhase2_spec h1 eid mins
  refine ⟨g1, ?_⟩
  show (updateAlertsPhase2
    (mins.foldl (phase1Step now eid ev) (s, true)).1 eid mins).events =
    s.events
  rw [g2, h2]

theorem createAlertsForEventWithConfigC_inv {s : AlertStore}
    (hinv : StoreInv s) (now : Int) (eid : String) (ev : Event)
    (mins : List Int) (cfg : Option Config) (hev : eid ∈ keysOf s.events)
    (hok : (createAlertsForEventWithConfigC s now eid ev mins cfg).2 = true) :
    StoreInv (createAlertsForEventWithConfigC s now eid ev mins cfg).1 ∧
    (createAlertsForEventWithConfigC s now eid ev mins cfg).1.events =
      s.events :=
  createFold_inv now eid ev cfg mins s true hinv hev hok

/-! ## Eviction (cleanupOldAlerts) -/

theorem foldl_aerase_sublist {κ β : Type} [DecidableEq κ] (K : List κ) :
    ∀ (l0 : List (κ × β)),
    (K.foldl (fun l kk => aerase kk l) l0).Sublist l0 := by
  induction K with
  | nil => exact fun l0 => List.Sublist.refl l0
  | cons k rest ih =>
    intro l0
    exact (ih (aerase k l0)).trans (aerase_sublist k l0)

theorem alookup_foldl_aerase {κ β : Type} [DecidableEq κ] (K : List κ) :
    ∀ (l0 : List (κ × β)), (keysOf l0).Nodup → ∀ k,
    alookup k (K.foldl (fun l kk => aerase kk l) l0) =
      if k ∈ K then none else alookup k l0 := by
  induction K with
  | nil =>
    intro l0 _ k
    simp
  | cons k0 rest ih =>
    intro l0 hnd k
    have hnd1 : (keysOf (aerase k0 l0)).Nodup :=
      (keysOf_aerase_sublist k0 l0).nodup hnd
    rw [List.foldl_cons, ih (aerase k0 l0) hnd1 k]
    by_cases hk : k ∈ rest
    · rw [if_pos hk, if_pos (List.mem_cons_of_mem _ hk)]
    · rw [if_neg hk]
      by_cases hk0 : k = k0
      · rw [if_pos (by rw [hk0]; exact List.mem_cons_self _ _), hk0,
          alookup_aerase_self hnd]
      · rw [alookup_aerase_ne hk0, if_neg (by
          intro hm
          rcases List.mem_cons.1 hm with h | h
          · exact hk0 h
          · exact hk h)]

theorem cleanupInner_char (s0 : AlertStore) :
    ∀ (refs : List Nat) (acc : AlertStore), acc.heap = s0.heap →
    (refs.foldl dropAlertFromById acc).events = acc.events ∧
    (refs.foldl dropAlertFromById acc).heap = acc.heap ∧
    (refs.foldl dropAlertFromById acc).alertsByTime = acc.alertsByTime ∧
    (refs.foldl dropAlertFromById acc).fresh = acc.fresh ∧
    (refs.foldl dropAlertFromById acc).alertsById =
      (refs.map fun r => generateAlertID (heapGet s0 r).eventID
        (heapGet s0 r).alertOffset).foldl (fun l kk => aerase kk l)
        acc.alertsById := by
  intro refs
  induction refs with
  | nil => exact fun acc _ => ⟨rfl, rfl, rfl, rfl, rfl⟩
  | cons r rest ih =>
    intro acc hh
    have hgr : heapGet acc r = heapGet s0 r := heapGet_congr hh r
    have hstep : dropAlertFromById acc r =
        { acc with
          alertsById := aerase (generateAlertID (heapGet acc r).eventID
            (heapGet acc r).alertOffset) acc.alertsById } := rfl
    set acc1 : AlertStore :=
      { acc with
        alertsById := aerase (generateAlertID (heapGet acc r).eventID
          (heapGet acc r).alertOffset) acc.alertsById } with hacc1
    have hh1 : acc1.heap = s0.heap := hh
    obtain ⟨i1, i2, i3, i4, i5⟩ := ih acc1 hh1
    rw [List.foldl_cons, hstep]
    refine ⟨i1, i2, i3, i4, ?_⟩
    rw [i5]
    show _ = ((generateAlertID (heapGet s0 r).eventID
        (heapGet s0 r).alertOffset) :: (rest.map fun x =>
        generateAlertID (heapGet s0 x).eventID
          (heapGet s0 x).alertOffset)).foldl (fun l kk => aerase kk l)
        acc.alertsById
    rw [List.foldl_cons, ← hgr]

theorem dropBucket_spec {s : AlertStore} (hinv : StoreInv s) {tk : Int}
    {refs : List Nat} (hb : alookup tk s.alertsByTime = some refs) :
    StoreInv (dropBucket s (tk, refs)) ∧
    (dropBucket s (tk, refs)).events = s.events ∧
    (dropBucket s (tk, refs)).heap = s.heap ∧
    (dropBucket s (tk, refs)).fresh = s.fresh ∧
    (∀ p : String × Nat, p ∈ (dropBucket s (tk, refs)).alertsById ↔
      (p ∈ s.alertsById ∧
        roundToMinute (heapGet s p.2).alertTime ≠ tk)) ∧
    (dropBucket s (tk, refs)).alertsByTime = aerase tk s.alertsByTime := by
  have hbg : bucketGet s tk = refs := by
    rw [bucketGet, hb]
    rfl
  obtain ⟨i1, i2, i3, i4, i5⟩ := cleanupInner_char s refs s rfl
  set K := refs.map fun r => generateAlertID (heapGet s r).eventID
    (heapGet s r).alertOffset with hK
  set sc := refs.foldl dropAlertFromById s with hsc
  have hd : dropBucket s (tk, refs) =
      { sc with alertsByTime := aerase tk sc.alertsByTime } := rfl
  have hbyId : (dropBucket s (tk, refs)).alertsById =
      K.foldl (fun l kk => aerase kk l) s.alertsById := by
    rw [hd]
    exact i5
  have hbt : (dropBucket s (tk, refs)).alertsByTime =
      aerase tk s.alertsByTime := by
    rw [hd]
    show aerase tk sc.alertsByTime = aerase tk s.alertsByTime
    rw [i3]
  have hhp : (dropBucket s (tk, refs)).heap = s.heap := by
    rw [hd]
    exact i2
  have hget : ∀ x, heapGet (dropBucket s (tk, refs)) x = heapGet s x :=
    heapGet_congr hhp
  have hrhome : ∀ r ∈ refs, roundToMinute (heapGet s r).alertTime = tk := by
    intro r hr
    rcases mem_refsOf.1 (hinv.bucketSub tk r (hbg ▸ hr)) with ⟨q, hq, hqe⟩
    by_contra hne
    have h0 : (bucketGet s tk).count q.2 = 0 :=
      hinv.count_ne_home hq (by rw [hqe]; exact fun hh => hne hh.symm)
    rw [hbg] at h0
    have := List.count_pos_iff.2 (hqe ▸ hr)
    omega
  have hKiff : ∀ p : String × Nat, p ∈ s.alertsById →
      (p.1 ∈ K ↔ roundToMinute (heapGet s p.2).alertTime = tk) := by
    intro p hp
    constructor
    · intro hk
      rcases List.mem_map.1 hk with ⟨r, hr, hre⟩
      rcases mem_refsOf.1 (hinv.bucketSub tk r (hbg ▸ hr)) with ⟨q, hq, hqe⟩
      have hqk : q.1 = p.1 := by
        rw [hinv.keyCons q hq, hqe, hre]
      have := hinv.entry_eq_of_key hq hp hqk
      rw [← this, hqe]
      exact hrhome r hr
    · intro hh
      have hmem : p.2 ∈ refs := by
        rw [← hbg, ← hh]
        exact hinv.mem_home hp
      refine List.mem_map.2 ⟨p.2, hmem, ?_⟩
      exact (hinv.keyCons p hp).symm
  have hndf : (keysOf (K.foldl (fun l kk => aerase kk l)
      s.alertsById)).Nodup :=
    ((foldl_aerase_sublist K s.alertsById).map Prod.fst).nodup hinv.idNodup
  have hmemiff : ∀ p : String × Nat,
      p ∈ (dropBucket s (tk, refs)).alertsById ↔
      (p ∈ s.alertsById ∧ roundToMinute (heapGet s p.2).alertTime ≠ tk) := by
    intro p
    rw [hbyId]
    constructor
    · intro hp
      have hps : p ∈ s.alertsById := (foldl_aerase_sublist K _).mem hp
      have hlk : alookup p.1 (K.foldl (fun l kk => aerase kk l)
          s.alertsById) = some p.2 := alookup_of_mem hndf hp
      rw [alookup_foldl_aerase K s.alertsById hinv.idNodup] at hlk
      by_cases hk : p.1 ∈ K
      · rw [if_pos hk] at hlk
        cases hlk
      · rw [if_neg hk] at hlk
        exact ⟨hps, fun hh => hk ((hKiff p hps).2 hh)⟩
    · rintro ⟨hps, hne⟩
      have hk : p.1 ∉ K := fun hk => hne ((hKiff p hps).1 hk)
      have hlk : alookup p.1 (K.foldl (fun l kk => aerase kk l)
          s.alertsById) = some p.2 := by
        rw [alookup_foldl_aerase K s.alertsById hinv.idNodup, if_neg hk]
        exact hinv.lookupId hps
      exact alookup_mem hlk
  refine ⟨?_, by rw [hd]; exact i1, hhp, by rw [hd]; exact i4, hmemiff, hbt⟩
  have hbgd : ∀ k, bucketGet (dropBucket s (tk, refs)) k =
      if k = tk then [] else bucketGet s k := by
    intro k
    unfold bucketGet
    rw [hbt]
    by_cases hk : k = tk
    · rw [if_pos hk, hk, alookup_aerase_self hinv.timeNodup]
      rfl
    · rw [if_neg hk, alookup_aerase_ne hk]
  have hbtcd : ∀ x, btcL (dropBucket s (tk, refs)).alertsByTime x +
      refs.count x = btcL s.alertsByTime x := by
    intro x
    have h1 := @btcL_aerase s.alertsByTime tk x
    rw [hb] at h1
    simp only [Option.getD_some] at h1
    rw [hbt]
    exact h1
  constructor
  case idNodup =>
    rw [hbyId]
    exact hndf
  case refsNodup =>
    unfold refsOf
    rw [hbyId]
    exact ((foldl_aerase_sublist K _).map Prod.snd).nodup hinv.refsNodup
  case timeNodup =>
    rw [hbt]
    exact (keysOf_aerase_sublist tk _).nodup hinv.timeNodup
  case heapNodup =>
    unfold heapKeys
    rw [hhp]
    exact hinv.heapNodup
  case heapLt =>
    intro q hq
    rw [hhp] at hq
    rw [hd]
    show q.1 < sc.fresh
    rw [i4]
    exact hinv.heapLt q hq
  case refMem =>
    intro p hp
    unfold heapKeys
    rw [hhp]
    exact hinv.refMem p ((hmemiff p).1 hp).1
  case keyCons =>
    intro p hp
    rw [hget]
    exact hinv.keyCons p ((hmemiff p).1 hp).1
  case totalOne =>
    intro p hp
    obtain ⟨hps, hne⟩ := (hmemiff p).1 hp
    show btcL (dropBucket s (tk, refs)).alertsByTime p.2 = 1
    have h2 : refs.count p.2 = 0 := by
      refine List.count_eq_zero.2 ?_
      intro hm
      exact hne (hrhome p.2 hm)
    have hA := hbtcd p.2
    have hB := hinv.totalOne p hps
    unfold bucketTotalCount at hB
    omega
  case homeOne =>
    intro p hp
    obtain ⟨hps, hne⟩ := (hmemiff p).1 hp
    unfold homeBucketCount
    rw [hget, hbgd, if_neg hne]
    exact hinv.homeOne p hps
  case bucketSub =>
    intro k x hx
    rw [hbgd] at hx
    by_cases hk : k = tk
    · rw [if_pos hk] at hx
      cases hx
    · rw [if_neg hk] at hx
      have hxs : x ∈ refsOf s := hinv.bucketSub k x hx
      rcases mem_refsOf.1 hxs with ⟨q, hq, hqe⟩
      refine mem_refsOf.2 ⟨q, ?_, hqe⟩
      refine (hmemiff q).2 ⟨hq, ?_⟩
      intro hh
      have hcnt : (bucketGet s k).count q.2 = 0 :=
        hinv.count_ne_home hq (by
          rw [hh]
          exact hk)
      have := List.count_pos_iff.2 (hqe ▸ hx)
      omega
  case evNodup =>
    have : (dropBucket s (tk, refs)).events = s.events := by
      rw [hd]
      exact i1
    unfold keysOf
    rw [this]
    exact hinv.evNodup
  case orphan =>
    intro p hp
    have hevs : (dropBucket s (tk, refs)).events = s.events := by
      rw [hd]
      exact i1
    rw [hget]
    have hk : keysOf (dropBucket s (tk, refs)).events =
        keysOf s.events := by
      unfold keysOf
      rw [hevs]
    rw [hk]
    exact hinv.orphan p ((hmemiff p).1 hp).1

theorem dropBuckets_fold_spec :
    ∀ (L : List (Int × List Nat)) (s : AlertStore), StoreInv s →
    (∀ b ∈ L, alookup b.1 s.alertsByTime = some b.2) →
    (keysOf L).Nodup →
    StoreInv (L.foldl dropBucket s) ∧
    (L.foldl dropBucket s).events = s.events ∧
    (L.foldl dropBucket s).heap = s.heap ∧
    (L.foldl dropBucket s).fresh = s.fresh ∧
    (∀ p : String × Nat, p ∈ (L.foldl dropBucket s).alertsById ↔
      (p ∈ s.alertsById ∧
        roundToMinute (heapGet s p.2).alertTime ∉ keysOf L)) ∧
    (∀ k, alookup k (L.foldl dropBucket s).alertsByTime =
      if k ∈ keysOf L then none else alookup k s.alertsByTime) := by
  intro L
  induction L with
  | nil =>
    intro s hinv _ _
    exact ⟨hinv, rfl, rfl, rfl, fun p => by simp [keysOf], fun k => by
      simp [keysOf]⟩
  | cons b0 rest ih =>
    intro s hinv hpres hnd
    have hb0 : alookup b0.1 s.alertsByTime = some b0.2 :=
      hpres b0 (List.mem_cons_self _ _)
    have hb0' : alookup b0.1 s.alertsByTime = some b0.2 := hb0
    obtain ⟨d1, d2, d3, d4, d5, d6⟩ :=
      @dropBucket_spec s hinv b0.1 b0.2 hb0
    have hdb : dropBucket s b0 = dropBucket s (b0.1, b0.2) := by
      rw [Prod.mk.eta]
    rw [keysOf_cons] at hnd
    have hk0 : b0.1 ∉ keysOf rest := (List.nodup_cons.1 hnd).1
    have hndr : (keysOf rest).Nodup := (List.nodup_cons.1 hnd).2
    set s1 := dropBucket s (b0.1, b0.2) with hs1
    have hpres1 : ∀ b ∈ rest, alookup b.1 s1.alertsByTime = some b.2 := by
      intro b hb
      rw [d6]
      have hne : b.1 ≠ b0.1 := by
        intro he
        exact hk0 (he ▸ mem_keysOf.2 ⟨b.2, hb⟩)
      rw [alookup_aerase_ne hne]
      exact hpres b (List.mem_cons_of_mem _ hb)
    obtain ⟨i1, i2, i3, i4, i5, i6⟩ := ih s1 d1 hpres1 hndr
    have hfold : (b0 :: rest).foldl dropBucket s =
        rest.foldl dropBucket s1 := by
      rw [List.foldl_cons, hdb]
    rw [hfold]
    have hget1 : ∀ x, heapGet s1 x = heapGet s x := heapGet_congr d3
    refine ⟨i1, by rw [i2, d2], by rw [i3, d3], by rw [i4, d4], ?_, ?_⟩
    · intro p
      rw [i5 p]
      constructor
      · rintro ⟨hp1, hp2⟩
        obtain ⟨hps, hne⟩ := (d5 p).1 hp1
        refine ⟨hps, ?_⟩
        rw [keysOf_cons]
        intro hm
        rcases List.mem_cons.1 hm with h | h
        · exact hne h
        · rw [hget1] at hp2
          exact hp2 h
      · rintro ⟨hps, hnm⟩
        rw [keysOf_cons] at hnm
        have hne : roundToMinute (heapGet s p.2).alertTime ≠ b0.1 :=
          fun he => hnm (he ▸ List.mem_cons_self _ _)
        refine ⟨(d5 p).2 ⟨hps, hne⟩, ?_⟩
        rw [hget1]
        intro hm
        exact hnm (List.mem_cons_of_mem _ hm)
    · intro k
      rw [i6 k, d6]
      by_cases hk : k ∈ keysOf rest
      · have hm1 : k ∈ keysOf (b0 :: rest) := by
          rw [keysOf_cons]
          exact List.mem_cons_of_mem _ hk
        rw [if_pos hk, if_pos hm1]
      · rw [if_neg hk]
        by_cases hk2 : k = b0.1
        · have hm1 : k ∈ keysOf (b0 :: rest) := by
            rw [keysOf_cons, hk2]
            exact List.mem_cons_self _ _
          rw [if_pos hm1, hk2, alookup_aerase_self hinv.timeNodup]
        · have hm1 : k ∉ keysOf (b0 :: rest) := by
            rw [keysOf_cons]
            intro hm
            rcases List.mem_cons.1 hm with h | h
            · exact hk2 h
            · exact hk h
          rw [alookup_aerase_ne hk2, if_neg hm1]

/-- `cleanupOldAlerts` under the assumption that every stored event is at or
after the cutoff (which `UpdateEventsWithConfig` establishes before calling
it): evicts exactly the buckets below the cutoff minute together with their
alerts, and leaves events untouched. -/
theorem cleanupOldAlerts_spec {s : AlertStore} (hinv : StoreInv s)
    (cutoffTime : Int)
    (hev : ∀ q ∈ s.events, ¬(q.2.startTime < cutoffTime)) :
    StoreInv (cleanupOldAlerts s cutoffTime) ∧
    (cleanupOldAlerts s cutoffTime).events = s.events ∧
    (cleanupOldAlerts s cutoffTime).heap = s.heap ∧
    (cleanupOldAlerts s cutoffTime).fresh = s.fresh ∧
    (∀ p : String × Nat, p ∈ (cleanupOldAlerts s cutoffTime).alertsById ↔
      (p ∈ s.alertsById ∧ roundToMinute cutoffTime ≤
        roundToMinute (heapGet s p.2).alertTime)) ∧
    (∀ k, bucketGet (cleanupOldAlerts s cutoffTime) k =
      if k < roundToMinute cutoffTime then [] else bucketGet s k) ∧
    (∀ b ∈ (cleanupOldAlerts s cutoffTime).alertsByTime,
      ¬(b.1 < roundToMinute cutoffTime)) := by
  set cutoffKey := roundToMinute cutoffTime with hck
  set oldBuckets := s.alertsByTime.filter
    (fun p => decide (p.1 < cutoffKey)) with hob
  have hpres : ∀ b ∈ oldBuckets, alookup b.1 s.alertsByTime = some b.2 :=
    fun b hb => alookup_of_mem hinv.timeNodup (List.mem_of_mem_filter hb)
  have hnd : (keysOf oldBuckets).Nodup :=
    ((List.filter_sublist _).map Prod.fst).nodup hinv.timeNodup
  obtain ⟨f1, f2, f3, f4, f5, f6⟩ :=
    dropBuckets_fold_spec oldBuckets s hinv hpres hnd
  set s1 := oldBuckets.foldl dropBucket s with hs1
  have hkold : ∀ k : Int, k ∈ keysOf oldBuckets ↔
      (k ∈ keysOf s.alertsByTime ∧ k < cutoffKey) := by
    intro k
    constructor
    · intro hk
      rcases mem_keysOf.1 hk with ⟨v, hv⟩
      refine ⟨mem_keysOf.2 ⟨v, List.mem_of_mem_filter hv⟩, ?_⟩
      have := List.of_mem_filter hv
      simpa using this
    · rintro ⟨hk1, hk2⟩
      rcases mem_keysOf.1 hk1 with ⟨v, hv⟩
      exact mem_keysOf.2 ⟨v, List.mem_filter.2 ⟨hv, by simpa using hk2⟩⟩
  have hfilter : s1.events.filter
      (fun p => !decide (p.2.startTime < cutoffTime)) = s1.events := by
    refine List.filter_eq_self.2 ?_
    intro q hq
    rw [f2] at hq
    simp only [Bool.not_eq_true']
    rw [decide_eq_false_iff_not]
    exact hev q hq
  have hcl : cleanupOldAlerts s cutoffTime =
      { s1 with
        events := s1.events.filter
          (fun p => !decide (p.2.startTime < cutoffTime)) } := rfl
  have hcl2 : cleanupOldAlerts s cutoffTime = s1 := by
    rw [hcl, hfilter]
  rw [hcl2]
  refine ⟨f1, by rw [f2], f3, f4, ?_, ?_, ?_⟩
  · intro p
    rw [f5 p]
    constructor
    · rintro ⟨hps, hnm⟩
      refine ⟨hps, ?_⟩
      by_contra hlt
      push_neg at hlt
      refine hnm ((hkold _).2 ⟨?_, hlt⟩)
      have hm := hinv.mem_home hps
      rcases hbk : alookup (roundToMinute (heapGet s p.2).alertTime)
          s.alertsByTime with _ | l
      · rw [bucketGet, hbk] at hm
        cases hm
      · exact alookup_isSome.1 (by rw [hbk]; rfl)
    · rintro ⟨hps, hle⟩
      refine ⟨hps, ?_⟩
      intro hm
      have := ((hkold _).1 hm).2
      omega
  · intro k
    unfold bucketGet
    rw [f6 k]
    by_cases hk : k ∈ keysOf oldBuckets
    · rw [if_pos hk, if_pos ((hkold k).1 hk).2]
      rfl
    · rw [if_neg hk]
      by_cases hlt : k < cutoffKey
      · rw [if_pos hlt]
        rcases hbk : alookup k s.alertsByTime with _ | l
        · rfl
        · exact absurd ((hkold k).2 ⟨alookup_isSome.1 (by rw [hbk]; rfl),
            hlt⟩) hk
      · rw [if_neg hlt]
  · intro b hb hlt
    have hbl : alookup b.1 s1.alertsByTime = some b.2 :=
      alookup_of_mem f1.timeNodup hb
    rw [f6 b.1] at hbl
    by_cases hbk : b.1 ∈ keysOf oldBuckets
    · rw [if_pos hbk] at hbl
      cases hbl
    · rw [if_neg hbk] at hbl
      exact hbk ((hkold b.1).2 ⟨alookup_isSome.1 (by rw [hbl]; rfl), hlt⟩)

/-! ## The stale-event removal loop of UpdateEventsWithConfig -/

theorem removeEventsFold_spec :
    ∀ (st : List (String × Event)) (s : AlertStore), StoreInv s →
    StoreInv (st.foldl (fun acc p => removeEvent acc p.1) s) ∧
    (st.foldl (fun acc p => removeEvent acc p.1) s).heap = s.heap ∧
    (st.foldl (fun acc p => removeEvent acc p.1) s).fresh = s.fresh ∧
    (∀ k, alookup k (st.foldl (fun acc p => removeEvent acc p.1) s).events =
      if k ∈ keysOf st then none else alookup k s.events) ∧
    (∀ p : String × Nat,
      p ∈ (st.foldl (fun acc p => removeEvent acc p.1) s).alertsById ↔
      (p ∈ s.alertsById ∧ (heapGet s p.2).eventID ∉ keysOf st)) ∧
    (∀ k x, x ∈ bucketGet (st.foldl (fun acc p => removeEvent acc p.1) s) k →
      x ∈ bucketGet s k) ∧
    (∀ k x, x ∈ bucketGet s k → (heapGet s x).eventID ∉ keysOf st →
      x ∈ bucketGet (st.foldl (fun acc p => removeEvent acc p.1) s) k) := by
  intro st
  induction st with
  | nil =>
    intro s hinv
    exact ⟨hinv, rfl, rfl, fun k => by simp [keysOf],
      fun p => by simp [keysOf], fun k x h => h, fun k x h _ => h⟩
  | cons q rest ih =>
    intro s hinv
    obtain ⟨r1, r2, r3, r4, r5, r6, r7⟩ := removeEvent_spec hinv q.1
    set s1 := removeEvent s q.1 with hs1
    have hget1 : ∀ x, heapGet s1 x = heapGet s x := heapGet_congr r3
    have hmem1 : ∀ p : String × Nat, p ∈ s1.alertsById ↔
        (p ∈ s.alertsById ∧ (heapGet s p.2).eventID ≠ q.1) := by
      intro p
      constructor
      · exact r5 p
      · rintro ⟨hp, hf⟩
        exact r6 p hp hf
    have hvic : ∀ x : Nat, x ∈ (s.alertsById.filter fun p =>
        decide ((heapGet s p.2).eventID = q.1)).map Prod.snd ↔
        (∃ p ∈ s.alertsById, p.2 = x ∧ (heapGet s p.2).eventID = q.1) := by
      intro x
      constructor
      · intro hx
        rcases List.mem_map.1 hx with ⟨p, hp, hpe⟩
        exact ⟨p, List.mem_of_mem_filter hp, hpe, by
          have := List.of_mem_filter hp
          simpa using this⟩
      · rintro ⟨p, hp, hpe, hpf⟩
        exact List.mem_map.2 ⟨p, List.mem_filter.2 ⟨hp, by simpa using hpf⟩,
          hpe⟩
    obtain ⟨i1, i2, i3, i4, i5, i6, i7⟩ := ih s1 r1
    have hfold : ((q :: rest).foldl (fun acc p => removeEvent acc p.1) s) =
        rest.foldl (fun acc p => removeEvent acc p.1) s1 := rfl
    rw [hfold]
    refine ⟨i1, by rw [i2, r3], by rw [i3, r4], ?_, ?_, ?_, ?_⟩
    · intro k
      rw [i4 k]
      have hev1 : ∀ k', alookup k' s1.events = alookup k' (aerase q.1 s.events) := by
        intro k'
        rw [r2]
      by_cases hk : k ∈ keysOf rest
      · have hm0 : k ∈ keysOf (q :: rest) := by
          rw [keysOf_cons]
          exact List.mem_cons_of_mem _ hk
        rw [if_pos hk, if_pos hm0]
      · rw [if_neg hk, hev1]
        by_cases hk2 : k = q.1
        · have hm1 : k ∈ keysOf (q :: rest) := by
            rw [keysOf_cons, hk2]
            exact List.mem_cons_self _ _
          rw [if_pos hm1, hk2, alookup_aerase_self hinv.evNodup]
        · have hm1 : k ∉ keysOf (q :: rest) := by
            rw [keysOf_cons]
            intro hm
            rcases List.mem_cons.1 hm with h | h
            · exact hk2 h
            · exact hk h
          rw [alookup_aerase_ne hk2, if_neg hm1]
    · intro p
      rw [i5 p, hmem1 p, hget1]
      rw [keysOf_cons]
      constructor
      · rintro ⟨⟨hp, hf1⟩, hf2⟩
        refine ⟨hp, ?_⟩
        intro hm
        rcases List.mem_cons.1 hm with h | h
        · exact hf1 h
        · exact hf2 h
      · rintro ⟨hp, hf⟩
        exact ⟨⟨hp, fun h => hf (h ▸ List.mem_cons_self _ _)⟩,
          fun h => hf (List.mem_cons_of_mem _ h)⟩
    · intro k x hx
      have h1 := i6 k x hx
      exact ((r7 k x).1 h1).1
    · intro k x hx hf
      rw [keysOf_cons] at hf
      have hx1 : x ∈ bucketGet s1 k := by
        refine (r7 k x).2 ⟨hx, ?_⟩
        intro hv
        rcases (hvic x).1 hv with ⟨p, hp, hpe, hpf⟩
        refine hf ?_
        rw [← hpe, hpf]
        exact List.mem_cons_self _ _
      refine i7 k x hx1 ?_
      rw [hget1]
      intro hm
      exact hf (List.mem_cons_of_mem _ hm)

/-! ## The main loop of UpdateEventsWithConfig -/

theorem reconcileFold_false (now ct : Int) (mins : List Int)
    (cfg : Option Config) :
    ∀ (l : List Event) (acc : AlertStore × List String × Bool),
    acc.2.2 = false →
    (l.foldl (reconcileStep now ct mins cfg) acc).2.2 = false := by
  intro l
  induction l with
  | nil => exact fun acc h => h
  | cons e rest ih =>
    intro acc hacc
    refine ih (reconcileStep now ct mins cfg acc e) ?_
    unfold reconcileStep
    by_cases hlt : e.startTime < ct
    · rw [if_pos hlt]
      exact hacc
    · rw [if_neg hlt]
      rcases hlk : alookup e.id acc.1.events with _ | ex
      · simp only [hlk, hacc, Bool.false_and]
      · simp only [hlk, hacc, Bool.false_and]

theorem reconcileFold_spec (now ct : Int) (mins : List Int)
    (cfg : Option Config) :
    ∀ (l : List Event) (acc : AlertStore × List String × Bool),
    StoreInv acc.1 →
    (∀ id ∈ acc.2.1, ∃ E, alookup id acc.1.events = some E ∧
      ¬(E.startTime < ct)) →
    (l.foldl (reconcileStep now ct mins cfg) acc).2.2 = true →
    StoreInv (l.foldl (reconcileStep now ct mins cfg) acc).1 ∧
    (∀ id ∈ (l.foldl (reconcileStep now ct mins cfg) acc).2.1,
      ∃ E, alookup id (l.foldl (reconcileStep now ct mins cfg) acc).1.events =
        some E ∧ ¬(E.startTime < ct)) ∧
    (∀ eid, (∀ e ∈ l, e.id = eid → e.startTime < ct) →
      alookup eid (l.foldl (reconcileStep now ct mins cfg) acc).1.events =
        alookup eid acc.1.events ∧
      (eid ∈ (l.foldl (reconcileStep now ct mins cfg) acc).2.1 →
        eid ∈ acc.2.1)) := by
  intro l
  induction l with
  | nil =>
    intro acc hinv hseen _
    exact ⟨hinv, hseen, fun eid _ => ⟨rfl, fun h => h⟩⟩
  | cons e rest ih =>
    intro acc hinv hseen hok
    have hfold : ((e :: rest).foldl (reconcileStep now ct mins cfg) acc) =
        rest.foldl (reconcileStep now ct mins cfg)
          (reconcileStep now ct mins cfg acc e) := rfl
    rw [hfold] at hok ⊢
    by_cases hlt : e.startTime < ct
    · have hstep : reconcileStep now ct mins cfg acc e = acc := by
        unfold reconcileStep
        rw [if_pos hlt]
      rw [hstep] at hok ⊢
      obtain ⟨a1, a2, a3⟩ := ih acc hinv hseen hok
      refine ⟨a1, a2, fun eid hh => a3 eid ?_⟩
      intro e' he' hide
      exact hh e' (List.mem_cons_of_mem _ he') hide
    · -- the event is processed
      have hbool : (reconcileStep now ct mins cfg acc e).2.2 = true := by
        by_contra hb
        rw [Bool.not_eq_true] at hb
        rw [reconcileFold_false now ct mins cfg rest _ hb] at hok
        cases hok
      -- the step's store satisfies StoreInv and its events are
      -- `ainsert e.id E' acc.1.events` for the written event E'
      have hstore : ∃ E' : Event, E'.startTime = e.startTime ∧
          StoreInv (reconcileStep now ct mins cfg acc e).1 ∧
          (reconcileStep now ct mins cfg acc e).1.events =
            ainsert e.id E' acc.1.events ∧
          (reconcileStep now ct mins cfg acc e).2.1 = e.id :: acc.2.1 := by
        rcases hlk : alookup e.id acc.1.events with _ | ex
        · -- create branch
          have hstep : reconcileStep now ct mins cfg acc e =
              ((createAlertsForEventWithConfigC
                { acc.1 with events := ainsert e.id e acc.1.events } now e.id e
                mins cfg).1, e.id :: acc.2.1,
               acc.2.2 && (createAlertsForEventWithConfigC
                { acc.1 with events := ainsert e.id e acc.1.events } now e.id e
                mins cfg).2) := by
            simp only [reconcileStep]
            rw [if_neg hlt, hlk]
          have hinv1 : StoreInv
              { acc.1 with events := ainsert e.id e acc.1.events } := by
            refine events_set_inv hinv (keysOf_ainsert_nodup _ hinv.evNodup) ?_
            intro p hp
            exact mem_keysOf_ainsert _ _ (hinv.orphan p hp)
          have hok2 : (createAlertsForEventWithConfigC
              { acc.1 with events := ainsert e.id e acc.1.events } now e.id e
              mins cfg).2 = true := by
            rw [hstep] at hbool
            simp only [Bool.and_eq_true] at hbool
            exact hbool.2
          obtain ⟨g1, g2⟩ := createAlertsForEventWithConfigC_inv hinv1 now e.id
            e mins cfg (mem_keysOf_ainsert_self _ _ _) hok2
          refine ⟨e, rfl, ?_, ?_, ?_⟩
          · rw [hstep]
            exact g1
          · rw [hstep]
            exact g2
          · rw [hstep]
        · -- update branch
          have hstep : reconcileStep now ct mins cfg acc e =
              ((updateAlertsForEventC
                { acc.1 with
                  events := ainsert e.id (mergeEvent ex e) acc.1.events }
                now e.id e mins).1, e.id :: acc.2.1,
               acc.2.2 && (updateAlertsForEventC
                { acc.1 with
                  events := ainsert e.id (mergeEvent ex e) acc.1.events }
                now e.id e mins).2) := by
            simp only [reconcileStep]
            rw [if_neg hlt, hlk]
            rfl
          have hinv1 : StoreInv
              { acc.1 with
                events := ainsert e.id (mergeEvent ex e) acc.1.events } := by
            refine events_set_inv hinv (keysOf_ainsert_nodup _ hinv.evNodup) ?_
            intro p hp
            exact mem_keysOf_ainsert _ _ (hinv.orphan p hp)
          obtain ⟨g1, g2⟩ := updateAlertsForEventC_inv hinv1 now e.id e mins
            (mem_keysOf_ainsert_self _ _ _)
          refine ⟨mergeEvent ex e, rfl, ?_, ?_, ?_⟩
          · rw [hstep]
            exact g1
          · rw [hstep]
            exact g2
          · rw [hstep]
      obtain ⟨E', hEst, hinv', hev', hseen'⟩ := hstore
      have hseenspec : ∀ id ∈ (reconcileStep now ct mins cfg acc e).2.1,
          ∃ E, alookup id (reconcileStep now ct mins cfg acc e).1.events =
            some E ∧ ¬(E.startTime < ct) := by
        intro id hid
        rw [hseen'] at hid
        rw [hev']
        by_cases hide : id = e.id
        · subst hide
          refine ⟨E', alookup_ainsert_self _ _ _, ?_⟩
          rw [hEst]
          exact hlt
        · rcases List.mem_cons.1 hid with h | h
          · exact absurd h hide
          · obtain ⟨E, hE1, hE2⟩ := hseen id h
            exact ⟨E, by rw [alookup_ainsert_ne _ _ hide, hE1], hE2⟩
      obtain ⟨a1, a2, a3⟩ := ih _ hinv' hseenspec hok
      refine ⟨a1, a2, fun eid hh => ?_⟩
      have hne : e.id ≠ eid := by
        intro he
        exact hlt (hh e (List.mem_cons_self _ _) he)
      obtain ⟨b1, b2⟩ := a3 eid (fun e' he' => hh e' (List.mem_cons_of_mem _ he'))
      refine ⟨?_, fun hm => ?_⟩
      · rw [b1, hev', alookup_ainsert_ne _ _ (Ne.symm hne)]
      · have := b2 hm
        rw [hseen'] at this
        rcases List.mem_cons.1 this with h | h
        · exact absurd h.symm hne
        · exact h

/-- The composite behaviour of a full reconciliation pass: it preserves the
store invariant, leaves only events at or after the 12-hour cutoff, empties
every time bucket below the cutoff minute, keeps only alerts whose fire
minute is at or after the cutoff minute, and an event id never mentioned
by a fresh incoming event is either kept verbatim (when its start time is
at or after the cutoff) or removed (when before). -/
theorem updateEventsWithConfigC_spec {s : AlertStore} (hinv : StoreInv s)
    (now : Int) (evs : List Event) (mins : List Int) (cfg : Option Config)
    (hok : (updateEventsWithConfigC s now evs mins cfg).2 = true) :
    StoreInv (updateEventsWithConfigC s now evs mins cfg).1 ∧
    (∀ q ∈ (updateEventsWithConfigC s now evs mins cfg).1.events,
      ¬(q.2.startTime < now - 43200)) ∧
    (∀ k, k < roundToMinute (now - 43200) →
      bucketGet (updateEventsWithConfigC s now evs mins cfg).1 k = []) ∧
    (∀ p ∈ (updateEventsWithConfigC s now evs mins cfg).1.alertsById,
      roundToMinute (now - 43200) ≤ roundToMinute
        (heapGet (updateEventsWithConfigC s now evs mins cfg).1 p.2).alertTime) ∧
    (∀ eid, (∀ e ∈ evs, e.id = eid → e.startTime < now - 43200) →
      alookup eid (updateEventsWithConfigC s now evs mins cfg).1.events =
        (match alookup eid s.events with
         | none => none
         | some E => if E.startTime < now - 43200 then none else some E)) ∧
    (∀ b ∈ (updateEventsWithConfigC s now evs mins cfg).1.alertsByTime,
      ¬(b.1 < roundToMinute (now - 43200))) := by
  set ct := now - 43200 with hct
  set r := evs.foldl (reconcileStep now ct mins cfg) (s, [], true) with hr
  set stale := r.1.events.filter (fun p =>
    !r.2.1.contains p.1 && decide (p.2.startTime < now) &&
      decide (p.2.startTime < ct)) with hstale
  set s3 := stale.foldl (fun acc p => removeEvent acc p.1) r.1 with hs3
  have hu : updateEventsWithConfigC s now evs mins cfg =
      (cleanupOldAlerts s3 ct, r.2.2) := rfl
  have hokr : r.2.2 = true := by
    rw [hu] at hok
    exact hok
  obtain ⟨m1, m2, m3⟩ := reconcileFold_spec now ct mins cfg evs (s, [], true)
    hinv (by intro id h; cases h) hokr
  rw [← hr] at m1 m2 m3
  have hndst : (keysOf stale).Nodup :=
    ((List.filter_sublist _).map Prod.fst).nodup m1.evNodup
  obtain ⟨t1, t2, t3, t4, t5, t6, t7⟩ := removeEventsFold_spec stale r.1 m1
  rw [← hs3] at t1 t2 t3 t4 t5 t6 t7
  have hnotseen : ∀ q : String × Event, q ∈ r.1.events →
      q.2.startTime < ct → q.1 ∉ r.2.1 → q ∈ stale := by
    intro q hq hlt' hns
    refine List.mem_filter.2 ⟨hq, ?_⟩
    have hc : r.2.1.contains q.1 = false := by
      rw [← Bool.not_eq_true]
      intro hcc
      exact hns (by simpa using hcc)
    have hln : q.2.startTime < now := by omega
    show (!r.2.1.contains q.1 && decide (q.2.startTime < now) &&
      decide (q.2.startTime < ct)) = true
    rw [hc]
    simp [hlt', hln]
  have hseen_lookup : ∀ (k : String), k ∈ r.2.1 →
      ∀ E, alookup k r.1.events = some E → ¬(E.startTime < ct) := by
    intro k hk E hE
    obtain ⟨E', hE1, hE2⟩ := m2 k hk
    rw [hE] at hE1
    cases Option.some.inj hE1
    exact hE2
  have hev3 : ∀ q ∈ s3.events, ¬(q.2.startTime < ct) := by
    intro q hq hlt'
    have hql : alookup q.1 s3.events = some q.2 :=
      alookup_of_mem t1.evNodup hq
    rw [t4 q.1] at hql
    by_cases hk : q.1 ∈ keysOf stale
    · rw [if_pos hk] at hql
      cases hql
    · rw [if_neg hk] at hql
      have hqm : (q.1, q.2) ∈ r.1.events := alookup_mem hql
      have hns : q.1 ∉ r.2.1 := by
        intro hmem
        exact hseen_lookup q.1 hmem q.2 hql hlt'
      refine hk (mem_keysOf.2 ⟨q.2, ?_⟩)
      exact hnotseen (q.1, q.2) hqm hlt' hns
  obtain ⟨c1, c2, c3, c4, c5, c6, c7⟩ := cleanupOldAlerts_spec t1 ct hev3
  have hu1 : (updateEventsWithConfigC s now evs mins cfg).1 =
      cleanupOldAlerts s3 ct := by
    rw [hu]
  refine ⟨?_, ?_, ?_, ?_, ?_, ?_⟩
  · rw [hu1]
    exact c1
  · intro q hq
    rw [hu1, c2] at hq
    exact hev3 q hq
  · intro k hk
    rw [hu1, c6 k, if_pos hk]
  · intro p hp
    rw [hu1] at hp ⊢
    obtain ⟨hp3, hple⟩ := (c5 p).1 hp
    have hg : heapGet (cleanupOldAlerts s3 ct) p.2 = heapGet s3 p.2 :=
      heapGet_congr c3 p.2
    rw [hg]
    exact hple
  · intro eid hh
    have hbase : alookup eid (s, ([] : List String), true).1.events =
        alookup eid s.events := rfl
    obtain ⟨b1, b2⟩ := m3 eid hh
    rw [hbase] at b1
    have hnseen : eid ∉ r.2.1 := by
      intro hm
      cases b2 hm
    rw [hu1, c2, t4 eid]
    rcases hs0 : alookup eid s.events with _ | E
    · rw [hs0] at b1
      have hnk : eid ∉ keysOf stale := by
        intro hk
        rcases mem_keysOf.1 hk with ⟨v, hv⟩
        have : (eid, v) ∈ r.1.events := List.mem_of_mem_filter hv
        have := alookup_of_mem m1.evNodup this
        rw [b1] at this
        cases this
      rw [if_neg hnk, b1]
    · rw [hs0] at b1
      by_cases hE : E.startTime < ct
      · have hmem : (eid, E) ∈ stale :=
          hnotseen (eid, E) (alookup_mem b1) hE hnseen
        rw [if_pos (mem_keysOf.2 ⟨E, hmem⟩)]
        show (none : Option Event) = if E.startTime < ct then none else some E
        rw [if_pos hE]
      · have hnk : eid ∉ keysOf stale := by
          intro hk
          rcases mem_keysOf.1 hk with ⟨v, hv⟩
          have hvm : (eid, v) ∈ r.1.events := List.mem_of_mem_filter hv
          have hlkv := alookup_of_mem m1.evNodup hvm
          rw [b1] at hlkv
          cases Option.some.inj hlkv
          have := List.of_mem_filter hv
          simp only [Bool.and_eq_true, decide_eq_true_eq] at this
          exact hE this.2
        rw [if_neg hnk, b1]
        show some E = if E.startTime < ct then none else some E
        rw [if_neg hE]
  · intro b hb
    rw [hu1] at hb
    exact c7 b hb

/-! ## Invariant preservation along operation sequences -/

theorem emptyStore_storeInv : StoreInv emptyStore := by
  constructor
  case idNodup => exact List.nodup_nil
  case refsNodup => exact List.nodup_nil
  case timeNodup => exact List.nodup_nil
  case heapNodup => exact List.nodup_nil
  case heapLt => intro q hq; cases hq
  case refMem => intro p hp; cases hp
  case keyCons => intro p hp; cases hp
  case totalOne => intro p hp; cases hp
  case homeOne => intro p hp; cases hp
  case bucketSub => intro k r hr; cases hr
  case evNodup => exact List.nodup_nil
  case orphan => intro p hp; cases hp

theorem applyOpC_inv {s : AlertStore} (hinv : StoreInv s) (op : StoreOp)
    (hok : (applyOpC s op).2 = true) : StoreInv (applyOpC s op).1 := by
  cases op with
  | reconcile now evs mins cfg =>
    exact (updateEventsWithConfigC_spec hinv now evs mins cfg hok).1
  | mark now eid off st su => exact markAlertStatusC_inv hinv now eid off st su hok
  | manual ev t => exact addManualAlertC_inv hinv ev t hok
  | removeEv eid => exact (removeEvent_spec hinv eid).1
  | quiet cfg => exact (updateMutedStatusForQuietTime_spec hinv cfg).1

theorem runOpsC_inv : ∀ (ops : List StoreOp) (s : AlertStore), StoreInv s →
    (runOpsC s ops).2 = true → StoreInv (runOpsC s ops).1 := by
  intro ops
  induction ops with
  | nil => exact fun s hinv _ => hinv
  | cons op rest ih =>
    intro s hinv hok
    have hdef : runOpsC s (op :: rest) =
        ((runOpsC (applyOpC s op).1 rest).1,
         (applyOpC s op).2 && (runOpsC (applyOpC s op).1 rest).2) := rfl
    rw [hdef] at hok ⊢
    simp only [Bool.and_eq_true] at hok
    exact ih (applyOpC s op).1 (applyOpC_inv hinv op hok.1) hok.2

/-! ## The due-now query -/

theorem dueFold_spec (s : AlertStore) (notify : Bool) :
    ∀ (l : List Nat) (acc : List ScheduledAlert),
    (l.foldl (fun result r =>
      let a := heapGet s r
      let skip :=
        if notify then false
        else
          match alookup a.eventID s.events with
          | some e => decide (e.status = "NEEDS-ACTION")
          | none => false
      if skip then result
      else if a.status = AlertStatus.Pending ∨ a.status = AlertStatus.Snoozed
      then result ++ [a] else result) acc) =
    acc ++ (l.filter (fun r =>
      (notify || !(match alookup (heapGet s r).eventID s.events with
        | some e => decide (e.status = "NEEDS-ACTION")
        | none => false)) &&
      (decide ((heapGet s r).status = AlertStatus.Pending) ||
       decide ((heapGet s r).status = AlertStatus.Snoozed)))).map (heapGet s) := by
  intro l
  induction l with
  | nil =>
    intro acc
    simp
  | cons r rest ih =>
    intro acc
    rw [List.foldl_cons, List.filter_cons]
    have hstep2 :
        (let a := heapGet s r
         let skip :=
           if notify then false
           else
             match alookup a.eventID s.events with
             | some e => decide (e.status = "NEEDS-ACTION")
             | none => false
         if skip then acc
         else if a.status = AlertStatus.Pending ∨
             a.status = AlertStatus.Snoozed
         then acc ++ [a] else acc) =
        (if ((notify || !(match alookup (heapGet s r).eventID s.events with
            | some e => decide (e.status = "NEEDS-ACTION")
            | none => false)) &&
          (decide ((heapGet s r).status = AlertStatus.Pending) ||
           decide ((heapGet s r).status = AlertStatus.Snoozed))) = true
         then acc ++ [heapGet s r] else acc) := by
      rcases hM : (match alookup (heapGet s r).eventID s.events with
        | some e => decide (e.status = "NEEDS-ACTION")
        | none => false) with _ | _ <;> cases notify <;>
        by_cases hps : (heapGet s r).status = AlertStatus.Pending ∨
          (heapGet s r).status = AlertStatus.Snoozed <;>
        simp [hM, hps]
    rw [hstep2]
    by_cases hp : ((notify ||
        !(match alookup (heapGet s r).eventID s.events with
          | some e => decide (e.status = "NEEDS-ACTION")
          | none => false)) &&
      (decide ((heapGet s r).status = AlertStatus.Pending) ||
       decide ((heapGet s r).status = AlertStatus.Snoozed))) = true
    · rw [if_pos hp, if_pos hp, ih (acc ++ [heapGet s r])]
      simp
    · rw [if_neg hp, if_neg hp, ih acc]

/-! ## Claim C8 -/

/-- C8: the due-now query reads exactly the single time bucket keyed by
`now` rounded down to the minute and returns, in bucket order, the alerts
of that bucket whose status is Pending or Snoozed, excluding any alert
whose owning event has status "NEEDS-ACTION" when `notifyUnaccepted` is
false; no alert of any other bucket is ever returned. -/
theorem getAlertsForCurrentMinute_dueNow (s : AlertStore) (now : Int)
    (notifyUnaccepted : Bool) :
    getAlertsForCurrentMinute s now notifyUnaccepted =
      ((bucketGet s (roundToMinute now)).filter (fun r =>
        (notifyUnaccepted ||
          !(match alookup (heapGet s r).eventID s.events with
            | some e => decide (e.status = "NEEDS-ACTION")
            | none => false)) &&
        (decide ((heapGet s r).status = AlertStatus.Pending) ||
         decide ((heapGet s r).status = AlertStatus.Snoozed)))).map
        (heapGet s) := by
  show (bucketGet s (roundToMinute now)).foldl
    (fun result r =>
      let a := heapGet s r
      let skip :=
        if notifyUnaccepted then false
        else
          match alookup a.eventID s.events with
          | some e => decide (e.status = "NEEDS-ACTION")
          | none => false
      if skip then result
      else if a.status = AlertStatus.Pending ∨ a.status = AlertStatus.Snoozed
      then result ++ [a] else result) [] = _
  rw [dueFold_spec s notifyUnaccepted (bucketGet s (roundToMinute now)) []]
  rw [List.nil_append]

/-! ## Claim C6 -/

/-- C6: the config-diff removal step of `updateAlertsForEvent` deletes, for
the event being synced, exactly its alerts with a negative offset whose
(positive) minute value is absent from the configured offset list — from
`alertsById` and from the time buckets alike — while every other alert
(same event at a still-configured offset, any positive-offset snoozed
alert, and alerts of other events) stays in both indices, with every alert
object untouched. -/
theorem updateAlertsPhase2_offset_removal (s : AlertStore)
    (hinv : Inv s = true) (eid : String) (mins : List Int) :
    (updateAlertsPhase2 s eid mins).events = s.events ∧
    (updateAlertsPhase2 s eid mins).heap = s.heap ∧
    (∀ p ∈ s.alertsById,
      (p ∈ (updateAlertsPhase2 s eid mins).alertsById ↔
        ¬((heapGet s p.2).eventID = eid ∧ (heapGet s p.2).alertOffset < 0 ∧
          -(heapGet s p.2).alertOffset ∉ mins))) ∧
    (∀ k x, x ∈ bucketGet (updateAlertsPhase2 s eid mins) k ↔
      (x ∈ bucketGet s k ∧ ¬∃ p ∈ s.alertsById, p.2 = x ∧
        (heapGet s p.2).eventID = eid ∧ (heapGet s p.2).alertOffset < 0 ∧
        -(heapGet s p.2).alertOffset ∉ mins)) := by
  have hsi : StoreInv s := inv_eq_true_iff.1 hinv
  obtain ⟨h1, h2, h3, h4, h5, h6, h7⟩ := updateAlertsPhase2_spec hsi eid mins
  have hvic_iff : ∀ p : String × Nat, phase2Victim s eid mins p = true ↔
      ((heapGet s p.2).eventID = eid ∧ (heapGet s p.2).alertOffset < 0 ∧
        -(heapGet s p.2).alertOffset ∉ mins) := by
    intro p
    simp [phase2Victim, and_assoc]
  refine ⟨h2, h3, ?_, ?_⟩
  · intro p hp
    constructor
    · intro hpu hbad
      have hvf := (h5 p hpu).2
      rw [(hvic_iff p).2 hbad] at hvf
      cases hvf
    · intro hnbad
      refine h6 p hp ?_
      rcases hvp : phase2Victim s eid mins p with _ | _
      · rfl
      · exact absurd ((hvic_iff p).1 hvp) hnbad
  · intro k x
    rw [h7 k x]
    have hmap : x ∈ (s.alertsById.filter
        (phase2Victim s eid mins)).map Prod.snd ↔
        ∃ p ∈ s.alertsById, p.2 = x ∧
          (heapGet s p.2).eventID = eid ∧ (heapGet s p.2).alertOffset < 0 ∧
          -(heapGet s p.2).alertOffset ∉ mins := by
      constructor
      · intro hx
        rcases List.mem_map.1 hx with ⟨p, hp, hpe⟩
        exact ⟨p, List.mem_of_mem_filter hp, hpe,
          (hvic_iff p).1 (List.of_mem_filter hp)⟩
      · rintro ⟨p, hp, hpe, hbad⟩
        exact List.mem_map.2 ⟨p, List.mem_filter.2 ⟨hp, (hvic_iff p).2 hbad⟩,
          hpe⟩
    rw [← hmap]

/-! ## Claim C9 -/

/-- C9: an alert created during reconciliation for an unseen event whose
computed fire time lies inside a configured quiet-time window is created
with status Muted instead of Pending (the window test wrapping past
midnight when a range's end precedes its start, as embedded in
`Config.isTimeInQuietTime`); and the bulk re-evaluation
`UpdateMutedStatusForQuietTime` rewrites every alert currently Pending or
Muted — leaving all other statuses untouched — by re-testing its fire time
against the new configuration, flipping Pending to Muted when the fire
time is now quiet and Muted back to Pending when it is not. -/
theorem quiet_time_muting (s s2 : AlertStore) (hinv : Inv s = true)
    (hinv2 : Inv s2 = true) (now : Int) (eid : String) (ev : Event)
    (m : Int) (c c2 : Config)
    (hlate : ¬(ev.startTime - 60 * m < now)) :
    heapGet (createAlertsForEventWithConfigC s now eid ev [m] (some c)).1
        s.fresh =
      ⟨eid,
       if c.isTimeInQuietTime (ev.startTime - 60 * m) then AlertStatus.Muted
       else AlertStatus.Pending,
       ev.startTime - 60 * m, -m⟩ ∧
    (∀ p ∈ s2.alertsById,
      heapGet (updateMutedStatusForQuietTime s2 c2) p.2 =
        (if (heapGet s2 p.2).status = AlertStatus.Pending ∧
            c2.isTimeInQuietTime (heapGet s2 p.2).alertTime then
          { heapGet s2 p.2 with status := AlertStatus.Muted }
        else if (heapGet s2 p.2).status = AlertStatus.Muted ∧
            ¬(c2.isTimeInQuietTime (heapGet s2 p.2).alertTime = true) then
          { heapGet s2 p.2 with status := AlertStatus.Pending }
        else heapGet s2 p.2)) := by
  have hsi : StoreInv s := inv_eq_true_iff.1 hinv
  have hsi2 : StoreInv s2 := inv_eq_true_iff.1 hinv2
  constructor
  · have hdef : (createAlertsForEventWithConfigC s now eid ev [m]
        (some c)).1 =
        (insertAlertC s (generateAlertID eid (-m))
          ⟨eid,
           if c.isTimeInQuietTime (ev.startTime - 60 * m) then
             AlertStatus.Muted
           else AlertStatus.Pending,
           ev.startTime - 60 * m, -m⟩).1 := by
      show (createStep now eid ev (some c) (s, true) m).1 = _
      simp only [createStep]
      rw [if_neg hlate]
    rw [hdef]
    exact insertAlertC_heapGet_fresh _ _ _ hsi
  · intro p hp
    have h := (updateMutedStatusForQuietTime_spec hsi2 c2).2.2.2.2.2 p hp
    rw [h]
    rcases hst : (heapGet s2 p.2).status <;>
      rcases hq : c2.isTimeInQuietTime (heapGet s2 p.2).alertTime with _ | _ <;>
      simp [quietStep, hst, hq]

/-! ## Claim C5 -/

/-- C5: snoozing an existing alert identified by (eventId, offset) with a
snooze-until time marks that alert Snoozed in place — its fire time, its
heap slot and every time bucket other than the snooze target are untouched
— and inserts exactly one new alert for the same event with status
Pending, fire time `snoozedUntil`, and offset `max 0` of the whole minutes
from `now` to `snoozedUntil`, appended to `alertsById` under its own fresh
composite key and to the time bucket of `snoozedUntil`; the store nets
exactly one additional live alert. -/
theorem markAlertStatus_snooze (s : AlertStore) (hinv : Inv s = true)
    (now : Int) (eid : String) (off : Int) (su : Int) (r : Nat)
    (hlk : alookup (generateAlertID eid off) s.alertsById = some r)
    (hok : (markAlertStatusC s now eid off AlertStatus.Snoozed
      (some su)).2 = true) :
    (markAlertStatusC s now eid off AlertStatus.Snoozed
        (some su)).1.alertsById =
      s.alertsById ++ [(generateAlertID eid (max 0 ((su - now) / 60)),
        s.fresh)] ∧
    heapGet (markAlertStatusC s now eid off AlertStatus.Snoozed
        (some su)).1 s.fresh =
      ⟨eid, AlertStatus.Pending, su, max 0 ((su - now) / 60)⟩ ∧
    heapGet (markAlertStatusC s now eid off AlertStatus.Snoozed
        (some su)).1 r =
      { heapGet s r with status := AlertStatus.Snoozed } ∧
    (∀ x, x ≠ r → x ≠ s.fresh →
      heapGet (markAlertStatusC s now eid off AlertStatus.Snoozed
        (some su)).1 x = heapGet s x) ∧
    (∀ k, bucketGet (markAlertStatusC s now eid off AlertStatus.Snoozed
        (some su)).1 k =
      if k = roundToMinute su then bucketGet s k ++ [s.fresh]
      else bucketGet s k) ∧
    0 ≤ max 0 ((su - now) / 60) ∧
    (markAlertStatusC s now eid off AlertStatus.Snoozed
        (some su)).1.alertsById.length = s.alertsById.length + 1 := by
  have hsi : StoreInv s := inv_eq_true_iff.1 hinv
  have hmax : (if (su - now) / 60 < 0 then 0 else (su - now) / 60) =
      max 0 ((su - now) / 60) := by
    rcases lt_or_le ((su - now) / 60) 0 with h | h
    · rw [if_pos h, max_eq_left (le_of_lt h)]
    · rw [if_neg (not_lt.2 h), max_eq_right h]
  have hrref : r ∈ refsOf s := mem_refsOf.2 ⟨_, alookup_mem hlk, rfl⟩
  obtain ⟨k1, k2, k3, k4, k5, k6, k7⟩ := @heapSet_skeleton_spec s hsi r
    hrref { heapGet s r with status := AlertStatus.Snoozed } rfl rfl rfl
  set s1 := heapSet s r { heapGet s r with status := AlertStatus.Snoozed }
    with hs1
  have hdef : markAlertStatusC s now eid off AlertStatus.Snoozed (some su) =
      ((insertAlertC s1
        (generateAlertID eid
          (if (su - now) / 60 < 0 then 0 else (su - now) / 60))
        ⟨(heapGet s r).eventID, AlertStatus.Pending, su,
         if (su - now) / 60 < 0 then 0 else (su - now) / 60⟩).1,
       (insertAlertC s1
        (generateAlertID eid
          (if (su - now) / 60 < 0 then 0 else (su - now) / 60))
        ⟨(heapGet s r).eventID, AlertStatus.Pending, su,
         if (su - now) / 60 < 0 then 0 else (su - now) / 60⟩).2 &&
       decide ((heapGet s r).eventID = eid)) := by
    simp only [markAlertStatusC]
    rw [hlk]
  rw [hdef] at hok
  simp only [Bool.and_eq_true, decide_eq_true_eq] at hok
  obtain ⟨hins, hfield⟩ := hok
  have hfresh : alookup (generateAlertID eid
      (if (su - now) / 60 < 0 then 0 else (su - now) / 60))
      s1.alertsById = none := (insertAlertC_snd _ _ _).1 hins
  have hfr1 : s1.fresh = s.fresh := k5
  have hbyid1 : s1.alertsById = s.alertsById := k3
  refine ⟨?_, ?_, ?_, ?_, ?_, le_max_left _ _, ?_⟩
  · rw [hdef]
    show (insertAlertC s1 _ _).1.alertsById = _
    rw [insertAlertC_byId_append _ _ _ hfresh, hbyid1, hfr1, hmax]
  · rw [hdef]
    show heapGet (insertAlertC s1 _ _).1 s.fresh = _
    rw [← hfr1]
    rw [insertAlertC_heapGet_fresh _ _ _ k1, hfield, hmax]
  · rw [hdef]
    show heapGet (insertAlertC s1 _ _).1 r = _
    have hrlt : r < s.fresh := by
      rcases mem_refsOf.1 hrref with ⟨q, hq, hqe⟩
      exact hqe ▸ hsi.refLt hq
    have hrne : r ≠ s1.fresh := by
      rw [hfr1]
      omega
    rw [insertAlertC_heapGet_ne _ _ _ hrne, k6]
  · intro x hxr hxf
    rw [hdef]
    show heapGet (insertAlertC s1 _ _).1 x = _
    have hxne : x ≠ s1.fresh := by
      rw [hfr1]
      exact hxf
    rw [insertAlertC_heapGet_ne _ _ _ hxne, k7 x hxr]
  · intro k
    rw [hdef]
    show bucketGet (insertAlertC s1 _ _).1 k = _
    rw [insertAlertC_bucketGet s1]
    have hbt1 : s1.alertsByTime = s.alertsByTime := k4
    have hbg1 : ∀ kk, bucketGet s1 kk = bucketGet s kk := by
      intro kk
      unfold bucketGet
      rw [hbt1]
    simp only [hbg1, hfr1]
  · rw [hdef]
    show (insertAlertC s1 _ _).1.alertsById.length = _
    rw [insertAlertC_byId_append _ _ _ hfresh, hbyid1, List.length_append]
    rfl

/-- Witness for C6 at a concrete store, event and offset list. -/
theorem updateAlertsPhase2_offset_removal_witness :
    Inv offsetStore = true ∧
    (updateAlertsPhase2 offsetStore "e" [5, 0]).events =
      offsetStore.events :=
  ⟨by decide,
   (updateAlertsPhase2_offset_removal offsetStore (by decide) "e" [5, 0]).1⟩

/-- Witness for C9 at a concrete event and overnight quiet range. -/
theorem quiet_time_muting_witness :
    Inv emptyStore = true ∧ Inv offsetStore = true ∧
    ¬(sampleEvent.startTime - 60 * 0 < 100000) ∧
    heapGet (createAlertsForEventWithConfigC emptyStore 100000 "e"
        sampleEvent [0] (some ⟨[⟨22, 0, 8, 0⟩]⟩)).1 emptyStore.fresh =
      ⟨"e",
       if Config.isTimeInQuietTime ⟨[⟨22, 0, 8, 0⟩]⟩
           (sampleEvent.startTime - 60 * 0) then AlertStatus.Muted
       else AlertStatus.Pending,
       sampleEvent.startTime - 60 * 0, -0⟩ :=
  ⟨by decide, by decide, by decide,
   (quiet_time_muting emptyStore offsetStore (by decide) (by decide) 100000
      "e" sampleEvent 0 ⟨[⟨22, 0, 8, 0⟩]⟩ ⟨[]⟩ (by decide)).1⟩

/-- Witness for C5: snoozing the offset-0 alert of `offsetStore` for 245
seconds. -/
theorem markAlertStatus_snooze_witness :
    Inv offsetStore = true ∧
    alookup (generateAlertID "e" 0) offsetStore.alertsById = some 2 ∧
    (markAlertStatusC offsetStore 100900 "e" 0 AlertStatus.Snoozed
      (some 101145)).2 = true ∧
    heapGet (markAlertStatusC offsetStore 100900 "e" 0 AlertStatus.Snoozed
        (some 101145)).1 offsetStore.fresh =
      ⟨"e", AlertStatus.Pending, 101145, max 0 ((101145 - 100900) / 60)⟩ :=
  ⟨by decide, by decide, by decide,
   (markAlertStatus_snooze offsetStore (by decide) 100900 "e" 0 101145 2
      (by decide) (by decide)).2.1⟩

/-! ## Claim C10 -/

/-- C10: `AddManualAlert` inserts unconditionally: it stores the event under
its id (overwriting any existing event with that id while leaving that
event's existing alerts in place), allocates exactly one zero-offset alert
with status `Pending` and the supplied fire time, writes it into
`alertsById` under the generated composite key, and appends it to the time
bucket of its fire time — with no "fire time already past" skip and no
quiet-time `Muted` check (the function consults neither `now` nor any
config), so a manual alert with a past fire time or one inside a quiet
window is still created with status `Pending`. -/
theorem addManualAlert_unconditional (s : AlertStore) (hinv : Inv s = true)
    (ev : Event) (t : Int) :
    (addManualAlert s ev t).events = ainsert ev.id ev s.events ∧
    (addManualAlert s ev t).alertsById =
      ainsert (generateAlertID ev.id 0) s.fresh s.alertsById ∧
    heapGet (addManualAlert s ev t) s.fresh =
      ⟨ev.id, AlertStatus.Pending, t, 0⟩ ∧
    (∀ x, x ≠ s.fresh → heapGet (addManualAlert s ev t) x = heapGet s x) ∧
    (∀ k, bucketGet (addManualAlert s ev t) k =
      if k = roundToMinute t then bucketGet s k ++ [s.fresh]
      else bucketGet s k) := by
  have hsi : StoreInv s := inv_eq_true_iff.1 hinv
  set s1 : AlertStore := { s with events := ainsert ev.id ev s.events }
    with hs1
  have hinv1 : StoreInv s1 := by
    refine events_set_inv hsi (keysOf_ainsert_nodup _ hsi.evNodup) ?_
    intro p hp
    exact mem_keysOf_ainsert _ _ (hsi.orphan p hp)
  have hdef : addManualAlert s ev t =
      (insertAlertC s1 (generateAlertID ev.id 0)
        ⟨ev.id, AlertStatus.Pending, t, 0⟩).1 := rfl
  have hfr1 : s1.fresh = s.fresh := rfl
  refine ⟨?_, ?_, ?_, ?_, ?_⟩
  · rw [hdef, insertAlertC_events]
  · rw [hdef, insertAlertC_byId]
  · rw [hdef]
    exact insertAlertC_heapGet_fresh _ _ _ hinv1
  · intro x hx
    rw [hdef, insertAlertC_heapGet_ne s1 _ _ hx]
    exact rfl
  · intro k
    rw [hdef, insertAlertC_bucketGet s1]
    exact rfl

/-- Witness for C10 at a concrete store and event. -/
theorem addManualAlert_unconditional_witness :
    Inv emptyStore = true ∧
    heapGet (addManualAlert emptyStore
        ⟨"e", "t", "d", 1000, 2000, "", "CONFIRMED", "src"⟩ 500)
      emptyStore.fresh =
      ⟨"e", AlertStatus.Pending, 500, 0⟩ :=
  ⟨by decide,
   (addManualAlert_unconditional emptyStore (by decide)
      ⟨"e", "t", "d", 1000, 2000, "", "CONFIRMED", "src"⟩ 500).2.2.1⟩

/-! ## Frame facts for the per-offset update loop (towards C4) -/

theorem phase1Step_frame (now : Int) (eid : String) (ev : Event)
    (acc : AlertStore × Bool) (mm : Int) {key : String} {r : Nat}
    (hinv : StoreInv acc.1)
    (hev : eid ∈ keysOf acc.1.events)
    (hne : generateAlertID eid (-mm) ≠ key)
    (hlk : alookup key acc.1.alertsById = some r) :
    StoreInv (phase1Step now eid ev acc mm).1 ∧
    (phase1Step now eid ev acc mm).1.events = acc.1.events ∧
    alookup key (phase1Step now eid ev acc mm).1.alertsById = some r ∧
    heapGet (phase1Step now eid ev acc mm).1 r = heapGet acc.1 r ∧
    (∀ k, r ∈ bucketGet (phase1Step now eid ev acc mm).1 k ↔
      r ∈ bucketGet acc.1 k) ∧
    acc.1.fresh ≤ (phase1Step now eid ev acc mm).1.fresh := by
  have hrlt : r < acc.1.fresh := hinv.refLt (alookup_mem hlk)
  rcases hlk' : alookup (generateAlertID eid (-mm)) acc.1.alertsById
    with _ | r'
  · by_cases ht : ev.startTime - 60 * mm < now
    · have hstep : phase1Step now eid ev acc mm = acc := by
        simp only [phase1Step]
        rw [hlk']
        simp [ht]
      rw [hstep]
      exact ⟨hinv, rfl, hlk, rfl, fun k => Iff.rfl, le_refl _⟩
    · have hstep : phase1Step now eid ev acc mm =
          ((insertAlertC acc.1 (generateAlertID eid (-mm))
            ⟨eid, AlertStatus.Pending, ev.startTime - 60 * mm, -mm⟩).1,
           acc.2 && (insertAlertC acc.1 (generateAlertID eid (-mm))
            ⟨eid, AlertStatus.Pending, ev.startTime - 60 * mm, -mm⟩).2) := by
        simp only [phase1Step]
        rw [hlk']
        simp [ht]
      rw [hstep]
      refine ⟨insertAlertC_inv _ _ _ hinv hlk' rfl hev,
        insertAlertC_events _ _ _, ?_, ?_, ?_, ?_⟩
      · show alookup key (ainsert (generateAlertID eid (-mm)) acc.1.fresh
          acc.1.alertsById) = some r
        rw [alookup_ainsert_ne _ _ (Ne.symm hne)]
        exact hlk
      · exact insertAlertC_heapGet_ne _ _ _ (by omega)
      · intro k
        rw [insertAlertC_bucketGet]
        by_cases hk : k = roundToMinute (ev.startTime - 60 * mm)
        · rw [if_pos hk]
          simp only [List.mem_append, List.mem_singleton]
          constructor
          · rintro (h | h)
            · exact h
            · omega
          · exact fun h => Or.inl h
        · rw [if_neg hk]
      · rw [insertAlertC_fresh]
        omega
  · -- relocation of a different alert
    have hstep : phase1Step now eid ev acc mm =
        (relocateAlert acc.1 (generateAlertID eid (-mm)) r'
          (ev.startTime - 60 * mm), acc.2) := by
      simp only [phase1Step]
      rw [hlk']
    have hrne : r' ≠ r := by
      intro he
      have := hinv.entry_eq_of_ref (alookup_mem hlk') (alookup_mem hlk) he
      exact hne (congrArg Prod.fst this)
    obtain ⟨g1, g2, g3, g4, g5, g6, g7⟩ :=
      relocateAlert_spec hinv hlk' (ev.startTime - 60 * mm)
    rw [hstep]
    refine ⟨g1, g2, ?_, g6 r (Ne.symm hrne), ?_, by rw [g3]⟩
    · rw [g4]
      exact hlk
    · intro k
      rw [g7 k]
      by_cases hk1 : k = roundToMinute (ev.startTime - 60 * mm)
      · rw [if_pos hk1]
        by_cases hk2 : roundToMinute (ev.startTime - 60 * mm) =
            roundToMinute (heapGet acc.1 r').alertTime
        · rw [if_pos hk2]
          simp only [List.mem_append, List.mem_singleton]
          rw [List.mem_erase_of_ne (Ne.symm hrne), hk1, hk2]
          constructor
          · rintro (h | h)
            · exact h
            · exact absurd h (Ne.symm hrne)
          · exact fun h => Or.inl h
        · rw [if_neg hk2]
          simp only [List.mem_append, List.mem_singleton]
          rw [hk1]
          constructor
          · rintro (h | h)
            · exact h
            · exact absurd h (Ne.symm hrne)
          · exact fun h => Or.inl h
      · rw [if_neg hk1]
        by_cases hk3 : k = roundToMinute (heapGet acc.1 r').alertTime
        · rw [if_pos hk3]
          rw [List.mem_erase_of_ne (Ne.symm hrne), hk3]
        · rw [if_neg hk3]

theorem phase1Fold_frame (now : Int) (eid : String) (ev : Event)
    {key : String} {r : Nat} :
    ∀ (l : List Int) (acc : AlertStore × Bool), StoreInv acc.1 →
    eid ∈ keysOf acc.1.events →
    (∀ mm ∈ l, generateAlertID eid (-mm) ≠ key) →
    alookup key acc.1.alertsById = some r →
    StoreInv (l.foldl (phase1Step now eid ev) acc).1 ∧
    (l.foldl (phase1Step now eid ev) acc).1.events = acc.1.events ∧
    alookup key (l.foldl (phase1Step now eid ev) acc).1.alertsById =
      some r ∧
    heapGet (l.foldl (phase1Step now eid ev) acc).1 r = heapGet acc.1 r ∧
    (∀ k, r ∈ bucketGet (l.foldl (phase1Step now eid ev) acc).1 k ↔
      r ∈ bucketGet acc.1 k) ∧
    acc.1.fresh ≤ (l.foldl (phase1Step now eid ev) acc).1.fresh := by
  intro l
  induction l with
  | nil =>
    intro acc hinv _ _ hlk
    exact ⟨hinv, rfl, hlk, rfl, fun k => Iff.rfl, le_refl _⟩
  | cons mm rest ih =>
    intro acc hinv hev hall hlk
    obtain ⟨f1, f2, f3, f4, f5, f6⟩ := phase1Step_frame now eid ev acc mm
      hinv hev (hall mm (List.mem_cons_self _ _)) hlk
    have hev' : eid ∈ keysOf (phase1Step now eid ev acc mm).1.events := by
      rw [f2]
      exact hev
    obtain ⟨i1, i2, i3, i4, i5, i6⟩ := ih (phase1Step now eid ev acc mm) f1
      hev' (fun mm' hm' => hall mm' (List.mem_cons_of_mem _ hm')) f3
    rw [List.foldl_cons]
    refine ⟨i1, by rw [i2, f2], i3, by rw [i4, f4], ?_, by omega⟩
    intro k
    rw [i5 k, f5 k]

/-! ## Towards reconciliation idempotence (C3) -/

theorem roundToMinute_mono {a b : Int} (h : a ≤ b) :
    roundToMinute a ≤ roundToMinute b := by
  unfold roundToMinute
  have := Int.ediv_le_ediv (by norm_num : (0 : Int) < 60) h
  omega

theorem mem_keysOf_of_ainsert {κ β : Type} [DecidableEq κ] {k' k : κ}
    {v : β} {l : List (κ × β)} (h : k' ∈ keysOf (ainsert k v l)) :
    k' = k ∨ k' ∈ keysOf l := by
  rcases mem_keysOf.1 h with ⟨w, hw⟩
  rcases mem_ainsert_weak hw with h1 | h1
  · exact Or.inl (congrArg Prod.fst h1)
  · exact Or.inr (mem_keysOf.2 ⟨w, h1⟩)

theorem bucket_mem_key {s : AlertStore} {k : Int} {x : Nat}
    (h : x ∈ bucketGet s k) : k ∈ keysOf s.alertsByTime := by
  rcases hbk : alookup k s.alertsByTime with _ | l
  · rw [bucketGet, hbk] at h
    cases h
  · exact alookup_isSome.1 (by rw [hbk]; rfl)

theorem removeAlertFromTimeIndex_keys_sub {s : AlertStore} {tk : Int}
    {kid : String} {k' : Int}
    (h : k' ∈ keysOf (removeAlertFromTimeIndex s tk kid).alertsByTime) :
    k' = tk ∨ k' ∈ keysOf s.alertsByTime := by
  unfold removeAlertFromTimeIndex at h
  by_cases hemp : (removeFirstByGenID s kid (bucketGet s tk)).isEmpty
  · rw [if_pos hemp] at h
    exact Or.inr ((keysOf_aerase_sublist tk s.alertsByTime).subset h)
  · rw [if_neg hemp] at h
    rcases mem_keysOf_of_ainsert h with h1 | h1
    · exact Or.inl h1
    · exact Or.inr h1

/-- The stale-event filter selects nothing when every stored event starts
at or after the cutoff. -/
theorem staleFilter_nil (seen : List String) (now ct : Int)
    {E : List (String × Event)}
    (h : ∀ q ∈ E, ¬(q.2.startTime < ct)) :
    E.filter (fun p => !seen.contains p.1 &&
      decide (p.2.startTime < now) && decide (p.2.startTime < ct)) = [] := by
  rw [List.filter_eq_nil]
  intro q hq
  simp [h q hq]

/-- Eviction is the identity on a store with no bucket below the cutoff
minute and no event before the cutoff. -/
theorem cleanupOldAlerts_id {T : AlertStore} (ct : Int)
    (hb : ∀ b ∈ T.alertsByTime, ¬(b.1 < roundToMinute ct))
    (he : ∀ q ∈ T.events, ¬(q.2.startTime < ct)) :
    cleanupOldAlerts T ct = T := by
  have h1 : T.alertsByTime.filter
      (fun p => decide (p.1 < roundToMinute ct)) = [] := by
    rw [List.filter_eq_nil]
    intro b hbm
    simp [hb b hbm]
  show { (T.alertsByTime.filter fun p =>
      decide (p.1 < roundToMinute ct)).foldl dropBucket T with
    events := ((T.alertsByTime.filter fun p =>
      decide (p.1 < roundToMinute ct)).foldl dropBucket T).events.filter
      (fun p => !decide (p.2.startTime < ct)) } = T
  rw [h1]
  have h2 : (([] : List (Int × List Nat)).foldl dropBucket T) = T := rfl
  rw [h2]
  have h3 : T.events.filter (fun p => !decide (p.2.startTime < ct)) =
      T.events := by
    refine List.filter_eq_self.2 ?_
    intro q hq
    simp [he q hq]
  rw [h3]

/-- The config-diff removal loop is the identity when no alert is a
victim. -/
theorem updateAlertsPhase2_id {T : AlertStore} {eid : String}
    {mins : List Int}
    (h : ∀ p ∈ T.alertsById, phase2Victim T eid mins p = false) :
    updateAlertsPhase2 T eid mins = T := by
  have h1 : T.alertsById.filter (phase2Victim T eid mins) = [] := by
    rw [List.filter_eq_nil]
    intro p hp
    rw [h p hp]
    exact fun hc => Bool.false_ne_true hc
  show (T.alertsById.filter (phase2Victim T eid mins)).foldl
    (fun acc p => removeAlertEntry acc p.1 p.2) T = T
  rw [h1]
  exact rfl

/-- Relocating an alert onto the fire time it already has changes neither
the events map, the heap, the by-id index, the allocation counter, nor
any bucket's membership; bucket keys stay within the existing key set. -/
theorem relocateAlert_same_time {T : AlertStore} (hT : StoreInv T)
    {key : String} {r : Nat} (hlk : alookup key T.alertsById = some r)
    {newt : Int} (hta : (heapGet T r).alertTime = newt) :
    (relocateAlert T key r newt).events = T.events ∧
    (relocateAlert T key r newt).heap = T.heap ∧
    (relocateAlert T key r newt).alertsById = T.alertsById ∧
    (relocateAlert T key r newt).fresh = T.fresh ∧
    (∀ k x, x ∈ bucketGet (relocateAlert T key r newt) k ↔
      x ∈ bucketGet T k) ∧
    (∀ b ∈ (relocateAlert T key r newt).alertsByTime,
      b.1 ∈ keysOf T.alertsByTime) ∧
    StoreInv (relocateAlert T key r newt) := by
  obtain ⟨q1, q2, q3, q4, q5, q6, q7⟩ := relocateAlert_spec hT hlk newt
  have hmem : (key, r) ∈ T.alertsById := alookup_mem hlk
  have hrh : r ∈ heapKeys T := hT.refMem (key, r) hmem
  have ha : alookup r T.heap = some (heapGet T r) := by
    rcases hh : alookup r T.heap with _ | a
    · exact absurd (alookup_isSome.2 hrh) (by rw [hh]; simp)
    · rw [heapGet, hh]
      rfl
  have haeq : ({ heapGet T r with alertTime := newt } : ScheduledAlert) =
      heapGet T r := by
    rw [← hta]
  have hhome : roundToMinute newt =
      roundToMinute (heapGet T r).alertTime := by
    rw [hta]
  have hrhome : r ∈ bucketGet T (roundToMinute (heapGet T r).alertTime) :=
    hT.mem_home hmem
  have hheap : (relocateAlert T key r newt).heap = T.heap := by
    show ainsert r { heapGet T r with alertTime := newt }
      (removeAlertFromTimeIndex T
        (roundToMinute (heapGet T r).alertTime) key).heap = T.heap
    rw [(removeAlertFromTimeIndex_spec hT hlk).2.1, haeq,
      ainsert_eq_self ha]
  refine ⟨q2, hheap, q4, q3, ?_, ?_, q1⟩
  · intro k x
    rw [q7 k]
    by_cases hk1 : k = roundToMinute newt
    · rw [if_pos hk1, if_pos hhome]
      subst hk1
      rw [hhome]
      by_cases hx : x = r
      · subst hx
        constructor
        · intro _
          exact hrhome
        · intro _
          exact List.mem_append_right _ (List.mem_singleton.2 rfl)
      · simp only [List.mem_append, List.mem_singleton]
        rw [List.mem_erase_of_ne hx]
        constructor
        · rintro (h | h)
          · exact h
          · exact absurd h hx
        · exact fun h => Or.inl h
    · rw [if_neg hk1]
      have hk2 : k ≠ roundToMinute (heapGet T r).alertTime := by
        rw [← hhome]
        exact hk1
      rw [if_neg hk2]
  · intro b hb
    have hbk : b.1 ∈ keysOf (relocateAlert T key r newt).alertsByTime :=
      mem_keysOf.2 ⟨b.2, hb⟩
    have hre : (relocateAlert T key r newt).alertsByTime =
        ainsert (roundToMinute newt)
          (bucketGet (removeAlertFromTimeIndex T
            (roundToMinute (heapGet T r).alertTime) key)
            (roundToMinute newt) ++ [r])
          (removeAlertFromTimeIndex T
            (roundToMinute (heapGet T r).alertTime) key).alertsByTime :=
      rfl
    rw [hre] at hbk
    have hhomekey : roundToMinute newt ∈ keysOf T.alertsByTime := by
      rw [hhome]
      exact bucket_mem_key hrhome
    rcases mem_keysOf_of_ainsert hbk with h1 | h1
    · rw [h1]
      exact hhomekey
    · rcases removeAlertFromTimeIndex_keys_sub h1 with h2 | h2
      · rw [h2, ← hhome]
        exact hhomekey
      · exact h2

theorem phase2Victim_congr {A B : AlertStore}
    (h : ∀ x, heapGet A x = heapGet B x) (eid : String) (mins : List Int)
    (p : String × Nat) :
    phase2Victim A eid mins p = phase2Victim B eid mins p := by
  unfold phase2Victim
  rw [h p.2]

theorem phase2Victim_eq (s : AlertStore) (eid : String) (mins : List Int)
    (p : String × Nat) :
    phase2Victim s eid mins p =
      (decide ((heapGet s p.2).eventID = eid) &&
        decide ((heapGet s p.2).alertOffset < 0) &&
        !(decide ((-(heapGet s p.2).alertOffset) ∈ mins))) := rfl

theorem phase2Victim_pair (s : AlertStore) (eid : String) (mins : List Int)
    (k : String) (r : Nat) :
    phase2Victim s eid mins (k, r) =
      (decide ((heapGet s r).eventID = eid) &&
        decide ((heapGet s r).alertOffset < 0) &&
        !(decide ((-(heapGet s r).alertOffset) ∈ mins))) := rfl

theorem insertAlert_key_facts {T : AlertStore} (hT : StoreInv T)
    {key : String} {a : ScheduledAlert}
    (hfresh : alookup key T.alertsById = none) :
    (∀ r', alookup key (insertAlertC T key a).1.alertsById = some r' →
      r' = T.fresh) ∧
    (key, T.fresh) ∈ (insertAlertC T key a).1.alertsById ∧
    heapGet (insertAlertC T key a).1 T.fresh = a ∧
    (∀ p ∈ (insertAlertC T key a).1.alertsById,
      p ∈ T.alertsById ∨ p = (key, T.fresh)) ∧
    (∀ p ∈ T.alertsById, heapGet (insertAlertC T key a).1 p.2 =
      heapGet T p.2) := by
  have happ := insertAlertC_byId_append T key a hfresh
  have hmemnew : (key, T.fresh) ∈ (insertAlertC T key a).1.alertsById := by
    rw [happ]
    exact List.mem_append_right _ (List.mem_singleton.2 rfl)
  refine ⟨?_, hmemnew, insertAlertC_heapGet_fresh T key a hT, ?_, ?_⟩
  · intro r' hr'
    have hm := alookup_mem hr'
    rw [happ] at hm
    rcases List.mem_append.1 hm with h1 | h1
    · exact absurd (mem_keysOf.2 ⟨r', h1⟩) (alookup_eq_none.1 hfresh)
    · exact congrArg Prod.snd (List.mem_singleton.1 h1)
  · intro p hp
    rw [happ] at hp
    rcases List.mem_append.1 hp with h1 | h1
    · exact Or.inl h1
    · exact Or.inr (List.mem_singleton.1 h1)
  · intro p hp
    refine insertAlertC_heapGet_ne T key a ?_
    have := hT.refLt hp
    omega


/-! ## Towards general reconciliation idempotence (C3) -/

theorem mergeEvent_self (e : Event) : mergeEvent e e = e := rfl

theorem mergeEvent_idem (ex e : Event) :
    mergeEvent (mergeEvent ex e) e = mergeEvent ex e := rfl

theorem alookup_append_left {κ β : Type} [DecidableEq κ] {k : κ} {v : β}
    {la lb : List (κ × β)} (h : alookup k la = some v) :
    alookup k (la ++ lb) = some v := by
  rw [alookup_append, h]

theorem reflectsEvent_congr {A B : AlertStore} (h1 : A.events = B.events)
    (h2 : A.heap = B.heap) (h3 : A.alertsById = B.alertsById)
    {now : Int} {e : Event} {mins : List Int}
    (h : reflectsEvent B now e mins) : reflectsEvent A now e mins := by
  obtain ⟨⟨E1, hE1, hfix⟩, hs, hn, hv⟩ := h
  refine ⟨⟨E1, by rw [h1]; exact hE1, hfix⟩, ?_, ?_, ?_⟩
  · intro m hm r hr
    rw [h3] at hr
    rw [heapGet_congr h2]
    exact hs m hm r hr
  · intro m hm hnone
    rw [h3] at hnone
    exact hn m hm hnone
  · intro p hp
    rw [h3] at hp
    rw [phase2Victim_congr (heapGet_congr h2) e.id mins p]
    exact hv p hp

theorem reconcileStep_seen (now ct : Int) (mins : List Int)
    (cfg : Option Config) (acc : AlertStore × List String × Bool)
    (e : Event) (he : ¬(e.startTime < ct)) :
    (reconcileStep now ct mins cfg acc e).2.1 = e.id :: acc.2.1 := by
  unfold reconcileStep
  rw [if_neg he]
  rcases alookup e.id acc.1.events with _ | ex
  · rfl
  · rfl

/-- Characterization of the per-offset update loop of `updateAlertsForEvent`
on an arbitrary store: entries only get appended, every entry is either
untouched or carries one of the event's generated keys with its recomputed
fire time, and afterwards each configured key either holds an alert at the
recomputed fire time or is absent with a fire time in the past. -/
theorem phase1Fold_char (now : Int) (eid : String) (ev : Event)
    (minsAll : List Int)
    (hminj : ∀ ma ∈ minsAll, ∀ mb ∈ minsAll,
      generateAlertID eid (-ma) = generateAlertID eid (-mb) → ma = mb) :
    ∀ (mins : List Int) (acc : AlertStore × Bool),
    (∀ m ∈ mins, m ∈ minsAll) →
    StoreInv acc.1 →
    eid ∈ keysOf acc.1.events →
    (∀ m ∈ minsAll, ∀ kk rr, (kk, rr) ∈ acc.1.alertsById →
      kk = generateAlertID eid (-m) →
      (heapGet acc.1 rr).eventID = eid ∧
        (heapGet acc.1 rr).alertOffset = -m) →
    StoreInv (mins.foldl (phase1Step now eid ev) acc).1 ∧
    (mins.foldl (phase1Step now eid ev) acc).1.events = acc.1.events ∧
    (∃ ext, (mins.foldl (phase1Step now eid ev) acc).1.alertsById =
      acc.1.alertsById ++ ext) ∧
    (∀ kk rr, (kk, rr) ∈ (mins.foldl (phase1Step now eid ev)
        acc).1.alertsById →
      ((kk, rr) ∈ acc.1.alertsById ∧
        heapGet (mins.foldl (phase1Step now eid ev) acc).1 rr =
          heapGet acc.1 rr) ∨
      (∃ m, m ∈ minsAll ∧ kk = generateAlertID eid (-m) ∧
        (heapGet (mins.foldl (phase1Step now eid ev) acc).1 rr).eventID =
          eid ∧
        (heapGet (mins.foldl (phase1Step now eid ev) acc).1
          rr).alertOffset = -m ∧
        (heapGet (mins.foldl (phase1Step now eid ev) acc).1
          rr).alertTime = ev.startTime - 60 * m)) ∧
    (∀ m ∈ mins,
      (∀ r, alookup (generateAlertID eid (-m))
          (mins.foldl (phase1Step now eid ev) acc).1.alertsById = some r →
        (heapGet (mins.foldl (phase1Step now eid ev) acc).1 r).alertTime =
          ev.startTime - 60 * m ∧
        (heapGet (mins.foldl (phase1Step now eid ev) acc).1 r).eventID =
          eid) ∧
      (alookup (generateAlertID eid (-m))
          (mins.foldl (phase1Step now eid ev) acc).1.alertsById = none →
        ev.startTime - 60 * m < now)) := by
  intro mins
  induction mins with
  | nil =>
    intro acc _ hinv _ _
    exact ⟨hinv, rfl, ⟨[], (List.append_nil _).symm⟩,
      fun kk rr hp => Or.inl ⟨hp, rfl⟩,
      fun m hm => absurd hm (List.not_mem_nil m)⟩
  | cons m rest ih =>
    intro acc hsub hinv hev hown
    have hmA : m ∈ minsAll := hsub m (List.mem_cons_self _ _)
    have hsub2 : ∀ m2 ∈ rest, m2 ∈ minsAll :=
      fun m2 hm2 => hsub m2 (List.mem_cons_of_mem _ hm2)
    rcases hlk : alookup (generateAlertID eid (-m)) acc.1.alertsById
      with _ | r
    · by_cases ht : ev.startTime - 60 * m < now
      · -- fire time already past: the step skips
        have hstep : phase1Step now eid ev acc m = acc := by
          simp only [phase1Step]
          rw [hlk]
          simp [ht]
        have hfold : (m :: rest).foldl (phase1Step now eid ev) acc =
            rest.foldl (phase1Step now eid ev) acc := by
          rw [List.foldl_cons, hstep]
        rw [hfold]
        obtain ⟨g1, g2, g3, g4, g5⟩ := ih acc hsub2 hinv hev hown
        refine ⟨g1, g2, g3, g4, ?_⟩
        intro m2 hm2
        rcases List.mem_cons.1 hm2 with hm3 | hm3
        · subst hm3
          constructor
          · intro r2 hr2
            rcases g4 _ _ (alookup_mem hr2) with ⟨hpa, _⟩ |
              ⟨m0, hm0, hk0, hid0, _, hti0⟩
            · have hc : alookup (generateAlertID eid (-m2))
                  acc.1.alertsById = some r2 := hinv.lookupId hpa
              rw [hlk] at hc
              cases hc
            · have hm4 : m0 = m2 := hminj m0 hm0 m2 hmA hk0.symm
              subst hm4
              exact ⟨hti0, hid0⟩
          · intro _
            exact ht
        · exact g5 m2 hm3
      · -- a fresh alert is inserted at the generated key
        have hstep : phase1Step now eid ev acc m =
            ((insertAlertC acc.1 (generateAlertID eid (-m))
              ⟨eid, AlertStatus.Pending, ev.startTime - 60 * m, -m⟩).1,
             acc.2 && (insertAlertC acc.1 (generateAlertID eid (-m))
              ⟨eid, AlertStatus.Pending, ev.startTime - 60 * m, -m⟩).2)
            := by
          simp only [phase1Step]
          rw [hlk]
          simp [ht]
        obtain ⟨k1, k2, k3, k4, k5⟩ := @insertAlert_key_facts acc.1 hinv
          (generateAlertID eid (-m))
          ⟨eid, AlertStatus.Pending, ev.startTime - 60 * m, -m⟩ hlk
        have hBinv : StoreInv (insertAlertC acc.1
            (generateAlertID eid (-m))
            ⟨eid, AlertStatus.Pending, ev.startTime - 60 * m, -m⟩).1 :=
          insertAlertC_inv _ _ _ hinv hlk rfl hev
        have hBbyId : (insertAlertC acc.1 (generateAlertID eid (-m))
            ⟨eid, AlertStatus.Pending, ev.startTime - 60 * m, -m⟩
            ).1.alertsById =
            acc.1.alertsById ++ [(generateAlertID eid (-m), acc.1.fresh)] :=
          insertAlertC_byId_append _ _ _ hlk
        have hBev : (insertAlertC acc.1 (generateAlertID eid (-m))
            ⟨eid, AlertStatus.Pending, ev.startTime - 60 * m, -m⟩
            ).1.events = acc.1.events := insertAlertC_events _ _ _
        have hBown : ∀ m2 ∈ minsAll, ∀ kk rr,
            (kk, rr) ∈ (insertAlertC acc.1 (generateAlertID eid (-m))
              ⟨eid, AlertStatus.Pending, ev.startTime - 60 * m, -m⟩
              ).1.alertsById →
            kk = generateAlertID eid (-m2) →
            (heapGet (insertAlertC acc.1 (generateAlertID eid (-m))
              ⟨eid, AlertStatus.Pending, ev.startTime - 60 * m, -m⟩).1
              rr).eventID = eid ∧
            (heapGet (insertAlertC acc.1 (generateAlertID eid (-m))
              ⟨eid, AlertStatus.Pending, ev.startTime - 60 * m, -m⟩).1
              rr).alertOffset = -m2 := by
          intro m2 hm2 kk rr hp hpk
          rcases k4 (kk, rr) hp with h1 | h1
          · have h5 : heapGet (insertAlertC acc.1
                (generateAlertID eid (-m))
                ⟨eid, AlertStatus.Pending, ev.startTime - 60 * m, -m⟩).1
                rr = heapGet acc.1 rr := k5 (kk, rr) h1
            rw [h5]
            exact hown m2 hm2 kk rr h1 hpk
          · obtain ⟨h1a, h1b⟩ := Prod.mk.inj h1
            subst h1b
            have hm4 : m = m2 := by
              refine hminj m hmA m2 hm2 ?_
              rw [← hpk, h1a]
            subst hm4
            rw [k3]
            exact ⟨rfl, rfl⟩
        have hfold : (m :: rest).foldl (phase1Step now eid ev) acc =
            rest.foldl (phase1Step now eid ev)
              ((insertAlertC acc.1 (generateAlertID eid (-m))
                ⟨eid, AlertStatus.Pending, ev.startTime - 60 * m, -m⟩).1,
               acc.2 && (insertAlertC acc.1 (generateAlertID eid (-m))
                ⟨eid, AlertStatus.Pending, ev.startTime - 60 * m,
                  -m⟩).2) := by
          rw [List.foldl_cons, hstep]
        rw [hfold]
        obtain ⟨g1, g2, g3, g4, g5⟩ := ih
          ((insertAlertC acc.1 (generateAlertID eid (-m))
            ⟨eid, AlertStatus.Pending, ev.startTime - 60 * m, -m⟩).1,
           acc.2 && (insertAlertC acc.1 (generateAlertID eid (-m))
            ⟨eid, AlertStatus.Pending, ev.startTime - 60 * m, -m⟩).2)
          hsub2 hBinv (by rw [hBev]; exact hev) hBown
        obtain ⟨ext, hext⟩ := g3
        have hBlk : alookup (generateAlertID eid (-m))
            (insertAlertC acc.1 (generateAlertID eid (-m))
              ⟨eid, AlertStatus.Pending, ev.startTime - 60 * m, -m⟩
              ).1.alertsById = some acc.1.fresh := hBinv.lookupId k2
        refine ⟨g1, by rw [g2]; exact hBev, ?_, ?_, ?_⟩
        · refine ⟨[(generateAlertID eid (-m), acc.1.fresh)] ++ ext, ?_⟩
          rw [hext, hBbyId, List.append_assoc]
        · intro kk rr hp
          rcases g4 kk rr hp with ⟨hpB, hpe⟩ |
            ⟨m0, hm0, hk0, hf1, hf2, hf3⟩
          · rcases k4 (kk, rr) hpB with h1 | h1
            · refine Or.inl ⟨h1, ?_⟩
              rw [hpe]
              exact k5 (kk, rr) h1
            · obtain ⟨h1a, h1b⟩ := Prod.mk.inj h1
              subst h1b
              refine Or.inr ⟨m, hmA, h1a, ?_, ?_, ?_⟩ <;> rw [hpe, k3]
          · exact Or.inr ⟨m0, hm0, hk0, hf1, hf2, hf3⟩
        · intro m2 hm2
          rcases List.mem_cons.1 hm2 with hm3 | hm3
          · subst hm3
            have hsome : alookup (generateAlertID eid (-m2))
                (rest.foldl (phase1Step now eid ev)
                  ((insertAlertC acc.1 (generateAlertID eid (-m2))
                    ⟨eid, AlertStatus.Pending, ev.startTime - 60 * m2,
                      -m2⟩).1,
                   acc.2 && (insertAlertC acc.1
                    (generateAlertID eid (-m2))
                    ⟨eid, AlertStatus.Pending, ev.startTime - 60 * m2,
                      -m2⟩).2)).1.alertsById = some acc.1.fresh := by
              rw [hext]
              exact alookup_append_left hBlk
            constructor
            · intro r2 hr2
              rw [hsome] at hr2
              cases Option.some.inj hr2
              rcases g4 _ _ (alookup_mem hsome) with ⟨_, hpe⟩ |
                ⟨m0, hm0, hk0, hf1, hf2, hf3⟩
              · rw [hpe, k3]
                exact ⟨rfl, rfl⟩
              · have hm4 : m0 = m2 := hminj m0 hm0 m2 hmA hk0.symm
                subst hm4
                exact ⟨hf3, hf1⟩
            · intro hnone
              rw [hsome] at hnone
              cases hnone
          · exact g5 m2 hm3
    · -- an existing alert is relocated to the recomputed fire time
      have hm0 : (generateAlertID eid (-m), r) ∈ acc.1.alertsById :=
        alookup_mem hlk
      obtain ⟨hfld, hoffr⟩ := hown m hmA _ _ hm0 rfl
      have hstep : phase1Step now eid ev acc m =
          (relocateAlert acc.1 (generateAlertID eid (-m)) r
            (ev.startTime - 60 * m), acc.2) := by
        simp only [phase1Step]
        rw [hlk]
      obtain ⟨q1, q2, q3, q4, q5, q6, q7⟩ := relocateAlert_spec hinv hlk
        (ev.startTime - 60 * m)
      have hBown : ∀ m2 ∈ minsAll, ∀ kk rr,
          (kk, rr) ∈ (relocateAlert acc.1 (generateAlertID eid (-m)) r
            (ev.startTime - 60 * m)).alertsById →
          kk = generateAlertID eid (-m2) →
          (heapGet (relocateAlert acc.1 (generateAlertID eid (-m)) r
            (ev.startTime - 60 * m)) rr).eventID = eid ∧
          (heapGet (relocateAlert acc.1 (generateAlertID eid (-m)) r
            (ev.startTime - 60 * m)) rr).alertOffset = -m2 := by
        intro m2 hm2 kk rr hp hpk
        rw [q4] at hp
        by_cases hpr : rr = r
        · have hpq : (kk, rr) = (generateAlertID eid (-m), r) :=
            hinv.entry_eq_of_ref hp hm0 hpr
          obtain ⟨hpq1, _⟩ := Prod.mk.inj hpq
          have hm4 : m = m2 := by
            refine hminj m hmA m2 hm2 ?_
            rw [← hpk, hpq1]
          subst hm4
          rw [hpr, q5]
          exact ⟨hfld, hoffr⟩
        · rw [q6 rr hpr]
          exact hown m2 hm2 kk rr hp hpk
      have hfold : (m :: rest).foldl (phase1Step now eid ev) acc =
          rest.foldl (phase1Step now eid ev)
            (relocateAlert acc.1 (generateAlertID eid (-m)) r
              (ev.startTime - 60 * m), acc.2) := by
        rw [List.foldl_cons, hstep]
      rw [hfold]
      obtain ⟨g1, g2, g3, g4, g5⟩ := ih
        (relocateAlert acc.1 (generateAlertID eid (-m)) r
          (ev.startTime - 60 * m), acc.2) hsub2 q1
        (by rw [q2]; exact hev) hBown
      obtain ⟨ext, hext⟩ := g3
      have hBlk : alookup (generateAlertID eid (-m))
          (relocateAlert acc.1 (generateAlertID eid (-m)) r
            (ev.startTime - 60 * m)).alertsById = some r := by
        rw [q4]
        exact hlk
      refine ⟨g1, by rw [g2]; exact q2, ?_, ?_, ?_⟩
      · refine ⟨ext, ?_⟩
        rw [hext, q4]
      · intro kk rr hp
        rcases g4 kk rr hp with ⟨hpB, hpe⟩ |
          ⟨m0, hm0s, hk0, hf1, hf2, hf3⟩
        · rw [q4] at hpB
          by_cases hpr : rr = r
          · have hpq : (kk, rr) = (generateAlertID eid (-m), r) :=
              hinv.entry_eq_of_ref hpB hm0 hpr
            obtain ⟨hpq1, _⟩ := Prod.mk.inj hpq
            subst hpr
            refine Or.inr ⟨m, hmA, hpq1, ?_, ?_, ?_⟩ <;> rw [hpe, q5]
            · exact hfld
            · exact hoffr
          · refine Or.inl ⟨hpB, ?_⟩
            rw [hpe, q6 rr hpr]
        · exact Or.inr ⟨m0, hm0s, hk0, hf1, hf2, hf3⟩
      · intro m2 hm2
        rcases List.mem_cons.1 hm2 with hm3 | hm3
        · subst hm3
          have hsome : alookup (generateAlertID eid (-m2))
              (rest.foldl (phase1Step now eid ev)
                (relocateAlert acc.1 (generateAlertID eid (-m2)) r
                  (ev.startTime - 60 * m2), acc.2)).1.alertsById =
              some r := by
            rw [hext]
            exact alookup_append_left hBlk
          constructor
          · intro r2 hr2
            rw [hsome] at hr2
            cases Option.some.inj hr2
            rcases g4 _ _ (alookup_mem hsome) with ⟨_, hpe⟩ |
              ⟨m0, hm0s, hk0, hf1, hf2, hf3⟩
            · rw [hpe, q5]
              exact ⟨rfl, hfld⟩
            · have hm4 : m0 = m2 := hminj m0 hm0s m2 hmA hk0.symm
              subst hm4
              exact ⟨hf3, hf1⟩
          · intro hnone
            rw [hsome] at hnone
            cases hnone
        · exact g5 m2 hm3
/-- Characterization of the alert-creation loop of
`createAlertsForEventWithConfig` on a store with no pre-existing alert at
any of the event's generated keys, under the no-overwrite check. -/
theorem createFold_char (now : Int) (eid : String) (ev : Event)
    (cfg : Option Config) (minsAll : List Int)
    (hminj : ∀ ma ∈ minsAll, ∀ mb ∈ minsAll,
      generateAlertID eid (-ma) = generateAlertID eid (-mb) → ma = mb) :
    ∀ (mins : List Int) (acc : AlertStore × Bool),
    (∀ m ∈ mins, m ∈ minsAll) →
    StoreInv acc.1 →
    eid ∈ keysOf acc.1.events →
    (∀ m ∈ minsAll, ev.startTime - 60 * m < now →
      alookup (generateAlertID eid (-m)) acc.1.alertsById = none) →
    (mins.foldl (createStep now eid ev cfg) acc).2 = true →
    StoreInv (mins.foldl (createStep now eid ev cfg) acc).1 ∧
    (mins.foldl (createStep now eid ev cfg) acc).1.events =
      acc.1.events ∧
    (∃ ext, (mins.foldl (createStep now eid ev cfg) acc).1.alertsById =
      acc.1.alertsById ++ ext) ∧
    (∀ kk rr, (kk, rr) ∈ (mins.foldl (createStep now eid ev cfg)
        acc).1.alertsById →
      ((kk, rr) ∈ acc.1.alertsById ∧
        heapGet (mins.foldl (createStep now eid ev cfg) acc).1 rr =
          heapGet acc.1 rr) ∨
      (∃ m, m ∈ minsAll ∧ kk = generateAlertID eid (-m) ∧
        (heapGet (mins.foldl (createStep now eid ev cfg) acc).1
          rr).eventID = eid ∧
        (heapGet (mins.foldl (createStep now eid ev cfg) acc).1
          rr).alertOffset = -m ∧
        (heapGet (mins.foldl (createStep now eid ev cfg) acc).1
          rr).alertTime = ev.startTime - 60 * m)) ∧
    (∀ m ∈ mins,
      (∀ r, alookup (generateAlertID eid (-m))
          (mins.foldl (createStep now eid ev cfg) acc).1.alertsById =
          some r →
        (heapGet (mins.foldl (createStep now eid ev cfg) acc).1
          r).alertTime = ev.startTime - 60 * m ∧
        (heapGet (mins.foldl (createStep now eid ev cfg) acc).1
          r).eventID = eid) ∧
      (alookup (generateAlertID eid (-m))
          (mins.foldl (createStep now eid ev cfg) acc).1.alertsById =
          none → ev.startTime - 60 * m < now)) := by
  intro mins
  induction mins with
  | nil =>
    intro acc _ hinv _ _ _
    exact ⟨hinv, rfl, ⟨[], (List.append_nil _).symm⟩,
      fun kk rr hp => Or.inl ⟨hp, rfl⟩,
      fun m hm => absurd hm (List.not_mem_nil m)⟩
  | cons m rest ih =>
    intro acc hsub hinv hev hpast hok
    have hmA : m ∈ minsAll := hsub m (List.mem_cons_self _ _)
    have hsub2 : ∀ m2 ∈ rest, m2 ∈ minsAll :=
      fun m2 hm2 => hsub m2 (List.mem_cons_of_mem _ hm2)
    rw [List.foldl_cons] at hok
    by_cases ht : ev.startTime - 60 * m < now
    · -- fire time already past: the step skips
      have hstep : createStep now eid ev cfg acc m = acc := by
        unfold createStep
        simp [ht]
      have hfold : (m :: rest).foldl (createStep now eid ev cfg) acc =
          rest.foldl (createStep now eid ev cfg) acc := by
        rw [List.foldl_cons, hstep]
      rw [hstep] at hok
      rw [hfold]
      obtain ⟨g1, g2, g3, g4, g5⟩ := ih acc hsub2 hinv hev hpast hok
      refine ⟨g1, g2, g3, g4, ?_⟩
      intro m2 hm2
      rcases List.mem_cons.1 hm2 with hm3 | hm3
      · subst hm3
        constructor
        · intro r2 hr2
          rcases g4 _ _ (alookup_mem hr2) with ⟨hpa, _⟩ |
            ⟨m0, hm0, hk0, hid0, _, hti0⟩
          · have hc : alookup (generateAlertID eid (-m2))
                acc.1.alertsById = some r2 := hinv.lookupId hpa
            rw [hpast m2 hmA ht] at hc
            cases hc
          · have hm4 : m0 = m2 := hminj m0 hm0 m2 hmA hk0.symm
            subst hm4
            exact ⟨hti0, hid0⟩
        · intro _
          exact ht
      · exact g5 m2 hm3
    · -- the alert is created at the generated key
      set st := match cfg with
        | some c => if c.isTimeInQuietTime (ev.startTime - 60 * m) then
            AlertStatus.Muted else AlertStatus.Pending
        | none => AlertStatus.Pending with hst
      have hstep : createStep now eid ev cfg acc m =
          ((insertAlertC acc.1 (generateAlertID eid (-m))
            ⟨eid, st, ev.startTime - 60 * m, -m⟩).1,
           acc.2 && (insertAlertC acc.1 (generateAlertID eid (-m))
            ⟨eid, st, ev.startTime - 60 * m, -m⟩).2) := by
        unfold createStep
        simp only [ht, if_neg, hst]
        rfl
      rw [hstep] at hok
      have hok2 : (acc.2 && (insertAlertC acc.1
          (generateAlertID eid (-m))
          ⟨eid, st, ev.startTime - 60 * m, -m⟩).2) = true := by
        by_contra hc
        rw [Bool.not_eq_true] at hc
        rw [createFold_false now eid ev cfg rest _ hc] at hok
        cases hok
      rw [Bool.and_eq_true] at hok2
      have hfresh : alookup (generateAlertID eid (-m))
          acc.1.alertsById = none :=
        (insertAlertC_snd _ _ _).1 hok2.2
      obtain ⟨k1, k2, k3, k4, k5⟩ := @insertAlert_key_facts acc.1 hinv
        (generateAlertID eid (-m))
        ⟨eid, st, ev.startTime - 60 * m, -m⟩ hfresh
      have hBinv : StoreInv (insertAlertC acc.1
          (generateAlertID eid (-m))
          ⟨eid, st, ev.startTime - 60 * m, -m⟩).1 :=
        insertAlertC_inv _ _ _ hinv hfresh rfl hev
      have hBbyId : (insertAlertC acc.1 (generateAlertID eid (-m))
          ⟨eid, st, ev.startTime - 60 * m, -m⟩).1.alertsById =
          acc.1.alertsById ++ [(generateAlertID eid (-m), acc.1.fresh)] :=
        insertAlertC_byId_append _ _ _ hfresh
      have hBev : (insertAlertC acc.1 (generateAlertID eid (-m))
          ⟨eid, st, ev.startTime - 60 * m, -m⟩).1.events =
          acc.1.events := insertAlertC_events _ _ _
      have hBpast : ∀ m2 ∈ minsAll, ev.startTime - 60 * m2 < now →
          alookup (generateAlertID eid (-m2))
            (insertAlertC acc.1 (generateAlertID eid (-m))
              ⟨eid, st, ev.startTime - 60 * m, -m⟩).1.alertsById =
            none := by
        intro m2 hm2 ht2
        rw [hBbyId, alookup_append, hpast m2 hm2 ht2]
        have hne : generateAlertID eid (-m2) ≠
            generateAlertID eid (-m) := by
          intro hc
          have := hminj m2 hm2 m hmA hc
          subst this
          exact ht ht2
        show alookup (generateAlertID eid (-m2))
          [(generateAlertID eid (-m), acc.1.fresh)] = none
        simp [alookup, Ne.symm hne]
      have hfold : (m :: rest).foldl (createStep now eid ev cfg) acc =
          rest.foldl (createStep now eid ev cfg)
            ((insertAlertC acc.1 (generateAlertID eid (-m))
              ⟨eid, st, ev.startTime - 60 * m, -m⟩).1,
             acc.2 && (insertAlertC acc.1 (generateAlertID eid (-m))
              ⟨eid, st, ev.startTime - 60 * m, -m⟩).2) := by
        rw [List.foldl_cons, hstep]
      rw [hfold]
      obtain ⟨g1, g2, g3, g4, g5⟩ := ih
        ((insertAlertC acc.1 (generateAlertID eid (-m))
          ⟨eid, st, ev.startTime - 60 * m, -m⟩).1,
         acc.2 && (insertAlertC acc.1 (generateAlertID eid (-m))
          ⟨eid, st, ev.startTime - 60 * m, -m⟩).2)
        hsub2 hBinv (by rw [hBev]; exact hev) hBpast hok
      obtain ⟨ext, hext⟩ := g3
      have hBlk : alookup (generateAlertID eid (-m))
          (insertAlertC acc.1 (generateAlertID eid (-m))
            ⟨eid, st, ev.startTime - 60 * m, -m⟩).1.alertsById =
          some acc.1.fresh := hBinv.lookupId k2
      refine ⟨g1, by rw [g2]; exact hBev, ?_, ?_, ?_⟩
      · refine ⟨[(generateAlertID eid (-m), acc.1.fresh)] ++ ext, ?_⟩
        rw [hext, hBbyId, List.append_assoc]
      · intro kk rr hp
        rcases g4 kk rr hp with ⟨hpB, hpe⟩ |
          ⟨m0, hm0, hk0, hf1, hf2, hf3⟩
        · rcases k4 (kk, rr) hpB with h1 | h1
          · refine Or.inl ⟨h1, ?_⟩
            rw [hpe]
            exact k5 (kk, rr) h1
          · obtain ⟨h1a, h1b⟩ := Prod.mk.inj h1
            subst h1b
            refine Or.inr ⟨m, hmA, h1a, ?_, ?_, ?_⟩ <;> rw [hpe, k3]
        · exact Or.inr ⟨m0, hm0, hk0, hf1, hf2, hf3⟩
      · intro m2 hm2
        rcases List.mem_cons.1 hm2 with hm3 | hm3
        · subst hm3
          have hsome : alookup (generateAlertID eid (-m2))
              (rest.foldl (createStep now eid ev cfg)
                ((insertAlertC acc.1 (generateAlertID eid (-m2))
                  ⟨eid, st, ev.startTime - 60 * m2, -m2⟩).1,
                 acc.2 && (insertAlertC acc.1
                  (generateAlertID eid (-m2))
                  ⟨eid, st, ev.startTime - 60 * m2,
                    -m2⟩).2)).1.alertsById = some acc.1.fresh := by
            rw [hext]
            exact alookup_append_left hBlk
          constructor
          · intro r2 hr2
            rw [hsome] at hr2
            cases Option.some.inj hr2
            rcases g4 _ _ (alookup_mem hsome) with ⟨_, hpe⟩ |
              ⟨m0, hm0, hk0, hf1, hf2, hf3⟩
            · rw [hpe, k3]
              exact ⟨rfl, rfl⟩
            · have hm4 : m0 = m2 := hminj m0 hm0 m2 hmA hk0.symm
              subst hm4
              exact ⟨hf3, hf1⟩
          · intro hnone
            rw [hsome] at hnone
            cases hnone
        · exact g5 m2 hm3
/-- Characterization of one reconciliation step for a non-skipped event on
an arbitrary store satisfying the invariant whose alerts at the event's
generated keys belong to the event: the event is written as a merge
fixpoint, alerts of other events are untouched, every touched or created
entry carries one of the event's generated keys with its recomputed fire
time, each configured key afterwards holds an alert at the recomputed fire
time or is absent with a past fire time, and no surviving alert is a
config-diff victim of the event. -/
theorem reconcileStep_char {A B : AlertStore} (hA : StoreInv A)
    (now : Int) (mins : List Int) (cfg : Option Config) (e : Event)
    (sb : List String × Bool)
    (hBdef : B = (reconcileStep now (now - 43200) mins cfg (A, sb) e).1)
    (he : ¬(e.startTime < now - 43200))
    (hminj : ∀ ma ∈ mins, ∀ mb ∈ mins,
      generateAlertID e.id (-ma) = generateAlertID e.id (-mb) → ma = mb)
    (hownA : ∀ m ∈ mins, ∀ kk rr, (kk, rr) ∈ A.alertsById →
      kk = generateAlertID e.id (-m) →
      (heapGet A rr).eventID = e.id ∧ (heapGet A rr).alertOffset = -m)
    (hok : (reconcileStep now (now - 43200) mins cfg (A, sb) e).2.2 =
      true) :
    StoreInv B ∧
    (∃ v, B.events = ainsert e.id v A.events ∧ mergeEvent v e = v) ∧
    (∀ kk rr, (kk, rr) ∈ B.alertsById →
      ((kk, rr) ∈ A.alertsById ∧ heapGet B rr = heapGet A rr) ∨
      ((heapGet B rr).eventID = e.id ∧ ∃ m, m ∈ mins ∧
        kk = generateAlertID e.id (-m) ∧
        (heapGet B rr).alertOffset = -m ∧
        (heapGet B rr).alertTime = e.startTime - 60 * m)) ∧
    (∀ kk rr, (kk, rr) ∈ A.alertsById →
      (heapGet A rr).eventID ≠ e.id →
      (kk, rr) ∈ B.alertsById ∧ heapGet B rr = heapGet A rr) ∧
    (∀ m ∈ mins,
      (∀ r, alookup (generateAlertID e.id (-m)) B.alertsById = some r →
        (heapGet B r).alertTime = e.startTime - 60 * m ∧
        (heapGet B r).eventID = e.id) ∧
      (alookup (generateAlertID e.id (-m)) B.alertsById = none →
        e.startTime - 60 * m < now)) ∧
    (∀ p ∈ B.alertsById, phase2Victim B e.id mins p = false) := by
  rcases hlkE : alookup e.id A.events with _ | ex
  · -- create path: the event was unknown
    have hstep : reconcileStep now (now - 43200) mins cfg (A, sb) e =
        ((createAlertsForEventWithConfigC
          { A with events := ainsert e.id e A.events } now e.id e mins
          cfg).1, e.id :: sb.1,
         sb.2 && (createAlertsForEventWithConfigC
          { A with events := ainsert e.id e A.events } now e.id e mins
          cfg).2) := by
      simp only [reconcileStep]
      rw [if_neg he, hlkE]
    have hA1 : StoreInv
        ({ A with events := ainsert e.id e A.events } : AlertStore) := by
      refine events_set_inv hA (keysOf_ainsert_nodup _ hA.evNodup) ?_
      intro p hp
      exact mem_keysOf_ainsert _ _ (hA.orphan p hp)
    have horph : ∀ kk rr, (kk, rr) ∈ A.alertsById →
        (heapGet A rr).eventID ≠ e.id := by
      intro kk rr hp heq
      have h1 : (heapGet A rr).eventID ∈ keysOf A.events :=
        hA.orphan (kk, rr) hp
      rw [heq] at h1
      exact (alookup_eq_none.1 hlkE) h1
    have hpastAll : ∀ m ∈ mins, alookup (generateAlertID e.id (-m))
        A.alertsById = none := by
      intro m hm
      rcases hl : alookup (generateAlertID e.id (-m)) A.alertsById
        with _ | r
      · rfl
      · have hmem := alookup_mem hl
        exact absurd (hownA m hm _ _ hmem rfl).1 (horph _ _ hmem)
    have hokC : (createAlertsForEventWithConfigC
        { A with events := ainsert e.id e A.events } now e.id e mins
        cfg).2 = true := by
      rw [hstep] at hok
      have hok2 : (sb.2 && (createAlertsForEventWithConfigC
          { A with events := ainsert e.id e A.events } now e.id e mins
          cfg).2) = true := hok
      rw [Bool.and_eq_true] at hok2
      exact hok2.2
    obtain ⟨g1, g2, g3, g4, g5⟩ := createFold_char now e.id e cfg mins
      hminj mins ({ A with events := ainsert e.id e A.events }, true)
      (fun m hm => hm) hA1 (mem_keysOf_ainsert_self _ _ _)
      (fun m hm _ => hpastAll m hm) hokC
    have hBC : B = (mins.foldl (createStep now e.id e cfg)
        ({ A with events := ainsert e.id e A.events }, true)).1 := by
      rw [hBdef, hstep]
      rfl
    obtain ⟨ext, hext⟩ := g3
    rw [hBC]
    refine ⟨g1, ⟨e, ?_, mergeEvent_self e⟩, ?_, ?_, ?_, ?_⟩
    · rw [g2]
    · intro kk rr hp
      rcases g4 kk rr hp with ⟨hpa, hpe⟩ |
        ⟨m0, hm0, hk0, hf1, hf2, hf3⟩
      · exact Or.inl ⟨hpa, hpe⟩
      · exact Or.inr ⟨hf1, m0, hm0, hk0, hf2, hf3⟩
    · intro kk rr hp hne
      refine ⟨?_, ?_⟩
      · rw [hext]
        exact List.mem_append_left _ hp
      · rcases g4 kk rr (by rw [hext]; exact List.mem_append_left _ hp)
          with ⟨_, hpe⟩ | ⟨m0, hm0, hk0, _, _, _⟩
        · exact hpe
        · exact absurd (hownA m0 hm0 kk rr hp hk0).1 hne
    · exact g5
    · intro p hp
      have hp2 : (p.1, p.2) ∈ (mins.foldl (createStep now e.id e cfg)
          ({ A with events := ainsert e.id e A.events },
            true)).1.alertsById := hp
      rcases g4 p.1 p.2 hp2 with ⟨hpa, hpe⟩ |
        ⟨m0, hm0, _, _, hf2, _⟩
      · have hne : (heapGet
            ({ A with events := ainsert e.id e A.events } : AlertStore)
            p.2).eventID ≠ e.id := horph p.1 p.2 hpa
        rw [phase2Victim_eq, hpe]
        simp [hne]
      · rw [phase2Victim_eq, hf2]
        simp [hm0]
  · -- update path: the stored event is merged in place
    have hstep : reconcileStep now (now - 43200) mins cfg (A, sb) e =
        ((updateAlertsForEventC
          { A with events := ainsert e.id (mergeEvent ex e) A.events }
          now e.id e mins).1, e.id :: sb.1,
         sb.2 && (updateAlertsForEventC
          { A with events := ainsert e.id (mergeEvent ex e) A.events }
          now e.id e mins).2) := by
      simp only [reconcileStep]
      rw [if_neg he, hlkE]
      rfl
    have hA1 : StoreInv
        ({ A with events := ainsert e.id (mergeEvent ex e) A.events } :
          AlertStore) := by
      refine events_set_inv hA (keysOf_ainsert_nodup _ hA.evNodup) ?_
      intro p hp
      exact mem_keysOf_ainsert _ _ (hA.orphan p hp)
    obtain ⟨g1, g2, g3, g4, g5⟩ := phase1Fold_char now e.id e mins hminj
      mins ({ A with events := ainsert e.id (mergeEvent ex e) A.events },
        true)
      (fun m hm => hm) hA1 (mem_keysOf_ainsert_self _ _ _)
      (fun m hm kk rr hp hk => hownA m hm kk rr hp hk)
    obtain ⟨h1, h2, h3, h4, h5, h6, h7⟩ := updateAlertsPhase2_spec g1
      e.id mins
    have hBC : B = updateAlertsPhase2
        (mins.foldl (phase1Step now e.id e)
          ({ A with events := ainsert e.id (mergeEvent ex e) A.events },
            true)).1 e.id mins := by
      rw [hBdef, hstep]
      rfl
    obtain ⟨ext, hext⟩ := g3
    have hgB : ∀ x, heapGet (updateAlertsPhase2
        (mins.foldl (phase1Step now e.id e)
          ({ A with events := ainsert e.id (mergeEvent ex e) A.events },
            true)).1 e.id mins) x =
        heapGet (mins.foldl (phase1Step now e.id e)
          ({ A with events := ainsert e.id (mergeEvent ex e) A.events },
            true)).1 x := heapGet_congr h3
    rw [hBC]
    refine ⟨h1, ⟨mergeEvent ex e, ?_, mergeEvent_idem ex e⟩, ?_, ?_, ?_,
      ?_⟩
    · rw [h2, g2]
    · intro kk rr hp
      have hpV := (h5 (kk, rr) hp).1
      rcases g4 kk rr hpV with ⟨hpa, hpe⟩ |
        ⟨m0, hm0, hk0, hf1, hf2, hf3⟩
      · refine Or.inl ⟨hpa, ?_⟩
        rw [hgB rr]
        exact hpe
      · refine Or.inr ⟨?_, m0, hm0, hk0, ?_, ?_⟩ <;> rw [hgB rr]
        · exact hf1
        · exact hf2
        · exact hf3
    · intro kk rr hp hne
      have hpV : (kk, rr) ∈ (mins.foldl (phase1Step now e.id e)
          ({ A with events := ainsert e.id (mergeEvent ex e) A.events },
            true)).1.alertsById := by
        rw [hext]
        exact List.mem_append_left _ hp
      have hpeV : heapGet (mins.foldl (phase1Step now e.id e)
          ({ A with events := ainsert e.id (mergeEvent ex e) A.events },
            true)).1 rr = heapGet A rr := by
        rcases g4 kk rr hpV with ⟨_, hpe⟩ | ⟨m0, hm0, hk0, _, _, _⟩
        · exact hpe
        · exact absurd (hownA m0 hm0 kk rr hp hk0).1 hne
      have hvic : phase2Victim (mins.foldl (phase1Step now e.id e)
          ({ A with events := ainsert e.id (mergeEvent ex e) A.events },
            true)).1 e.id mins (kk, rr) = false := by
        unfold phase2Victim
        rw [show ((kk, rr) : String × Nat).2 = rr from rfl, hpeV]
        simp [hne]
      refine ⟨h6 (kk, rr) hpV hvic, ?_⟩
      rw [hgB rr]
      exact hpeV
    · intro m hm
      constructor
      · intro r hr
        have hmemB := alookup_mem hr
        have hmemV := (h5 _ hmemB).1
        have hlkV : alookup (generateAlertID e.id (-m))
            (mins.foldl (phase1Step now e.id e)
              ({ A with
                events := ainsert e.id (mergeEvent ex e) A.events },
                true)).1.alertsById = some r := g1.lookupId hmemV
        obtain ⟨hta, hfe⟩ := (g5 m hm).1 r hlkV
        rw [hgB r]
        exact ⟨hta, hfe⟩
      · intro hnone
        rcases hlkV : alookup (generateAlertID e.id (-m))
            (mins.foldl (phase1Step now e.id e)
              ({ A with
                events := ainsert e.id (mergeEvent ex e) A.events },
                true)).1.alertsById with _ | r2
        · exact (g5 m hm).2 hlkV
        · obtain ⟨hta, hfe⟩ := (g5 m hm).1 r2 hlkV
          have hmemV := alookup_mem hlkV
          have hoffV : (heapGet (mins.foldl (phase1Step now e.id e)
              ({ A with
                events := ainsert e.id (mergeEvent ex e) A.events },
                true)).1 r2).alertOffset = -m := by
            rcases g4 _ _ hmemV with ⟨hpa, hpe⟩ |
              ⟨m0, hm0, hk0, _, hf2, _⟩
            · rw [hpe]
              exact (hownA m hm _ _ hpa rfl).2
            · have hm4 : m = m0 := hminj m hm m0 hm0 hk0
              subst hm4
              exact hf2
          have hvic : phase2Victim (mins.foldl (phase1Step now e.id e)
              ({ A with
                events := ainsert e.id (mergeEvent ex e) A.events },
                true)).1 e.id mins (generateAlertID e.id (-m), r2) =
              false := by
            rw [phase2Victim_pair, hoffV]
            simp [hm]
          have hmemB := h6 _ hmemV hvic
          have hlkB : alookup (generateAlertID e.id (-m))
              (updateAlertsPhase2 (mins.foldl (phase1Step now e.id e)
                ({ A with
                  events := ainsert e.id (mergeEvent ex e) A.events },
                  true)).1 e.id mins).alertsById = some r2 :=
            h1.lookupId hmemB
          rw [hnone] at hlkB
          cases hlkB
    · intro p hp
      have hvicV := (h5 p hp).2
      rw [phase2Victim_congr hgB e.id mins p]
      exact hvicV
/-- A reconciliation step for one event preserves the reflection of any
other event with a different id whose generated keys do not alias the
step's. -/
theorem stepFacts_preserve {A B : AlertStore} (hA : StoreInv A)
    (hB : StoreInv B) {now : Int} {mins : List Int} {e ep : Event}
    (hne : e.id ≠ ep.id)
    (hkne : ∀ ma ∈ mins, ∀ mb ∈ mins,
      generateAlertID e.id (-ma) ≠ generateAlertID ep.id (-mb))
    (hev : ∃ v, B.events = ainsert ep.id v A.events)
    (hent : ∀ kk rr, (kk, rr) ∈ B.alertsById →
      ((kk, rr) ∈ A.alertsById ∧ heapGet B rr = heapGet A rr) ∨
      ((heapGet B rr).eventID = ep.id ∧ ∃ m, m ∈ mins ∧
        kk = generateAlertID ep.id (-m) ∧
        (heapGet B rr).alertOffset = -m ∧
        (heapGet B rr).alertTime = ep.startTime - 60 * m))
    (hpres : ∀ kk rr, (kk, rr) ∈ A.alertsById →
      (heapGet A rr).eventID ≠ ep.id →
      (kk, rr) ∈ B.alertsById ∧ heapGet B rr = heapGet A rr)
    (hrefl : reflectsEvent A now e mins) :
    reflectsEvent B now e mins := by
  obtain ⟨⟨E1, hE1, hfix⟩, hFs, hFn, hF4⟩ := hrefl
  obtain ⟨v, hv⟩ := hev
  refine ⟨⟨E1, ?_, hfix⟩, ?_, ?_, ?_⟩
  · rw [hv, alookup_ainsert_ne _ _ hne]
    exact hE1
  · intro m hm r hr
    rcases hent _ _ (alookup_mem hr) with ⟨hpa, hpe⟩ |
      ⟨_, m0, hm0, hk0, _, _⟩
    · have hlkA : alookup (generateAlertID e.id (-m)) A.alertsById =
          some r := hA.lookupId hpa
      rw [hpe]
      exact hFs m hm r hlkA
    · exact absurd hk0 (hkne m hm m0 hm0)
  · intro m hm hnone
    rcases hlkA : alookup (generateAlertID e.id (-m)) A.alertsById
      with _ | r
    · exact hFn m hm hlkA
    · obtain ⟨_, hfe⟩ := hFs m hm r hlkA
      have hneid : (heapGet A r).eventID ≠ ep.id := by
        rw [hfe]
        exact hne
      obtain ⟨hmB, _⟩ := hpres _ _ (alookup_mem hlkA) hneid
      have hlkB : alookup (generateAlertID e.id (-m)) B.alertsById =
          some r := hB.lookupId hmB
      rw [hnone] at hlkB
      cases hlkB
  · intro p hp
    have hp2 : (p.1, p.2) ∈ B.alertsById := hp
    rcases hent p.1 p.2 hp2 with ⟨hpa, hpe⟩ | ⟨hid, _, _, _, _, _⟩
    · have hvic := hF4 (p.1, p.2) hpa
      unfold phase2Victim at hvic ⊢
      rw [show ((p.1, p.2) : String × Nat).2 = p.2 from rfl] at hvic
      rw [hpe]
      exact hvic
    · have hne2 : (heapGet B p.2).eventID ≠ e.id := by
        rw [hid]
        exact fun hc => hne hc.symm
      unfold phase2Victim
      simp [hne2]

/-- A reconciliation step for one incoming event preserves key ownership
for the whole incoming list. -/
theorem stepFacts_own {A B : AlertStore}
    {evsAll : List Event} {mins : List Int} {ep : Event}
    (hep : ep ∈ evsAll)
    (hgen : ∀ ea ∈ evsAll, ∀ eb ∈ evsAll, ∀ ma ∈ mins, ∀ mb ∈ mins,
      generateAlertID ea.id (-ma) = generateAlertID eb.id (-mb) →
      ea.id = eb.id ∧ ma = mb)
    (hent : ∀ kk rr, (kk, rr) ∈ B.alertsById →
      ((kk, rr) ∈ A.alertsById ∧ heapGet B rr = heapGet A rr) ∨
      ((heapGet B rr).eventID = ep.id ∧ ∃ m, m ∈ mins ∧
        kk = generateAlertID ep.id (-m) ∧
        (heapGet B rr).alertOffset = -m ∧
        (heapGet B rr).alertTime = ep.startTime - 60 * m))
    (hown : ∀ e2 ∈ evsAll, ∀ m ∈ mins, ∀ kk rr,
      (kk, rr) ∈ A.alertsById → kk = generateAlertID e2.id (-m) →
      (heapGet A rr).eventID = e2.id ∧
        (heapGet A rr).alertOffset = -m) :
    ∀ e2 ∈ evsAll, ∀ m ∈ mins, ∀ kk rr,
      (kk, rr) ∈ B.alertsById → kk = generateAlertID e2.id (-m) →
      (heapGet B rr).eventID = e2.id ∧
        (heapGet B rr).alertOffset = -m := by
  intro e2 he2 m hm kk rr hp hpk
  rcases hent kk rr hp with ⟨hpa, hpe⟩ | ⟨hid, m0, hm0, hk0, hoff, _⟩
  · rw [hpe]
    exact hown e2 he2 m hm kk rr hpa hpk
  · obtain ⟨hide, hmm⟩ := hgen e2 he2 ep hep m hm m0 hm0
      (by rw [← hpk, hk0])
    subst hmm
    refine ⟨?_, hoff⟩
    rw [hid, hide]

/-- The main loop of a reconciliation pass leaves every processed active
event reflected in the store, preserves key ownership, and marks each
active event as seen. -/
theorem reconcileFold_good (now : Int) (mins : List Int)
    (cfg : Option Config) (evsAll : List Event)
    (hgen : ∀ ea ∈ evsAll, ∀ eb ∈ evsAll, ∀ ma ∈ mins, ∀ mb ∈ mins,
      generateAlertID ea.id (-ma) = generateAlertID eb.id (-mb) →
      ea.id = eb.id ∧ ma = mb) :
    ∀ (evs : List Event) (acc : AlertStore × List String × Bool),
    StoreInv acc.1 →
    (∀ e ∈ evs, e ∈ evsAll) →
    (evs.map Event.id).Nodup →
    (∀ e2 ∈ evsAll, ∀ m ∈ mins, ∀ kk rr,
      (kk, rr) ∈ acc.1.alertsById → kk = generateAlertID e2.id (-m) →
      (heapGet acc.1 rr).eventID = e2.id ∧
        (heapGet acc.1 rr).alertOffset = -m) →
    (evs.foldl (reconcileStep now (now - 43200) mins cfg) acc).2.2 =
      true →
    StoreInv (evs.foldl (reconcileStep now (now - 43200) mins cfg)
      acc).1 ∧
    (∀ x ∈ acc.2.1,
      x ∈ (evs.foldl (reconcileStep now (now - 43200) mins cfg)
        acc).2.1) ∧
    (∀ e ∈ evs, ¬(e.startTime < now - 43200) →
      reflectsEvent (evs.foldl (reconcileStep now (now - 43200) mins
        cfg) acc).1 now e mins ∧
      e.id ∈ (evs.foldl (reconcileStep now (now - 43200) mins cfg)
        acc).2.1) ∧
    (∀ e ∈ evsAll, e.id ∉ evs.map Event.id →
      reflectsEvent acc.1 now e mins →
      reflectsEvent (evs.foldl (reconcileStep now (now - 43200) mins
        cfg) acc).1 now e mins) := by
  intro evs
  induction evs with
  | nil =>
    intro acc hinv _ _ _ _
    exact ⟨hinv, fun x hx => hx, fun e he => absurd he
      (List.not_mem_nil e), fun e _ _ hrefl => hrefl⟩
  | cons ep rest ih =>
    intro acc hinv hsub hnd hown hok
    have hepAll : ep ∈ evsAll := hsub ep (List.mem_cons_self _ _)
    have hsub2 : ∀ e ∈ rest, e ∈ evsAll :=
      fun e he => hsub e (List.mem_cons_of_mem _ he)
    have hnd2 : (rest.map Event.id).Nodup :=
      (List.nodup_cons.1 hnd).2
    have hepnr : ep.id ∉ rest.map Event.id := (List.nodup_cons.1 hnd).1
    have hfold : ((ep :: rest).foldl
        (reconcileStep now (now - 43200) mins cfg) acc) =
        rest.foldl (reconcileStep now (now - 43200) mins cfg)
          (reconcileStep now (now - 43200) mins cfg acc ep) := rfl
    rw [hfold] at hok ⊢
    by_cases hlt : ep.startTime < now - 43200
    · -- the incoming event is skipped
      have hstep : reconcileStep now (now - 43200) mins cfg acc ep =
          acc := by
        unfold reconcileStep
        rw [if_pos hlt]
      rw [hstep] at hok ⊢
      obtain ⟨g1, g2, g3, g4⟩ := ih acc hinv hsub2 hnd2 hown hok
      refine ⟨g1, g2, ?_, ?_⟩
      · intro e he hact
        rcases List.mem_cons.1 he with he2 | he2
        · subst he2
          exact absurd hlt hact
        · exact g3 e he2 hact
      · intro e he hid hrefl
        refine g4 e he ?_ hrefl
        intro hm
        exact hid (List.mem_cons_of_mem _ hm)
    · -- the incoming event is processed
      have hbool : (reconcileStep now (now - 43200) mins cfg acc
          ep).2.2 = true := by
        by_contra hb
        rw [Bool.not_eq_true] at hb
        rw [reconcileFold_false now (now - 43200) mins cfg rest _ hb]
          at hok
        cases hok
      have hminj : ∀ ma ∈ mins, ∀ mb ∈ mins,
          generateAlertID ep.id (-ma) = generateAlertID ep.id (-mb) →
          ma = mb :=
        fun ma hma mb hmb hh =>
          (hgen ep hepAll ep hepAll ma hma mb hmb hh).2
      have hownep : ∀ m ∈ mins, ∀ kk rr, (kk, rr) ∈ acc.1.alertsById →
          kk = generateAlertID ep.id (-m) →
          (heapGet acc.1 rr).eventID = ep.id ∧
            (heapGet acc.1 rr).alertOffset = -m :=
        fun m hm kk rr hp hk => hown ep hepAll m hm kk rr hp hk
      obtain ⟨c1, c2, c3, c4, c5, c6⟩ := reconcileStep_char hinv now
        mins cfg ep acc.2 rfl hlt hminj hownep hbool
      have hseen : (reconcileStep now (now - 43200) mins cfg acc
          ep).2.1 = ep.id :: acc.2.1 :=
        reconcileStep_seen now (now - 43200) mins cfg acc ep hlt
      have hreflep : reflectsEvent
          (reconcileStep now (now - 43200) mins cfg acc ep).1 now ep
          mins := by
        obtain ⟨v, hv, hfix⟩ := c2
        exact ⟨⟨v, by rw [hv]; exact alookup_ainsert_self _ _ _, hfix⟩,
          fun m hm => (c5 m hm).1, fun m hm => (c5 m hm).2, c6⟩
      have hownB := stepFacts_own hepAll hgen c3 hown
      obtain ⟨g1, g2, g3, g4⟩ := ih _ c1 hsub2 hnd2 hownB hok
      refine ⟨g1, ?_, ?_, ?_⟩
      · intro x hx
        refine g2 x ?_
        rw [hseen]
        exact List.mem_cons_of_mem _ hx
      · intro e he hact
        rcases List.mem_cons.1 he with he2 | he2
        · subst he2
          refine ⟨g4 e hepAll hepnr hreflep, ?_⟩
          refine g2 e.id ?_
          rw [hseen]
          exact List.mem_cons_self _ _
        · exact g3 e he2 hact
      · intro e he hid hrefl
        have hne : e.id ≠ ep.id := by
          intro hc
          exact hid (by rw [hc]; exact List.mem_cons_self _ _)
        have hkne : ∀ ma ∈ mins, ∀ mb ∈ mins,
            generateAlertID e.id (-ma) ≠
              generateAlertID ep.id (-mb) := by
          intro ma hma mb hmb hc
          exact hne (hgen e he ep hepAll ma hma mb hmb hc).1
        have hreflB := stepFacts_preserve hinv c1 hne hkne
          (by obtain ⟨v, hv, _⟩ := c2; exact ⟨v, hv⟩) c3 c4 hrefl
        refine g4 e he ?_ hreflB
        intro hm
        exact hid (List.mem_cons_of_mem _ hm)

/-- The tail of a reconciliation pass (stale-event removal followed by
eviction) preserves the reflection of every seen active event. -/
theorem reconcileTail_reflect {V' S3 : AlertStore} (hV : StoreInv V')
    (now : Int) (seen : List String) (e : Event) (mins : List Int)
    (hS3 : S3 = (V'.events.filter (fun p => !seen.contains p.1 &&
      decide (p.2.startTime < now) &&
      decide (p.2.startTime < now - 43200))).foldl
      (fun acc p => removeEvent acc p.1) V')
    (he : ¬(e.startTime < now - 43200))
    (hseen : e.id ∈ seen)
    (hseenok : ∀ i ∈ seen, ∀ E, alookup i V'.events = some E →
      ¬(E.startTime < now - 43200))
    (hrefl : reflectsEvent V' now e mins) :
    reflectsEvent (cleanupOldAlerts S3 (now - 43200)) now e mins := by
  obtain ⟨⟨E1, hE1, hfix⟩, hFs, hFn, hF4⟩ := hrefl
  obtain ⟨t1, t2, t3, t4, t5, t6, t7⟩ := removeEventsFold_spec
    (V'.events.filter (fun p => !seen.contains p.1 &&
      decide (p.2.startTime < now) &&
      decide (p.2.startTime < now - 43200))) V' hV
  rw [← hS3] at t1 t2 t3 t4 t5 t6 t7
  set stale := V'.events.filter (fun p => !seen.contains p.1 &&
    decide (p.2.startTime < now) &&
    decide (p.2.startTime < now - 43200)) with hstdef
  have hcontains : seen.contains e.id = true := by simpa using hseen
  have heid_not : e.id ∉ keysOf stale := by
    intro hk
    rcases mem_keysOf.1 hk with ⟨v, hv⟩
    have h1 := List.of_mem_filter hv
    simp only [hcontains] at h1
    simp at h1
  have hevS3 : ∀ q ∈ S3.events, ¬(q.2.startTime < now - 43200) := by
    intro q hq hlt
    have hql : alookup q.1 S3.events = some q.2 :=
      alookup_of_mem t1.evNodup hq
    rw [t4 q.1] at hql
    by_cases hk : q.1 ∈ keysOf stale
    · rw [if_pos hk] at hql
      cases hql
    · rw [if_neg hk] at hql
      by_cases hqs : q.1 ∈ seen
      · exact hseenok q.1 hqs q.2 hql hlt
      · refine hk (mem_keysOf.2 ⟨q.2, ?_⟩)
        refine List.mem_filter.2 ⟨alookup_mem hql, ?_⟩
        have hc : seen.contains q.1 = false := by
          rw [← Bool.not_eq_true]
          intro hcc
          exact hqs (by simpa using hcc)
        have hln : q.2.startTime < now := by omega
        simp [hc, hlt, hln, hqs]
  obtain ⟨c1, c2, c3, c4, c5, c6, c7⟩ :=
    cleanupOldAlerts_spec t1 (now - 43200) hevS3
  have hget : ∀ x, heapGet (cleanupOldAlerts S3 (now - 43200)) x =
      heapGet V' x := by
    intro x
    rw [heapGet_congr c3 x, heapGet_congr t2 x]
  refine ⟨⟨E1, ?_, hfix⟩, ?_, ?_, ?_⟩
  · rw [c2, t4 e.id, if_neg heid_not]
    exact hE1
  · intro m hm r hr
    have hmem := alookup_mem hr
    have hS3m := ((c5 _).1 hmem).1
    have hVm := ((t5 _).1 hS3m).1
    have hlkV : alookup (generateAlertID e.id (-m)) V'.alertsById =
        some r := hV.lookupId hVm
    rw [hget r]
    exact hFs m hm r hlkV
  · intro m hm hnone
    rcases hW : alookup (generateAlertID e.id (-m)) V'.alertsById
      with _ | r2
    · exact hFn m hm hW
    · obtain ⟨hta, hfe⟩ := hFs m hm r2 hW
      have hVm : (generateAlertID e.id (-m), r2) ∈ V'.alertsById :=
        alookup_mem hW
      have hS3m : (generateAlertID e.id (-m), r2) ∈ S3.alertsById := by
        refine (t5 _).2 ⟨hVm, ?_⟩
        rw [hfe]
        exact heid_not
      by_cases hcc : roundToMinute (now - 43200) ≤
          roundToMinute (e.startTime - 60 * m)
      · have hum : (generateAlertID e.id (-m), r2) ∈
            (cleanupOldAlerts S3 (now - 43200)).alertsById := by
          refine (c5 _).2 ⟨hS3m, ?_⟩
          rw [heapGet_congr t2 r2, hta]
          exact hcc
        have hl2 := c1.lookupId hum
        rw [hnone] at hl2
        cases hl2
      · by_contra hge
        push_neg at hge
        refine hcc ?_
        calc roundToMinute (now - 43200) ≤ roundToMinute now :=
              roundToMinute_mono (by omega)
          _ ≤ roundToMinute (e.startTime - 60 * m) :=
              roundToMinute_mono hge
  · intro p hp
    have hS3m := ((c5 _).1 hp).1
    have hVm := ((t5 _).1 hS3m).1
    have hv2 := hF4 p hVm
    unfold phase2Victim at hv2 ⊢
    rw [hget p.2]
    exact hv2
/-- The per-offset update loop is inert (up to bucket order) on a store
whose configured alerts already sit at their recomputed fire times. -/
theorem phase1Fold_inert (now : Int) (eid : String) (ev : Event) :
    ∀ (mins : List Int) (acc : AlertStore × Bool),
    StoreInv acc.1 →
    (∀ m ∈ mins, ∀ r, alookup (generateAlertID eid (-m))
        acc.1.alertsById = some r →
      (heapGet acc.1 r).alertTime = ev.startTime - 60 * m) →
    (∀ m ∈ mins, alookup (generateAlertID eid (-m))
        acc.1.alertsById = none → ev.startTime - 60 * m < now) →
    StoreInv (mins.foldl (phase1Step now eid ev) acc).1 ∧
    (mins.foldl (phase1Step now eid ev) acc).1.events = acc.1.events ∧
    (mins.foldl (phase1Step now eid ev) acc).1.heap = acc.1.heap ∧
    (mins.foldl (phase1Step now eid ev) acc).1.alertsById =
      acc.1.alertsById ∧
    (mins.foldl (phase1Step now eid ev) acc).1.fresh = acc.1.fresh ∧
    (∀ k x, x ∈ bucketGet (mins.foldl (phase1Step now eid ev) acc).1 k ↔
      x ∈ bucketGet acc.1 k) ∧
    (∀ b ∈ (mins.foldl (phase1Step now eid ev) acc).1.alertsByTime,
      b.1 ∈ keysOf acc.1.alertsByTime) := by
  intro mins
  induction mins with
  | nil =>
    intro acc hinv _ _
    exact ⟨hinv, rfl, rfl, rfl, rfl, fun k x => Iff.rfl,
      fun b hb => mem_keysOf.2 ⟨b.2, hb⟩⟩
  | cons m rest ih =>
    intro acc hinv hs hn
    have hmm : m ∈ m :: rest := List.mem_cons_self _ _
    rcases hlk : alookup (generateAlertID eid (-m)) acc.1.alertsById
      with _ | r
    · have hstep : phase1Step now eid ev acc m = acc := by
        simp only [phase1Step]
        rw [hlk]
        simp [hn m hmm hlk]
      have hfold : (m :: rest).foldl (phase1Step now eid ev) acc =
          rest.foldl (phase1Step now eid ev) acc := by
        rw [List.foldl_cons, hstep]
      rw [hfold]
      exact ih acc hinv
        (fun m2 hm2 => hs m2 (List.mem_cons_of_mem _ hm2))
        (fun m2 hm2 => hn m2 (List.mem_cons_of_mem _ hm2))
    · have hta : (heapGet acc.1 r).alertTime = ev.startTime - 60 * m :=
        hs m hmm r hlk
      obtain ⟨x1, x2, x3, x4, x5, x6, x7⟩ :=
        relocateAlert_same_time hinv hlk hta
      have hstep : phase1Step now eid ev acc m =
          (relocateAlert acc.1 (generateAlertID eid (-m)) r
            (ev.startTime - 60 * m), acc.2) := by
        simp only [phase1Step]
        rw [hlk]
      have hfold : (m :: rest).foldl (phase1Step now eid ev) acc =
          rest.foldl (phase1Step now eid ev)
            (relocateAlert acc.1 (generateAlertID eid (-m)) r
              (ev.startTime - 60 * m), acc.2) := by
        rw [List.foldl_cons, hstep]
      rw [hfold]
      obtain ⟨g1, g2, g3, g4, g5, g6, g7⟩ := ih
        (relocateAlert acc.1 (generateAlertID eid (-m)) r
          (ev.startTime - 60 * m), acc.2) x7
        (fun m2 hm2 r2 hr2 => by
          rw [heapGet_congr x2 r2]
          refine hs m2 (List.mem_cons_of_mem _ hm2) r2 ?_
          rw [← x3]
          exact hr2)
        (fun m2 hm2 hnone => by
          refine hn m2 (List.mem_cons_of_mem _ hm2) ?_
          rw [← x3]
          exact hnone)
      refine ⟨g1, ?_, ?_, ?_, ?_, ?_, ?_⟩
      · rw [g2]
        exact x1
      · rw [g3]
        exact x2
      · rw [g4]
        exact x3
      · rw [g5]
        exact x4
      · intro k x
        exact (g6 k x).trans (x5 k x)
      · intro b hb
        rcases mem_keysOf.1 (g7 b hb) with ⟨w, hw⟩
        exact x6 (b.1, w) hw

/-- One reconciliation step is inert (up to bucket order) on a store that
already reflects its event. -/
theorem reconcileStep_inert (now : Int) (mins : List Int)
    (cfg : Option Config) (e : Event)
    (acc : AlertStore × List String × Bool) (hT : StoreInv acc.1)
    (he : ¬(e.startTime < now - 43200))
    (hrefl : reflectsEvent acc.1 now e mins) :
    StoreInv (reconcileStep now (now - 43200) mins cfg acc e).1 ∧
    (reconcileStep now (now - 43200) mins cfg acc e).1.events =
      acc.1.events ∧
    (reconcileStep now (now - 43200) mins cfg acc e).1.heap =
      acc.1.heap ∧
    (reconcileStep now (now - 43200) mins cfg acc e).1.alertsById =
      acc.1.alertsById ∧
    (reconcileStep now (now - 43200) mins cfg acc e).1.fresh =
      acc.1.fresh ∧
    (∀ k x, x ∈ bucketGet
        (reconcileStep now (now - 43200) mins cfg acc e).1 k ↔
      x ∈ bucketGet acc.1 k) ∧
    (∀ b ∈ (reconcileStep now (now - 43200) mins cfg
        acc e).1.alertsByTime,
      b.1 ∈ keysOf acc.1.alertsByTime) := by
  obtain ⟨⟨E1, hE1, hfix⟩, hFs, hFn, hF4⟩ := hrefl
  have hs1 : ({ acc.1 with
      events := (ainsert e.id (mergeEvent E1 e) acc.1.events) } :
      AlertStore) = acc.1 := by
    rw [hfix, ainsert_eq_self hE1]
  have hstep : reconcileStep now (now - 43200) mins cfg acc e =
      ((updateAlertsForEventC
        { acc.1 with
          events := (ainsert e.id (mergeEvent E1 e) acc.1.events) }
        now e.id e mins).1, e.id :: acc.2.1,
       acc.2.2 && (updateAlertsForEventC
        { acc.1 with
          events := (ainsert e.id (mergeEvent E1 e) acc.1.events) }
        now e.id e mins).2) := by
    simp only [reconcileStep]
    rw [if_neg he, hE1]
    rfl
  obtain ⟨p1, p2, p3, p4, p5, p6, p7⟩ := phase1Fold_inert now e.id e
    mins (acc.1, true) hT (fun m hm r hr => (hFs m hm r hr).1) hFn
  have hvicV : ∀ p ∈ (mins.foldl (phase1Step now e.id e)
      (acc.1, true)).1.alertsById,
      phase2Victim (mins.foldl (phase1Step now e.id e) (acc.1, true)).1
        e.id mins p = false := by
    intro p hp
    rw [p4] at hp
    rw [phase2Victim_congr (heapGet_congr p3) e.id mins p]
    exact hF4 p hp
  have hph2 : updateAlertsPhase2 (mins.foldl (phase1Step now e.id e)
      (acc.1, true)).1 e.id mins =
      (mins.foldl (phase1Step now e.id e) (acc.1, true)).1 :=
    updateAlertsPhase2_id hvicV
  have hupd : (updateAlertsForEventC acc.1 now e.id e mins).1 =
      (mins.foldl (phase1Step now e.id e) (acc.1, true)).1 := by
    show updateAlertsPhase2
      (mins.foldl (phase1Step now e.id e) (acc.1, true)).1 e.id mins = _
    exact hph2
  have hfinal : (reconcileStep now (now - 43200) mins cfg acc e).1 =
      (mins.foldl (phase1Step now e.id e) (acc.1, true)).1 := by
    rw [hstep]
    show (updateAlertsForEventC
      { acc.1 with
        events := (ainsert e.id (mergeEvent E1 e) acc.1.events) }
      now e.id e mins).1 = _
    rw [hs1]
    exact hupd
  rw [hfinal]
  exact ⟨p1, p2, p3, p4, p5, p6, p7⟩

/-- The main loop of a reconciliation pass is inert (up to bucket order)
when every active incoming event is already reflected. -/
theorem reconcileFold_inert (now : Int) (mins : List Int)
    (cfg : Option Config) (T0 : AlertStore) :
    ∀ (evs : List Event) (acc : AlertStore × List String × Bool),
    StoreInv acc.1 →
    acc.1.events = T0.events →
    acc.1.heap = T0.heap →
    acc.1.alertsById = T0.alertsById →
    acc.1.fresh = T0.fresh →
    (∀ k x, x ∈ bucketGet acc.1 k ↔ x ∈ bucketGet T0 k) →
    (∀ b ∈ acc.1.alertsByTime, b.1 ∈ keysOf T0.alertsByTime) →
    (∀ e ∈ evs, ¬(e.startTime < now - 43200) →
      reflectsEvent T0 now e mins) →
    StoreInv (evs.foldl (reconcileStep now (now - 43200) mins cfg)
      acc).1 ∧
    (evs.foldl (reconcileStep now (now - 43200) mins cfg)
      acc).1.events = T0.events ∧
    (evs.foldl (reconcileStep now (now - 43200) mins cfg)
      acc).1.heap = T0.heap ∧
    (evs.foldl (reconcileStep now (now - 43200) mins cfg)
      acc).1.alertsById = T0.alertsById ∧
    (evs.foldl (reconcileStep now (now - 43200) mins cfg)
      acc).1.fresh = T0.fresh ∧
    (∀ k x, x ∈ bucketGet (evs.foldl (reconcileStep now (now - 43200)
      mins cfg) acc).1 k ↔ x ∈ bucketGet T0 k) ∧
    (∀ b ∈ (evs.foldl (reconcileStep now (now - 43200) mins cfg)
      acc).1.alertsByTime, b.1 ∈ keysOf T0.alertsByTime) := by
  intro evs
  induction evs with
  | nil =>
    intro acc hinv h1 h2 h3 h4 h5 h6 _
    exact ⟨hinv, h1, h2, h3, h4, h5, h6⟩
  | cons ep rest ih =>
    intro acc hinv h1 h2 h3 h4 h5 h6 hrefl
    have hfold : ((ep :: rest).foldl
        (reconcileStep now (now - 43200) mins cfg) acc) =
        rest.foldl (reconcileStep now (now - 43200) mins cfg)
          (reconcileStep now (now - 43200) mins cfg acc ep) := rfl
    rw [hfold]
    by_cases hlt : ep.startTime < now - 43200
    · have hstep : reconcileStep now (now - 43200) mins cfg acc ep =
          acc := by
        unfold reconcileStep
        rw [if_pos hlt]
      rw [hstep]
      exact ih acc hinv h1 h2 h3 h4 h5 h6
        (fun e he hact => hrefl e (List.mem_cons_of_mem _ he) hact)
    · have hreflT := hrefl ep (List.mem_cons_self _ _) hlt
      have hreflacc : reflectsEvent acc.1 now ep mins :=
        reflectsEvent_congr h1 h2 h3 hreflT
      obtain ⟨y1, y2, y3, y4, y5, y6, y7⟩ := reconcileStep_inert now
        mins cfg ep acc hinv hlt hreflacc
      refine ih (reconcileStep now (now - 43200) mins cfg acc ep) y1
        ?_ ?_ ?_ ?_ ?_ ?_
        (fun e he hact => hrefl e (List.mem_cons_of_mem _ he) hact)
      · rw [y2]
        exact h1
      · rw [y3]
        exact h2
      · rw [y4]
        exact h3
      · rw [y5]
        exact h4
      · intro k x
        exact (y6 k x).trans (h5 k x)
      · intro b hb
        rcases mem_keysOf.1 (y7 b hb) with ⟨w, hw⟩
        exact h6 (b.1, w) hw

/-! ## Claim C3 -/

/-- C3 (amended): reconciliation is idempotent up to bucket order, but
only from well-formed states.  From a store satisfying the structural
invariant (in particular with no orphaned alert), for an incoming event
list with distinct event ids whose generated `id-offset` alert keys do
not alias each other or a stored alert of a different event or offset,
and whose first pass's insertions overwrote no existing composite key,
running the same reconciliation twice in a row at the same time — same
event list, same configured offsets, same config — leaves, after the
second run, the events map, the alert objects (heap), the by-id index
and the allocation counter of the first run's result unchanged, and
every time bucket with the same members — so no alert's status, fire
time or existence changes on the repeated run.  On arbitrary store
states the claim is refuted by `resync_idempotent_counterexample`. -/
theorem resync_idempotent_amended (s : AlertStore) (hinv : Inv s = true)
    (now : Int) (evs : List Event) (mins : List Int) (cfg : Option Config)
    (hids : (evs.map Event.id).Nodup)
    (hgen : ∀ ea ∈ evs, ∀ eb ∈ evs, ∀ ma ∈ mins, ∀ mb ∈ mins,
      generateAlertID ea.id (-ma) = generateAlertID eb.id (-mb) →
      ea.id = eb.id ∧ ma = mb)
    (hown : ∀ e ∈ evs, ∀ m ∈ mins, ∀ kk rr, (kk, rr) ∈ s.alertsById →
      kk = generateAlertID e.id (-m) →
      (heapGet s rr).eventID = e.id ∧ (heapGet s rr).alertOffset = -m)
    (hok : (updateEventsWithConfigC s now evs mins cfg).2 = true) :
    (updateEventsWithConfig (updateEventsWithConfig s now evs mins cfg)
      now evs mins cfg).events =
      (updateEventsWithConfig s now evs mins cfg).events ∧
    (updateEventsWithConfig (updateEventsWithConfig s now evs mins cfg)
      now evs mins cfg).heap =
      (updateEventsWithConfig s now evs mins cfg).heap ∧
    (updateEventsWithConfig (updateEventsWithConfig s now evs mins cfg)
      now evs mins cfg).alertsById =
      (updateEventsWithConfig s now evs mins cfg).alertsById ∧
    (updateEventsWithConfig (updateEventsWithConfig s now evs mins cfg)
      now evs mins cfg).fresh =
      (updateEventsWithConfig s now evs mins cfg).fresh ∧
    (∀ k x, x ∈ bucketGet
        (updateEventsWithConfig (updateEventsWithConfig s now evs mins
          cfg) now evs mins cfg) k ↔
      x ∈ bucketGet (updateEventsWithConfig s now evs mins cfg) k) := by
  have hsi : StoreInv s := inv_eq_true_iff.1 hinv
  obtain ⟨G1, G2ev, G3bk, G4id, G5un, G6keys⟩ :=
    updateEventsWithConfigC_spec hsi now evs mins cfg hok
  have hid2 : ∀ A : AlertStore,
      updateEventsWithConfig A now evs mins cfg =
        (updateEventsWithConfigC A now evs mins cfg).1 := fun A => rfl
  -- the first pass leaves every active incoming event reflected
  have hokr : (evs.foldl (reconcileStep now (now - 43200) mins cfg)
      (s, [], true)).2.2 = true := hok
  obtain ⟨f1, f2, f3, f4⟩ := reconcileFold_good now mins cfg evs hgen
    evs (s, [], true) hsi (fun e he => he) hids hown hokr
  obtain ⟨m1, m2, m3⟩ := reconcileFold_spec now (now - 43200) mins cfg
    evs (s, [], true) hsi (by intro i hi; cases hi) hokr
  have hseenok : ∀ i ∈ (evs.foldl (reconcileStep now (now - 43200)
      mins cfg) (s, [], true)).2.1, ∀ E,
      alookup i (evs.foldl (reconcileStep now (now - 43200) mins cfg)
        (s, [], true)).1.events = some E →
      ¬(E.startTime < now - 43200) := by
    intro i hi E hE
    obtain ⟨E2, hE2a, hE2b⟩ := m2 i hi
    rw [hE] at hE2a
    cases Option.some.inj hE2a
    exact hE2b
  have hrun1refl : ∀ e ∈ evs, ¬(e.startTime < now - 43200) →
      reflectsEvent (updateEventsWithConfigC s now evs mins cfg).1 now
        e mins := by
    intro e he hact
    obtain ⟨hreflV, hseenm⟩ := f3 e he hact
    exact reconcileTail_reflect f1 now
      (evs.foldl (reconcileStep now (now - 43200) mins cfg)
        (s, [], true)).2.1 e mins rfl hact hseenm hseenok hreflV
  -- the second pass's main loop is inert
  obtain ⟨w1, w2, w3, w4, w5, w6, w7⟩ := reconcileFold_inert now mins
    cfg (updateEventsWithConfigC s now evs mins cfg).1 evs
    ((updateEventsWithConfigC s now evs mins cfg).1, [], true) G1 rfl
    rfl rfl rfl (fun k x => Iff.rfl) (fun b hb => mem_keysOf.2 ⟨b.2, hb⟩)
    hrun1refl
  -- its tail is the identity
  set r2 := evs.foldl (reconcileStep now (now - 43200) mins cfg)
    ((updateEventsWithConfigC s now evs mins cfg).1, [], true) with hr2
  have hstale2 : (r2.1.events.filter
      (fun p => !r2.2.1.contains p.1 &&
        decide (p.2.startTime < now) &&
        decide (p.2.startTime < now - 43200))) = [] :=
    staleFilter_nil r2.2.1 now (now - 43200)
      (fun q hq => G2ev q (w2 ▸ hq))
  have hclean2 : cleanupOldAlerts r2.1 (now - 43200) = r2.1 := by
    refine cleanupOldAlerts_id (now - 43200) ?_ ?_
    · intro b hb
      rcases mem_keysOf.1 (w7 b hb) with ⟨w, hw⟩
      exact G6keys (b.1, w) hw
    · intro q hq
      exact G2ev q (w2 ▸ hq)
  have hfin : (updateEventsWithConfigC
      (updateEventsWithConfigC s now evs mins cfg).1 now evs mins
      cfg).1 = r2.1 := by
    have hu2 : updateEventsWithConfigC
        (updateEventsWithConfigC s now evs mins cfg).1 now evs mins
        cfg =
        (cleanupOldAlerts ((r2.1.events.filter
          (fun p => !r2.2.1.contains p.1 &&
            decide (p.2.startTime < now) &&
            decide (p.2.startTime < now - 43200))).foldl
          (fun acc p => removeEvent acc p.1) r2.1) (now - 43200),
         r2.2.2) := rfl
    rw [hu2]
    show cleanupOldAlerts ((r2.1.events.filter
      (fun p => !r2.2.1.contains p.1 &&
        decide (p.2.startTime < now) &&
        decide (p.2.startTime < now - 43200))).foldl
      (fun acc p => removeEvent acc p.1) r2.1) (now - 43200) = r2.1
    rw [hstale2]
    show cleanupOldAlerts r2.1 (now - 43200) = r2.1
    exact hclean2
  rw [hid2, hid2, hfin]
  exact ⟨w2, w3, w4, w5, w6⟩

/-- Witness for C3's amended idempotence at a concrete store, with two
incoming events (one known, one new) and two configured offsets. -/
theorem resync_idempotent_amended_witness :
    Inv offsetStore = true ∧
    ([sampleEvent, sampleEvent2].map Event.id).Nodup ∧
    (updateEventsWithConfigC offsetStore 100000
      [sampleEvent, sampleEvent2] [15, 5] none).2 = true ∧
    (updateEventsWithConfig (updateEventsWithConfig offsetStore 100000
      [sampleEvent, sampleEvent2] [15, 5] none) 100000
      [sampleEvent, sampleEvent2] [15, 5] none).alertsById =
      (updateEventsWithConfig offsetStore 100000
        [sampleEvent, sampleEvent2] [15, 5] none).alertsById :=
  ⟨by decide, by decide, by decide,
   (resync_idempotent_amended offsetStore (by decide) 100000
      [sampleEvent, sampleEvent2] [15, 5] none (by decide) (by decide)
      (by
        intro e he m hm kk rr hmem hkey
        exact (by decide : ∀ e ∈ [sampleEvent, sampleEvent2],
            ∀ m ∈ [(15 : Int), 5], ∀ p ∈ offsetStore.alertsById,
            p.1 = generateAlertID e.id (-m) →
            (heapGet offsetStore p.2).eventID = e.id ∧
            (heapGet offsetStore p.2).alertOffset = -m)
          e he m hm (kk, rr) hmem hkey)
      (by decide)).2.2.1⟩

/-- C3 counterexample: reconciliation is not idempotent on every store
state.  From `orphanStore` — an alert whose owning event is gone, a state
eviction can produce — reconciling the event list `[e]` twice with offsets
`[0]` at the same time gives different alert sets: the orphan alert
`e--7` survives the first pass (the event is created, so the config-diff
removal loop never runs) but the second pass takes the update path and
deletes it. -/
theorem resync_idempotent_counterexample :
    (alookup "e--7" (updateEventsWithConfig orphanStore 100000
      [⟨"e", "t", "d", 103600, 107200, "", "CONFIRMED", "cal"⟩]
      [0] none).alertsById).isSome = true ∧
    alookup "e--7" (updateEventsWithConfig (updateEventsWithConfig
      orphanStore 100000
      [⟨"e", "t", "d", 103600, 107200, "", "CONFIRMED", "cal"⟩] [0] none)
      100000
      [⟨"e", "t", "d", 103600, 107200, "", "CONFIRMED", "cal"⟩]
      [0] none).alertsById = none := by
  exact ⟨by decide, by decide⟩

/-! ## Claim C4 -/

/-- C4: for a known event with an existing alert at configured offset `-m`
(`m` still in the configured list), the per-event update pass of a
reconciliation relocates that alert to the time bucket of its recomputed
fire time `startTime - 60*m` — it is a member of the new bucket and of no
other — while keeping its `alertsById` entry and leaving every other field
of the alert object, in particular its status, unchanged: an Alerted,
Snoozed or Muted alert stays so and is not reset to Pending.  (The
composite-key hypotheses rule out distinct configured offsets colliding on
the same generated key, which the textual key format cannot exclude.) -/
theorem update_status_preserved (s : AlertStore) (hinv : Inv s = true)
    (now : Int) (eid : String) (ev : Event) (m : Int) (mins : List Int)
    (r : Nat)
    (hm : m ∈ mins) (hmnd : mins.Nodup)
    (hkeys : ∀ m' ∈ mins, generateAlertID eid (-m') =
      generateAlertID eid (-m) → m' = m)
    (hev : eid ∈ keysOf s.events)
    (hlk : alookup (generateAlertID eid (-m)) s.alertsById = some r)
    (hoff : (heapGet s r).alertOffset = -m) :
    heapGet (updateAlertsForEventC s now eid ev mins).1 r =
      { heapGet s r with alertTime := ev.startTime - 60 * m } ∧
    alookup (generateAlertID eid (-m))
      (updateAlertsForEventC s now eid ev mins).1.alertsById = some r ∧
    r ∈ bucketGet (updateAlertsForEventC s now eid ev mins).1
      (roundToMinute (ev.startTime - 60 * m)) ∧
    (∀ k, k ≠ roundToMinute (ev.startTime - 60 * m) →
      r ∉ bucketGet (updateAlertsForEventC s now eid ev mins).1 k) := by
  have hsi : StoreInv s := inv_eq_true_iff.1 hinv
  obtain ⟨l1, l2, hsplit⟩ := List.append_of_mem hm
  have hmnd' := hmnd
  rw [hsplit, List.nodup_append] at hmnd'
  obtain ⟨hnd1, hnd2, hdisj⟩ := hmnd'
  have hm1 : m ∉ l1 := fun hx => hdisj hx (List.mem_cons_self _ _)
  have hm2 : m ∉ l2 := (List.nodup_cons.1 hnd2).1
  have hall1 : ∀ mm ∈ l1, generateAlertID eid (-mm) ≠
      generateAlertID eid (-m) := by
    intro mm hmm he
    exact hm1 (hkeys mm (hsplit ▸ List.mem_append_left _ hmm) he ▸ hmm)
  have hall2 : ∀ mm ∈ l2, generateAlertID eid (-mm) ≠
      generateAlertID eid (-m) := by
    intro mm hmm he
    refine hm2 ?_
    have := hkeys mm
      (hsplit ▸ List.mem_append_right _ (List.mem_cons_of_mem _ hmm)) he
    exact this ▸ hmm
  -- phase 1 over the prefix l1
  obtain ⟨a1, a2, a3, a4, a5, a6⟩ := phase1Fold_frame now eid ev l1
    (s, true) hsi hev hall1 hlk
  set A := l1.foldl (phase1Step now eid ev) (s, true) with hA
  -- the step for m itself relocates r
  have hstepm : phase1Step now eid ev A m =
      (relocateAlert A.1 (generateAlertID eid (-m)) r
        (ev.startTime - 60 * m), A.2) := by
    simp only [phase1Step]
    rw [a3]
  obtain ⟨b1, b2, b3, b4, b5, b6, b7⟩ := relocateAlert_spec a1 a3
    (ev.startTime - 60 * m)
  set B := relocateAlert A.1 (generateAlertID eid (-m)) r
    (ev.startTime - 60 * m) with hB
  have hgetB : heapGet B r =
      { heapGet s r with alertTime := ev.startTime - 60 * m } := by
    rw [b5, a4]
  have hlkB : alookup (generateAlertID eid (-m)) B.alertsById = some r := by
    rw [b4]
    exact a3
  have hmemB : (generateAlertID eid (-m), r) ∈ A.1.alertsById :=
    alookup_mem a3
  have hinB : r ∈ bucketGet B (roundToMinute (ev.startTime - 60 * m)) := by
    rw [b7, if_pos rfl]
    exact List.mem_append_right _ (List.mem_singleton.2 rfl)
  have houtB : ∀ k, k ≠ roundToMinute (ev.startTime - 60 * m) →
      r ∉ bucketGet B k := by
    intro k hk
    rw [b7, if_neg hk]
    by_cases hk2 : k = roundToMinute (heapGet A.1 r).alertTime
    · rw [if_pos hk2]
      have hcnt : (bucketGet A.1
          (roundToMinute (heapGet A.1 r).alertTime)).count r = 1 :=
        a1.homeOne (generateAlertID eid (-m), r) hmemB
      intro hmem
      have := List.count_erase_self r (bucketGet A.1
        (roundToMinute (heapGet A.1 r).alertTime))
      rw [hcnt] at this
      have hzero : ((bucketGet A.1
          (roundToMinute (heapGet A.1 r).alertTime)).erase r).count r = 0 :=
        this
      exact absurd (List.count_pos_iff.2 hmem) (by omega)
    · rw [if_neg hk2]
      intro hmem
      have h0 : (bucketGet A.1 k).count r = 0 :=
        a1.count_ne_home hmemB hk2
      exact absurd (List.count_pos_iff.2 hmem) (by omega)
  -- phase 1 over the suffix l2
  have hevB : eid ∈ keysOf B.events := by
    rw [b2, a2]
    exact hev
  obtain ⟨u1, u2, u3, u4, u5, u6⟩ := phase1Fold_frame now eid ev l2
    (B, A.2) b1 hevB hall2 hlkB
  set U := l2.foldl (phase1Step now eid ev) (B, A.2) with hU
  have hfold : mins.foldl (phase1Step now eid ev) (s, true) = U := by
    rw [hsplit, List.foldl_append, List.foldl_cons, ← hA, hstepm]
  have hgetU : heapGet U.1 r =
      { heapGet s r with alertTime := ev.startTime - 60 * m } := by
    rw [u4]
    exact hgetB
  have hlkU : alookup (generateAlertID eid (-m)) U.1.alertsById = some r :=
    u3
  have hinU : r ∈ bucketGet U.1 (roundToMinute (ev.startTime - 60 * m)) :=
    (u5 _).2 hinB
  have houtU : ∀ k, k ≠ roundToMinute (ev.startTime - 60 * m) →
      r ∉ bucketGet U.1 k := by
    intro k hk hmem
    exact houtB k hk ((u5 k).1 hmem)
  -- phase 2 removes nothing at offset -m
  have hmemU : (generateAlertID eid (-m), r) ∈ U.1.alertsById :=
    alookup_mem hlkU
  have hvic : phase2Victim U.1 eid mins (generateAlertID eid (-m), r) =
      false := by
    unfold phase2Victim
    simp only [hgetU]
    have hoff' : ({ heapGet s r with
        alertTime := ev.startTime - 60 * m } : ScheduledAlert).alertOffset =
        -m := hoff
    rw [hoff', neg_neg]
    simp [hm]
  obtain ⟨h1, h2, h3, h4, h5, h6, h7⟩ := updateAlertsPhase2_spec u1 eid mins
  have hmemF : (generateAlertID eid (-m), r) ∈
      (updateAlertsPhase2 U.1 eid mins).alertsById := h6 _ hmemU hvic
  have hnvic : r ∉ (U.1.alertsById.filter
      (phase2Victim U.1 eid mins)).map Prod.snd := by
    intro hx
    rcases List.mem_map.1 hx with ⟨q, hq, hqe⟩
    have hqm : q ∈ U.1.alertsById := List.mem_of_mem_filter hq
    have := u1.entry_eq_of_ref hqm hmemU hqe
    rw [this] at hq
    have := List.of_mem_filter hq
    rw [hvic] at this
    cases this
  have hdef : (updateAlertsForEventC s now eid ev mins).1 =
      updateAlertsPhase2 U.1 eid mins := by
    show updateAlertsPhase2
      (mins.foldl (phase1Step now eid ev) (s, true)).1 eid mins = _
    rw [hfold]
  rw [hdef]
  refine ⟨?_, ?_, ?_, ?_⟩
  · rw [heapGet_congr h3 r]
    exact hgetU
  · exact h1.lookupId hmemF
  · exact (h7 _ r).2 ⟨hinU, hnvic⟩
  · intro k hk hmem
    exact houtU k hk ((h7 k r).1 hmem).1

/-- Witness for C4: shifting `sampleEvent` ten minutes later relocates the
already-Alerted offset -15 alert of `offsetStore` and keeps it Alerted. -/
theorem update_status_preserved_witness :
    Inv offsetStore = true ∧ 15 ∈ [15, 5, 0] ∧
    alookup (generateAlertID "e" (-15)) offsetStore.alertsById = some 0 ∧
    heapGet (updateAlertsForEventC offsetStore 100000 "e"
        { sampleEvent with startTime := 101500 } [15, 5, 0]).1 0 =
      { heapGet offsetStore 0 with alertTime := 101500 - 60 * 15 } :=
  ⟨by decide, by decide, by decide,
   (update_status_preserved offsetStore (by decide) 100000 "e"
      { sampleEvent with startTime := 101500 } 15 [15, 5, 0] 0 (by decide)
      (by decide) (by decide) (by decide) (by decide) (by decide)).1⟩

/-! ## Claim C1 -/

/-- C1 (amended): index consistency holds after every sequence of public
store operations from the empty store *provided* no insertion along the
sequence overwrote an existing composite key (the conjoined per-operation
check): every alert reachable from `alertsById` is in exactly one time
bucket, the one keyed by its fire minute, and every bucket member is
reachable from `alertsById`.  The unqualified claim is refuted by
`runOps_I1_counterexample`. -/
theorem runOps_I1_checked (ops : List StoreOp)
    (hok : (runOpsC emptyStore ops).2 = true) :
    I1holds (runOps emptyStore ops) = true := by
  have h := runOpsC_inv ops emptyStore emptyStore_storeInv hok
  have h2 : Inv (runOpsC emptyStore ops).1 = true := inv_eq_true_iff.2 h
  unfold Inv InvCore at h2
  simp only [Bool.and_eq_true] at h2
  exact h2.1.1.2

/-- Witness for C1 at a concrete two-operation sequence. -/
theorem runOps_I1_checked_witness :
    (runOpsC emptyStore [.manual sampleEvent 100900,
      .mark 100900 "e" 0 AlertStatus.Alerted none]).2 = true ∧
    I1holds (runOps emptyStore [.manual sampleEvent 100900,
      .mark 100900 "e" 0 AlertStatus.Alerted none]) = true :=
  ⟨by decide, runOps_I1_checked _ (by decide)⟩

/-- C1 counterexample: two `AddManualAlert` calls for the same event are a
sequence of public operations after which index consistency fails — the
second call overwrites the composite key `e-0` in `alertsById` while the
first alert object is still in its time bucket, so that bucket member is
no longer reachable from `alertsById`. -/
theorem runOps_I1_counterexample :
    I1holds (runOps emptyStore
      [.manual sampleEvent 100900, .manual sampleEvent 100900]) = false := by
  decide

/-! ## Claim C2 -/

/-- C2 (amended): a reconciliation pass from a store satisfying the
structural invariant, none of whose insertions overwrote an existing key,
leaves no orphan in either index (every alert in `alertsById` and every
bucket member has its owning event in `events`); its eviction step empties
every time bucket keyed below the cutoff minute, keeps only alerts whose
fire minute is at or after the cutoff minute, and removes every event
starting before the cutoff.  Starting from an arbitrary reachable state
the unqualified claim is refuted by `reconcile_no_orphans_counterexample`. -/
theorem reconcile_no_orphans (s : AlertStore) (hinv : Inv s = true)
    (now : Int) (evs : List Event) (mins : List Int) (cfg : Option Config)
    (hok : (updateEventsWithConfigC s now evs mins cfg).2 = true) :
    noOrphans (updateEventsWithConfig s now evs mins cfg) = true ∧
    (∀ k, k < roundToMinute (now - 43200) →
      bucketGet (updateEventsWithConfig s now evs mins cfg) k = []) ∧
    (∀ q ∈ (updateEventsWithConfig s now evs mins cfg).events,
      ¬(q.2.startTime < now - 43200)) ∧
    (∀ p ∈ (updateEventsWithConfig s now evs mins cfg).alertsById,
      roundToMinute (now - 43200) ≤ roundToMinute
        (heapGet (updateEventsWithConfig s now evs mins cfg) p.2).alertTime)
    := by
  obtain ⟨g1, g2, g3, g4, g5, g6⟩ := updateEventsWithConfigC_spec
    (inv_eq_true_iff.1 hinv) now evs mins cfg hok
  have hu : updateEventsWithConfig s now evs mins cfg =
      (updateEventsWithConfigC s now evs mins cfg).1 := rfl
  rw [hu]
  refine ⟨?_, g3, g2, g4⟩
  unfold noOrphans orphanFree
  simp only [Bool.and_eq_true, List.all_eq_true, decide_eq_true_eq]
  refine ⟨fun p hp => g1.orphan p hp, ?_⟩
  intro b hb r hr
  have hrb : r ∈ bucketGet (updateEventsWithConfigC s now evs mins cfg).1
      b.1 := by
    rw [bucketGet, alookup_of_mem g1.timeNodup hb]
    exact hr
  have href := g1.bucketSub b.1 r hrb
  rcases mem_refsOf.1 href with ⟨q, hq, hqe⟩
  exact hqe ▸ g1.orphan q hq

/-- Witness for C2: an empty reconciliation pass over `offsetStore`. -/
theorem reconcile_no_orphans_witness :
    Inv offsetStore = true ∧
    (updateEventsWithConfigC offsetStore 100900 [] [] none).2 = true ∧
    noOrphans (updateEventsWithConfig offsetStore 100900 [] [] none) =
      true :=
  ⟨by decide, by decide,
   (reconcile_no_orphans offsetStore (by decide) 100900 [] [] none
      (by decide)).1⟩

/-- C2 counterexample: after two manual adds of the same event, a
`RemoveEvent` and a completed (empty) reconciliation pass, a time bucket
still holds an alert whose owning event is gone, so the pass completed
with an orphan left in the time index. -/
theorem reconcile_no_orphans_counterexample :
    noOrphans (runOps emptyStore
      [.manual sampleEvent 100600, .manual sampleEvent 100600,
       .removeEv "e", .reconcile 100000 [] [] none]) = false := by
  decide

/-! ## Claim C7 -/

/-- C7: a reconciliation pass computes `cutoff = now - 12h` (43200
seconds); an event id every incoming mention of which starts before the
cutoff is never created or updated — its stored entry survives verbatim
when it starts at or after the cutoff and is removed when it starts
before (in particular a stored event at `now - 12h - 1s` is removed while
one at `now - 12h + 1s` is retained) — and every time bucket keyed below
the cutoff minute is emptied. -/
theorem reconcile_retention_boundary (s : AlertStore) (hinv : Inv s = true)
    (now : Int) (evs : List Event) (mins : List Int) (cfg : Option Config)
    (hok : (updateEventsWithConfigC s now evs mins cfg).2 = true) :
    (∀ eid, (∀ e ∈ evs, e.id = eid → e.startTime < now - 43200) →
      alookup eid (updateEventsWithConfig s now evs mins cfg).events =
        (match alookup eid s.events with
         | none => none
         | some E => if E.startTime < now - 43200 then none else some E)) ∧
    (∀ k, k < roundToMinute (now - 43200) →
      bucketGet (updateEventsWithConfig s now evs mins cfg) k = []) ∧
    (∀ eid E, alookup eid s.events = some E →
      (∀ e ∈ evs, e.id = eid → e.startTime < now - 43200) →
      (E.startTime = now - 43201 →
        alookup eid (updateEventsWithConfig s now evs mins cfg).events =
          none) ∧
      (E.startTime = now - 43199 →
        alookup eid (updateEventsWithConfig s now evs mins cfg).events =
          some E)) := by
  obtain ⟨g1, g2, g3, g4, g5, g6⟩ := updateEventsWithConfigC_spec
    (inv_eq_true_iff.1 hinv) now evs mins cfg hok
  have hu : updateEventsWithConfig s now evs mins cfg =
      (updateEventsWithConfigC s now evs mins cfg).1 := rfl
  rw [hu]
  refine ⟨g5, g3, ?_⟩
  intro eid E hE hall
  have h := g5 eid hall
  rw [hE] at h
  constructor
  · intro hb
    rw [h]
    show (if E.startTime < now - 43200 then none else some E) = none
    rw [if_pos (by omega)]
  · intro hb
    rw [h]
    show (if E.startTime < now - 43200 then none else some E) = some E
    rw [if_neg (by omega)]

/-- Witness for C7: the two boundary events of `retentionStore` and an
ignored incoming event far before the cutoff. -/
theorem reconcile_retention_boundary_witness :
    Inv retentionStore = true ∧
    (updateEventsWithConfigC retentionStore 143200
      [⟨"in", "i", "", 50000, 53600, "", "CONFIRMED", "cal"⟩] [] none).2 =
      true ∧
    alookup "old" retentionStore.events =
      some ⟨"old", "o", "", 99999, 103599, "", "CONFIRMED", "cal"⟩ ∧
    alookup "old" (updateEventsWithConfig retentionStore 143200
      [⟨"in", "i", "", 50000, 53600, "", "CONFIRMED", "cal"⟩] [] none).events
      = none ∧
    alookup "new" (updateEventsWithConfig retentionStore 143200
      [⟨"in", "i", "", 50000, 53600, "", "CONFIRMED", "cal"⟩] [] none).events
      = some ⟨"new", "n", "", 100001, 103601, "", "CONFIRMED", "cal"⟩ :=
  ⟨by decide, by decide, by decide,
   ((reconcile_retention_boundary retentionStore (by decide) 143200
      [⟨"in", "i", "", 50000, 53600, "", "CONFIRMED", "cal"⟩] [] none
      (by decide)).2.2 "old"
      ⟨"old", "o", "", 99999, 103599, "", "CONFIRMED", "cal"⟩ (by decide)
      (by decide)).1 (by decide),
   ((reconcile_retention_boundary retentionStore (by decide) 143200
      [⟨"in", "i", "", 50000, 53600, "", "CONFIRMED", "cal"⟩] [] none
      (by decide)).2.2 "new"
      ⟨"new", "n", "", 100001, 103601, "", "CONFIRMED", "cal"⟩ (by decide)
      (by decide)).2 (by decide)⟩

end FocusBreaker
